import Mathlib

/-! # AtlasSearch: ingestion pipeline and indexing consumer

A shallow embedding of the two services of the repository and the properties
of their specification.

* `services/consumer-service/src/consumer.cpp`: `ElasticsearchWriter`,
  `RedisClient`, `ProductEventConsumer`.
* `services/ingest-demo/src/ingest_server.cpp`: `AppendLog`, `SinkAPI`,
  `Batcher`, `IngestionServer`.

Conventions of the embedding.

* A C++ exception is a value of `Exn`; a function that may throw returns
  `Except Exn _`, and a `try/catch` is a `match` on that result.
* External collaborators (Elasticsearch, Redis, Kafka, the sink, the clock, the
  heap)
  are state plus an explicit outcome chosen by the environment, passed as an
  argument; every theorem quantifies over those outcomes.
* Wire text (HTTP bodies, cache values, log lines) is a `Text`: the JSON value
  it denotes when it is JSON text, its characters otherwise.
* Every operation on a collaborator is recorded in a trace, in program order.
* A function is run to completion by one thread, and what a thread does to a
  mutex is a sequence of lock operations. The ingestion pipeline is also given
  as a transition system whose steps are the parts of `consumerLoop` and of
  `flushBatch` between which another thread may act.
-/

namespace Atlas

/-! ## JSON values (`nlohmann::json`) -/

/-- JSON values as held by `nlohmann::json`. Integers (signed and unsigned) are
`num`; objects are association lists with at most one binding per key.
Floating-point numbers are not represented. -/
inductive Json where
  | null
  | bool (b : Bool)
  | num (n : Int)
  | str (s : String)
  | arr (xs : List Json)
  | obj (kvs : List (String × Json))

mutual
/-- Decision procedure for equality of JSON values. -/
def Json.decEq : (a b : Json) → Decidable (a = b)
  | .null, .null => isTrue rfl
  | .bool a, .bool b =>
    if h : a = b then isTrue (by rw [h]) else isFalse (fun h2 => h (Json.bool.inj h2))
  | .num a, .num b =>
    if h : a = b then isTrue (by rw [h]) else isFalse (fun h2 => h (Json.num.inj h2))
  | .str a, .str b =>
    if h : a = b then isTrue (by rw [h]) else isFalse (fun h2 => h (Json.str.inj h2))
  | .arr a, .arr b =>
    match Json.decEqList a b with
    | isTrue h => isTrue (by rw [h])
    | isFalse h => isFalse (fun h2 => h (Json.arr.inj h2))
  | .obj a, .obj b =>
    match Json.decEqMembers a b with
    | isTrue h => isTrue (by rw [h])
    | isFalse h => isFalse (fun h2 => h (Json.obj.inj h2))
  | .null, .bool _ | .null, .num _ | .null, .str _ | .null, .arr _ | .null, .obj _
  | .bool _, .null | .bool _, .num _ | .bool _, .str _ | .bool _, .arr _ | .bool _, .obj _
  | .num _, .null | .num _, .bool _ | .num _, .str _ | .num _, .arr _ | .num _, .obj _
  | .str _, .null | .str _, .bool _ | .str _, .num _ | .str _, .arr _ | .str _, .obj _
  | .arr _, .null | .arr _, .bool _ | .arr _, .num _ | .arr _, .str _ | .arr _, .obj _
  | .obj _, .null | .obj _, .bool _ | .obj _, .num _ | .obj _, .str _ | .obj _, .arr _ =>
    isFalse (fun h => Json.noConfusion h)
/-- Decision procedure for equality of JSON arrays. -/
def Json.decEqList : (a b : List Json) → Decidable (a = b)
  | [], [] => isTrue rfl
  | [], _ :: _ => isFalse (fun h => List.noConfusion h)
  | _ :: _, [] => isFalse (fun h => List.noConfusion h)
  | x :: xs, y :: ys =>
    match Json.decEq x y, Json.decEqList xs ys with
    | isTrue h₁, isTrue h₂ => isTrue (by rw [h₁, h₂])
    | isFalse h₁, _ => isFalse (fun h => h₁ (List.cons.inj h).1)
    | _, isFalse h₂ => isFalse (fun h => h₂ (List.cons.inj h).2)
/-- Decision procedure for equality of JSON object member lists. -/
def Json.decEqMembers : (a b : List (String × Json)) → Decidable (a = b)
  | [], [] => isTrue rfl
  | [], _ :: _ => isFalse (fun h => List.noConfusion h)
  | _ :: _, [] => isFalse (fun h => List.noConfusion h)
  | (k, x) :: xs, (l, y) :: ys =>
    if hk : k = l then
      match Json.decEq x y, Json.decEqMembers xs ys with
      | isTrue h₁, isTrue h₂ => isTrue (by rw [hk, h₁, h₂])
      | isFalse h₁, _ => isFalse (fun h => h₁ (Prod.mk.inj (List.cons.inj h).1).2)
      | _, isFalse h₂ => isFalse (fun h => h₂ (List.cons.inj h).2)
    else isFalse (fun h => hk (Prod.mk.inj (List.cons.inj h).1).1)
end

instance : DecidableEq Json := Json.decEq

instance : Inhabited Json := ⟨Json.null⟩

/-- C++ exceptions raised in the modelled code. All of them derive from
`std::exception`, so every `catch (const std::exception&)` catches them. -/
inductive Exn where
  /-- The `nlohmann::json::type_error` with its numeric id. -/
  | type_error (id : Nat)
  /-- The `nlohmann::json::parse_error`. -/
  | parse_error
  /-- The `std::runtime_error` with its message; a
  `std::filesystem::filesystem_error` is one. -/
  | runtime_error (what : String)
  /-- The `std::bad_alloc`. -/
  | bad_alloc
  deriving DecidableEq, Repr

deriving instance DecidableEq for Except

/-- Value bound to `key` in a member list (`std::map::find`). -/
def Json.lookup : List (String × Json) → String → Option Json
  | [], _ => none
  | (k, v) :: rest, key => if k = key then some v else Json.lookup rest key

/-- Member list with `key` bound to `v`: replaces the binding when the key is
present, adds one otherwise. -/
def Json.insert : List (String × Json) → String → Json → List (String × Json)
  | [], key, v => [(key, v)]
  | (k, x) :: rest, key, v =>
    if k = key then (k, v) :: rest else (k, x) :: Json.insert rest key v

/-- The `j.empty()` of nlohmann: `null` is empty, arrays and objects are empty
when they have no element, every other value is not empty. -/
def Json.empty : Json → Bool
  | .null => true
  | .arr xs => xs.isEmpty
  | .obj kvs => kvs.isEmpty
  | _ => false

/-- The `j.contains(key)` of nlohmann: true exactly for an object that has the key. -/
def Json.contains : Json → String → Bool
  | .obj kvs, key => (Json.lookup kvs key).isSome
  | _, _ => false

/-- Member `key` of an object, when there is one. -/
def Json.getKey? : Json → String → Option Json
  | .obj kvs, key => Json.lookup kvs key
  | _, _ => none

/-- Read access `j[key]` at a key that the caller has checked with `contains`. -/
def Json.getKey (j : Json) (key : String) : Json :=
  (j.getKey? key).getD Json.null

/-- Assignment `j[key] = v` through the non-const `operator[]`: `null` becomes an
object, an object gets or replaces the member, any other value throws
`type_error` 305. -/
def Json.setKey : Json → String → Json → Except Exn Json
  | .null, key, v => .ok (.obj [(key, v)])
  | .obj kvs, key, v => .ok (.obj (Json.insert kvs key v))
  | _, _, _ => .error (.type_error 305)

/-- Conversion of a C++ value to `int` (32 bits, two's complement). -/
def wrapInt32 (n : Int) : Int :=
  (n + 2147483648) % 4294967296 - 2147483648

/-- Implicit conversion `int x = j`: numbers are cast to `int`, booleans become
0 or 1, every other value throws `type_error` 302. -/
def Json.toInt : Json → Except Exn Int
  | .num n => .ok (wrapInt32 n)
  | .bool b => .ok (if b then 1 else 0)
  | _ => .error (.type_error 302)

/-- Implicit conversion `std::string s = j`: only strings convert, every other
value throws `type_error` 302. -/
def Json.toStr : Json → Except Exn String
  | .str s => .ok s
  | _ => .error (.type_error 302)

/-- Lexicographic `a <= b` on character sequences, characters compared by code
(`std::string::compare`; on UTF-8 text the byte order is the code order). -/
def lexLe : List Char → List Char → Bool
  | [], _ => true
  | _ :: _, [] => false
  | a :: as, b :: bs =>
    if a.toNat < b.toNat then true
    else if b.toNat < a.toNat then false
    else lexLe as bs

/-- The `a <= b` of `std::string`. -/
def strLe (a b : String) : Bool := lexLe a.data b.data

/-- Wire text: the characters sent over HTTP, stored in Redis or written on a
line of a log file. A text that is valid JSON is represented by the value it
parses to (`json j` is `j.dump()`, and any other layout of the same value);
`raw s` is a text that is not valid JSON, given by its characters. -/
inductive Text where
  | json (j : Json)
  | raw (s : String)
  deriving DecidableEq

/-- The `j.dump()` of nlohmann. -/
def Json.dump (j : Json) : Text := Text.json j

/-- The `nlohmann::json::parse(text)`: throws `parse_error` on text that is not JSON. -/
def Text.parse : Text → Except Exn Json
  | .json j => .ok j
  | .raw _ => .error .parse_error

/-- The `line.empty()` of a line of text: JSON text is never empty. -/
def Text.isEmpty : Text → Bool
  | .json _ => false
  | .raw s => s.isEmpty

/-! ## Indexing consumer (`consumer.h`, `consumer.cpp`) -/

/-- The `struct ProductEvent`; `version` is a C++ `int`. -/
structure ProductEvent where
  product_id : String
  event_id : String
  event_type : String
  version : Int
  updated_at : String
  data : Json
  deriving DecidableEq

/-- Values representable in a C++ `int`. -/
def inInt32 (n : Int) : Prop := -2147483648 ≤ n ∧ n ≤ 2147483647

instance (n : Int) : Decidable (inInt32 n) := by
  unfold inInt32; infer_instance

/-- Idempotency check `ProductEventConsumer::shouldProcess`: `ok true` applies the
event, `ok false` skips it, `error` is an exception thrown by a conversion. -/
def ProductEventConsumer.shouldProcess (event : ProductEvent) (existing_doc : Json) :
    Except Exn Bool :=
  if existing_doc.empty || !existing_doc.contains "_source" then
    .ok true
  else
    let source := existing_doc.getKey "_source"
    let versionSkips : Except Exn Bool :=
      if source.contains "version" then
        match (source.getKey "version").toInt with
        | .error x => .error x
        | .ok existing_version => .ok (decide (event.version ≤ existing_version))
      else .ok false
    match versionSkips with
    | .error x => .error x
    | .ok true => .ok false
    | .ok false =>
      if source.contains "updated_at" then
        match (source.getKey "updated_at").toStr with
        | .error x => .error x
        | .ok existing_updated_at =>
          if strLe event.updated_at existing_updated_at then .ok false else .ok true
      else .ok true

/-- The document sent to the index for a create or update event: `event.data`
with `version`, `updated_at` and `product_id` assigned in that order. Throws
`type_error` 305 when `event.data` is neither an object nor `null`. -/
def ProductEventConsumer.mkDocument (event : ProductEvent) : Except Exn Json :=
  match event.data.setKey "version" (Json.num event.version) with
  | .error x => .error x
  | .ok d1 =>
    match d1.setKey "updated_at" (Json.str event.updated_at) with
    | .error x => .error x
    | .ok d2 => d2.setKey "product_id" (Json.str event.product_id)

/-! ### Elasticsearch, seen through `ElasticsearchWriter` -/

/-- Documents held by Elasticsearch: index name and document id to the stored
`_source`. -/
abbrev Docs := String → String → Option Json

/-- Store `src` under `index`/`id`. -/
def Docs.put (d : Docs) (index id : String) (src : Json) : Docs :=
  fun i k => if i = index ∧ k = id then some src else d i k

/-- Remove the document under `index`/`id`. -/
def Docs.erase (d : Docs) (index id : String) : Docs :=
  fun i k => if i = index ∧ k = id then none else d i k

/-- What `curl_easy_perform` brings back: a transport failure, or a status code
and a body. -/
inductive Reply where
  | failed
  | response (status : Nat) (body : Text)
  deriving DecidableEq

/-- Faults the environment injects into one HTTP request. With `transport` and
`http5xx` the server does not apply the request; with `garbled` it applies the
request and the body that arrives is not JSON. -/
inductive Fault where
  | none
  | transport
  | http5xx (n : Nat)
  | garbled
  deriving DecidableEq

/-- Body of a successful `GET /<index>/_doc/<id>`. -/
def esEnvelope (index id : String) (src : Json) : Json :=
  Json.obj [("_index", Json.str index), ("_id", Json.str id),
            ("found", Json.bool true), ("_source", src)]

/-- Elasticsearch answering `GET /<index>/_doc/<id>`: 200 with the envelope of
the stored document, 404 when there is none. -/
def esGet (d : Docs) (index id : String) : Docs × Reply :=
  match d index id with
  | some src => (d, Reply.response 200 (esEnvelope index id src).dump)
  | none =>
    (d, Reply.response 404 (Json.obj [("_index", Json.str index), ("_id", Json.str id),
                                      ("found", Json.bool false)]).dump)

/-- Elasticsearch answering `PUT /<index>/_doc/<id>`: stores the body as the
document (201 when created, 200 when replaced), 400 on a body that is not JSON. -/
def esPut (d : Docs) (index id : String) (body : Text) : Docs × Reply :=
  match body.parse with
  | .error _ => (d, Reply.response 400 (Text.raw "bad request"))
  | .ok src =>
    (d.put index id src,
     Reply.response (if (d index id).isSome then 200 else 201)
       (Json.obj [("_index", Json.str index), ("_id", Json.str id)]).dump)

/-- Elasticsearch answering `DELETE /<index>/_doc/<id>`: 200 and the document is
removed, 404 when there is no such document. -/
def esDelete (d : Docs) (index id : String) : Docs × Reply :=
  match d index id with
  | some _ =>
    (d.erase index id,
     Reply.response 200 (Json.obj [("_index", Json.str index), ("_id", Json.str id),
                                   ("result", Json.str "deleted")]).dump)
  | none =>
    (d, Reply.response 404 (Json.obj [("_index", Json.str index), ("_id", Json.str id),
                                      ("result", Json.str "not_found")]).dump)

/-- One request under a fault: `ideal` is what the healthy server would do. -/
def serve (f : Fault) (d : Docs) (ideal : Docs × Reply) : Docs × Reply :=
  match f with
  | .none => ideal
  | .transport => (d, Reply.failed)
  | .http5xx n => (d, Reply.response (500 + n % 100) (Text.raw "server error"))
  | .garbled =>
    match ideal.2 with
    | .failed => ideal
    | .response status _ => (ideal.1, Reply.response status (Text.raw "<html>"))

/-- Tail of `ElasticsearchWriter::performRequest`: throws when the transfer
failed or the status is 400 or more, returns the body otherwise. -/
def ElasticsearchWriter.performRequest (reply : Reply) : Except Exn Text :=
  match reply with
  | .failed => .error (.runtime_error "CURL request failed")
  | .response status body =>
    if status ≥ 400 then .error (.runtime_error "HTTP error") else .ok body

/-- Operations issued on the collaborators, with their outcome. -/
inductive Op where
  | esGet (index id : String)
  | esPut (index id : String) (document : Json) (ok : Bool)
  | esDelete (index id : String) (ok : Bool)
  | sleep (ms : Int)
  | redisSet (key : String) (value : Text) (ok : Bool)
  | redisDel (key : String) (ok : Bool)
  deriving DecidableEq

/-- The `ElasticsearchWriter::getDocument`: the parsed body of the GET, or the
empty object when the request or the parse throws. -/
def ElasticsearchWriter.getDocument (d : Docs) (f : Fault) (index id : String) : Json :=
  match ElasticsearchWriter.performRequest (serve f d (esGet d index id)).2 with
  | .error _ => Json.obj []
  | .ok response =>
    match response.parse with
    | .error _ => Json.obj []
    | .ok j => j

/-- The loop of `ElasticsearchWriter::upsertDocument`, entered with `attempt`
failed attempts behind it; `faults n` is the fault of the PUT made after `n`
failures. `fuel` bounds the number of iterations. The backoff
`100 * std::pow(2, attempt - 1)` is taken exactly; it fits the `int` it is
stored in up to the 25th failure. -/
def ElasticsearchWriter.upsertLoop (faults : Nat → Fault) (index id : String)
    (document : Json) (max_retries : Int) :
    Nat → Nat → Docs → List Op → Bool × Docs × List Op
  | 0, _, d, tr => (false, d, tr)
  | fuel + 1, attempt, d, tr =>
    if (attempt : Int) < max_retries then
      let r := serve (faults attempt) d (esPut d index id document.dump)
      match ElasticsearchWriter.performRequest r.2 with
      | .ok _ => (true, r.1, tr ++ [Op.esPut index id document true])
      | .error _ =>
        let attempt := attempt + 1
        if (attempt : Int) ≥ max_retries then
          (false, r.1, tr ++ [Op.esPut index id document false])
        else
          let backoff_ms : Int := 100 * 2 ^ (attempt - 1)
          ElasticsearchWriter.upsertLoop faults index id document max_retries fuel attempt r.1
            (tr ++ [Op.esPut index id document false, Op.sleep backoff_ms])
    else (false, d, tr)

/-- The `ElasticsearchWriter::upsertDocument`; the loop runs at most `max_retries`
times, which is the fuel given to it. -/
def ElasticsearchWriter.upsertDocument (d : Docs) (faults : Nat → Fault) (index id : String)
    (document : Json) (max_retries : Int) : Bool × Docs × List Op :=
  ElasticsearchWriter.upsertLoop faults index id document max_retries max_retries.toNat 0 d []

/-- The `ElasticsearchWriter::deleteDocument`: one DELETE, no retry. -/
def ElasticsearchWriter.deleteDocument (d : Docs) (f : Fault) (index id : String) :
    Bool × Docs × List Op :=
  let r := serve f d (esDelete d index id)
  match ElasticsearchWriter.performRequest r.2 with
  | .ok _ => (true, r.1, [Op.esDelete index id true])
  | .error _ => (false, r.1, [Op.esDelete index id false])

/-! ### Redis, seen through `RedisClient` -/

/-- Entries held by Redis. -/
abbrev Cache := String → Option Text

/-- The `RedisClient::set`: `replied` tells whether the command got the status
reply `OK`; a command without that reply is taken not to have been executed. -/
def RedisClient.set (c : Cache) (replied : Bool) (key : String) (value : Text) :
    Bool × Cache :=
  if replied then (true, fun k => if k = key then some value else c k) else (false, c)

/-- The `RedisClient::del`: `replied` tells whether the command got an integer
reply; a command without that reply is taken not to have been executed. -/
def RedisClient.del (c : Cache) (replied : Bool) (key : String) : Bool × Cache :=
  if replied then (true, fun k => if k = key then none else c k) else (false, c)

/-! ### `ProductEventConsumer::processEvent` -/

/-- State of the two stores. -/
structure World where
  docs : Docs
  cache : Cache

/-- Outcomes chosen by the environment for the calls of one `processEvent`. -/
structure Oracle where
  get : Fault
  put : Nat → Fault
  delete : Fault
  redisSet : Bool
  redisDel : Bool

/-- Result of one `processEvent`: the value returned, the stores afterwards and
the operations issued. -/
structure Outcome where
  success : Bool
  world : World
  trace : List Op

/-- The `ProductEventConsumer::processEvent`. -/
def ProductEventConsumer.processEvent (event : ProductEvent) (w : World) (o : Oracle) :
    Outcome :=
  -- Step 1: fetch the existing document
  let existing_doc := ElasticsearchWriter.getDocument w.docs o.get "products" event.product_id
  let t1 := [Op.esGet "products" event.product_id]
  -- Step 2: idempotency check
  match ProductEventConsumer.shouldProcess event existing_doc with
  | .error _ => ⟨false, w, t1⟩
  | .ok false => ⟨true, w, t1⟩
  | .ok true =>
    -- Step 3: index mutation
    let step3 : Except Exn (Bool × Docs × List Op) :=
      if event.event_type = "delete" then
        .ok (ElasticsearchWriter.deleteDocument w.docs o.delete "products" event.product_id)
      else
        match ProductEventConsumer.mkDocument event with
        | .error x => .error x
        | .ok doc =>
          .ok (ElasticsearchWriter.upsertDocument w.docs o.put "products" event.product_id doc 3)
    match step3 with
    | .error _ => ⟨false, w, t1⟩
    | .ok (es_success, docs, t3) =>
      if !es_success then ⟨false, ⟨docs, w.cache⟩, t1 ++ t3⟩
      else
        -- Step 4: cache update
        let cache_key := "product:" ++ event.product_id
        if event.event_type = "delete" then
          let r := RedisClient.del w.cache o.redisDel cache_key
          ⟨true, ⟨docs, r.2⟩, t1 ++ t3 ++ [Op.redisDel cache_key r.1]⟩
        else
          let s := RedisClient.set w.cache o.redisSet cache_key event.data.dump
          if !s.1 then
            let r := RedisClient.del s.2 o.redisDel cache_key
            ⟨true, ⟨docs, r.2⟩,
              t1 ++ t3 ++ [Op.redisSet cache_key event.data.dump s.1, Op.redisDel cache_key r.1]⟩
          else
            ⟨true, ⟨docs, s.2⟩, t1 ++ t3 ++ [Op.redisSet cache_key event.data.dump s.1]⟩

/-- The per-event pipeline run over a sequence of deliveries, each with the
outcomes the environment chose for it. -/
def ProductEventConsumer.processAll : List (ProductEvent × Oracle) → World → World
  | [], w => w
  | (e, o) :: rest, w =>
    ProductEventConsumer.processAll rest (ProductEventConsumer.processEvent e w o).world

/-! ## Ingestion pipeline (`ingest_server.h`, `ingest_server.cpp`) -/

/-- The `struct Event`; `timestamp` is an `int64_t`, milliseconds since the epoch. -/
structure Event where
  id : String
  type : String
  data : Json
  timestamp : Int
  deriving DecidableEq

/-- Conversion of a C++ value to `int64_t`. -/
def wrapInt64 (n : Int) : Int :=
  (n + 9223372036854775808) % 18446744073709551616 - 9223372036854775808

/-- Implicit conversion `int64_t x = j`: `int64_t` is the library's own integer
type, for which only numbers convert; every other value, a boolean included,
throws `type_error` 302. -/
def Json.toInt64 : Json → Except Exn Int
  | .num n => .ok (wrapInt64 n)
  | _ => .error (.type_error 302)

/-- Read `j[key]` through the non-const `operator[]`: a missing member of an
object, and any member of `null`, reads as `null`; any other value throws
`type_error` 305. -/
def Json.index : Json → String → Except Exn Json
  | .null, _ => .ok .null
  | .obj kvs, key => .ok ((Json.lookup kvs key).getD .null)
  | _, _ => .error (.type_error 305)

/-- The `j.value(key, default)` with a string default: the member converted to a
string, the default when the object lacks the key, `type_error` 306 when `j`
is not an object. -/
def Json.valueStr : Json → String → String → Except Exn String
  | .obj kvs, key, dflt =>
    match Json.lookup kvs key with
    | some v => v.toStr
    | none => .ok dflt
  | _, _, _ => .error (.type_error 306)

/-- The `j.value(key, default)` with a JSON default. -/
def Json.valueJson : Json → String → Json → Except Exn Json
  | .obj kvs, key, dflt => .ok ((Json.lookup kvs key).getD dflt)
  | _, _, _ => .error (.type_error 306)

/-- The JSON object that `writeBatch` writes for one event. -/
def Event.toJson (event : Event) : Json :=
  Json.obj [("data", event.data), ("id", Json.str event.id),
            ("timestamp", Json.num event.timestamp), ("type", Json.str event.type)]

/-- The event that `readBatch` builds from one parsed line, fields converted in
the order `id`, `type`, `data`, `timestamp`. -/
def Event.ofJson (j : Json) : Except Exn Event :=
  match j.index "id" with
  | .error x => .error x
  | .ok jid =>
    match jid.toStr with
    | .error x => .error x
    | .ok id =>
      match j.index "type" with
      | .error x => .error x
      | .ok jty =>
        match jty.toStr with
        | .error x => .error x
        | .ok ty =>
          match j.index "data" with
          | .error x => .error x
          | .ok data =>
            match j.index "timestamp" with
            | .error x => .error x
            | .ok jts =>
              match jts.toInt64 with
              | .error x => .error x
              | .ok ts => .ok ⟨id, ty, data, ts⟩

/-! ### `AppendLog` -/

/-- One entry of the log directory. For a regular file `lines` is its content,
line by line. An entry that is not a regular file is a directory, and `lines`
then stands for what it holds: `[]` for an empty directory. -/
structure DirEntry where
  name : String
  is_regular_file : Bool
  lines : List Text
  deriving DecidableEq

/-- The `AppendLog`: the entries of `log_dir_` (in the order the directory
iterator yields them) and `batch_counter_`. The names of the entries, and the
file names handed to `readBatch` and `deleteBatch`, are single path
components, or the empty name or one of `.` and `..`, whose path is a
directory and which name no entry. -/
structure AppendLog where
  dir : List DirEntry
  batch_counter : Nat
  deriving DecidableEq

/-- Decimal digits of `n`, least significant first; `fuel` bounds their number. -/
def decimalRev : Nat → Nat → List Char
  | 0, _ => []
  | fuel + 1, n =>
    Nat.digitChar (n % 10) :: (if n / 10 = 0 then [] else decimalRev fuel (n / 10))

/-- The characters `operator<<` prints for a non-negative `int`. -/
def decimal (n : Nat) : String := String.mk (decimalRev (n + 1) n).reverse

/-- Name of the batch file made at local time `stamp` (the `%Y%m%d_%H%M%S`
rendering of the clock) with counter value `counter`. -/
def AppendLog.fileName (stamp : String) (counter : Nat) : String :=
  "batch_" ++ stamp ++ "_" ++ decimal counter ++ ".jsonl"

/-- Names of the entries of a directory. -/
def dirNames (dir : List DirEntry) : List String := dir.map DirEntry.name

/-- Directory after `std::ofstream` wrote `lines` to `name`: an existing file is
truncated and rewritten, a missing one is created. -/
def dirWrite : List DirEntry → String → List Text → List DirEntry
  | [], name, lines => [⟨name, true, lines⟩]
  | d :: rest, name, lines =>
    if d.name = name then ⟨name, true, lines⟩ :: rest else d :: dirWrite rest name lines

/-- The `AppendLog::writeBatch`. `stamp` is the clock reading, `openOk` tells
whether the environment lets the file be opened; opening also fails when the
name is taken by an entry that is not a regular file. The counter is
incremented before the file is opened. Returns the file name, or the exception. -/
def AppendLog.writeBatch (log : AppendLog) (stamp : String) (openOk : Bool)
    (events : List Event) : Except Exn String × AppendLog :=
  let filename := AppendLog.fileName stamp log.batch_counter
  let counter := log.batch_counter + 1
  if openOk && !(log.dir.any (fun d => d.name = filename && !d.is_regular_file)) then
    (.ok filename, ⟨dirWrite log.dir filename (events.map (fun e => e.toJson.dump)), counter⟩)
  else
    (.error (.runtime_error "Failed to open log file"), ⟨log.dir, counter⟩)

/-- Directory without the entry named `filename`. -/
def dirRemove (dir : List DirEntry) (filename : String) : List DirEntry :=
  dir.filter (fun d => d.name ≠ filename)

/-- The `AppendLog::deleteBatch`: `fs::remove` of `log_dir_ + "/" + filename` when
that path exists. With the empty file name the path is the log directory
itself: it exists, and `fs::remove` throws while it holds an entry (when it
holds none the directory itself is removed, which the model does not
record); with `.` or `..` the path exists and `fs::remove` throws. Otherwise
nothing is done when no entry has the name; a regular file and an empty
directory are removed; on a directory that is not empty `fs::remove`
throws. -/
def AppendLog.deleteBatch (log : AppendLog) (filename : String) : Except Exn AppendLog :=
  if filename = "" then
    if log.dir.isEmpty then .ok log
    else .error (.runtime_error "filesystem error: cannot remove: Directory not empty")
  else if filename = "." ∨ filename = ".." then
    .error (.runtime_error "filesystem error: cannot remove")
  else
    match log.dir.find? (fun d => d.name = filename) with
    | none => .ok log
    | some d =>
      if d.is_regular_file || d.lines.isEmpty then
        .ok ⟨dirRemove log.dir filename, log.batch_counter⟩
      else .error (.runtime_error "filesystem error: cannot remove: Directory not empty")

/-- Suffix of `cs` that starts at its last period, when it has one. -/
def lastDotSuffix : List Char → Option (List Char)
  | [] => none
  | c :: rest =>
    match lastDotSuffix rest with
    | some s => some s
    | none => if c = '.' then some (c :: rest) else none

/-- The `path::extension()` of a file name: from the last period to the end; a
period that is the first character does not start an extension, and the
names `.` and `..` have none. -/
def extension (filename : String) : String :=
  if filename = "." ∨ filename = ".." then ""
  else
    match filename.data with
    | [] => ""
    | _ :: rest =>
      match lastDotSuffix rest with
      | some s => String.mk s
      | none => ""

/-- Insertion of a name into an ascending list. -/
def insertSorted (x : String) : List String → List String
  | [] => [x]
  | y :: ys => if strLe x y then x :: y :: ys else y :: insertSorted x ys

/-- The `std::sort` of a vector of names: ascending in `std::string` order. -/
def sortNames : List String → List String
  | [] => []
  | x :: xs => insertSorted x (sortNames xs)

/-- Whether `getPendingBatches` selects the entry. -/
def DirEntry.isPending (d : DirEntry) : Bool :=
  d.is_regular_file && extension d.name = ".jsonl"

/-- The `AppendLog::getPendingBatches`. -/
def AppendLog.getPendingBatches (log : AppendLog) : List String :=
  sortNames ((log.dir.filter DirEntry.isPending).map DirEntry.name)

/-- The loop of `readBatch` over the lines of the file. -/
def readLines : List Text → Except Exn (List Event)
  | [] => .ok []
  | line :: rest =>
    if line.isEmpty then readLines rest
    else
      match line.parse with
      | .error x => .error x
      | .ok j =>
        match Event.ofJson j with
        | .error x => .error x
        | .ok event =>
          match readLines rest with
          | .error x => .error x
          | .ok events => .ok (event :: events)

/-- The `AppendLog::readBatch`: throws when the file cannot be opened (no entry
of that name) or when a line does not convert to an event. On a directory
`std::ifstream` opens and `std::getline` reads nothing: the result is the
empty list; so it is with the empty file name and with `.` and `..`, whose
path is a directory. -/
def AppendLog.readBatch (log : AppendLog) (filename : String) : Except Exn (List Event) :=
  match log.dir.find? (fun d => d.name = filename) with
  | none =>
    if filename = "" ∨ filename = "." ∨ filename = ".." then .ok []
    else .error (.runtime_error "Failed to open batch file")
  | some d =>
    if d.is_regular_file then readLines d.lines
    else .ok []

/-! ### `SinkAPI`, `Batcher` -/

/-- The `SinkAPI`; `rate_positive` is the test `failure_rate_ > 0.0`. -/
structure SinkAPI where
  rate_positive : Bool
  deriving DecidableEq

/-- The `SinkAPI::sendBatch`; `drawBelowRate` is the outcome of the test
`dis(gen) < failure_rate_` on the random draw of this call. -/
def SinkAPI.sendBatch (sink : SinkAPI) (drawBelowRate : Bool) (_events : List Event) : Bool :=
  if sink.rate_positive then
    if drawBelowRate then false else true
  else true

/-- Operations of the ingestion pipeline on the log directory and the sink. -/
inductive IngestOp where
  | write (filename : String) (events : List Event)
  | send (events : List Event) (ok : Bool)
  | delete (filename : String)
  | deleteFailed (filename : String)
  | readFailed (filename : String)
  deriving DecidableEq

/-- The `Batcher`: its parameters and `current_batch_`. -/
structure Batcher where
  max_batch_size : Int
  max_wait_ms : Int
  current_batch : List Event
  deriving DecidableEq

/-- The `Batcher::addEvent`; the second component tells whether the worker was
notified (`max_batch_size_` is compared as a `size_t`). -/
def Batcher.addEvent (b : Batcher) (event : Event) : Batcher × Bool :=
  let batch := b.current_batch ++ [event]
  ({ b with current_batch := batch },
   decide ((batch.length : Int) ≥ b.max_batch_size % 18446744073709551616))

/-- State that `flushBatch` works on, and what it leaves behind. -/
structure FlushResult where
  batcher : Batcher
  log : AppendLog
  /-- The operations made, in order. -/
  trace : List IngestOp
  /-- The exception that left `flushBatch`, if any. -/
  thrown : Option Exn
  /-- The batch the sink acknowledged, if any. -/
  acked : Option (List Event)
  deriving DecidableEq

/-- The `Batcher::flushBatch`, run to completion by one thread. -/
def Batcher.flushBatch (b : Batcher) (log : AppendLog) (sink : SinkAPI)
    (stamp : String) (openOk : Bool) (drawBelowRate : Bool) : FlushResult :=
  if b.current_batch.isEmpty then ⟨b, log, [], none, none⟩
  else
    let batch_to_send := b.current_batch
    let b1 : Batcher := { b with current_batch := [] }
    -- Step 1: write to the append log
    match AppendLog.writeBatch log stamp openOk batch_to_send with
    | (.error x, log1) => ⟨b1, log1, [], some x, none⟩
    | (.ok filename, log1) =>
      -- Step 2: send to the sink
      let success := sink.sendBatch drawBelowRate batch_to_send
      -- Step 3: delete the log file on success
      if success then
        match log1.deleteBatch filename with
        | .ok log2 =>
          ⟨b1, log2,
            [IngestOp.write filename batch_to_send, IngestOp.send batch_to_send true,
             IngestOp.delete filename], none, some batch_to_send⟩
        | .error x =>
          ⟨b1, log1,
            [IngestOp.write filename batch_to_send, IngestOp.send batch_to_send true,
             IngestOp.deleteFailed filename], some x, some batch_to_send⟩
      else
        ⟨b1, log1,
          [IngestOp.write filename batch_to_send, IngestOp.send batch_to_send false],
          none, none⟩

/-! ### `IngestionServer` -/

/-- A `boost::lockfree::queue<Event*>`. `pool` counts the free nodes of its
freelist; `fixed_sized` is the option of that name of the queue type, which
the server leaves at its default: its queue is not fixed-sized. -/
structure LockfreeQueue where
  items : List Event
  pool : Nat
  fixed_sized : Bool
  deriving DecidableEq

/-- The constructor `queue(size_type n)` of the queue type the server uses: `n`
nodes are put on the freelist. -/
def LockfreeQueue.create (n : Nat) : LockfreeQueue := ⟨[], n, false⟩

/-- The `queue::push`: takes a node from the freelist. When the freelist is
exhausted, a fixed-sized queue returns false; a queue that is not fixed-sized
allocates a node from the heap, and when that allocation fails (`heapOk`
false) the allocator's `std::bad_alloc` leaves `push`. -/
def LockfreeQueue.push (q : LockfreeQueue) (heapOk : Bool) (event : Event) :
    Except Exn (Bool × LockfreeQueue) :=
  if q.pool > 0 then .ok (true, ⟨q.items ++ [event], q.pool - 1, q.fixed_sized⟩)
  else if q.fixed_sized then .ok (false, q)
  else if heapOk then .ok (true, ⟨q.items ++ [event], 0, q.fixed_sized⟩)
  else .error .bad_alloc

/-- The `queue::pop`: the oldest element, whose node goes back to the freelist. -/
def LockfreeQueue.pop (q : LockfreeQueue) : Option Event × LockfreeQueue :=
  match q.items with
  | [] => (none, q)
  | event :: rest => (some event, ⟨rest, q.pool + 1, q.fixed_sized⟩)

/-- The `IngestionServer`. -/
structure IngestionServer where
  port : Int
  queue_size : Int
  log : AppendLog
  sink : SinkAPI
  batcher : Batcher
  event_queue : LockfreeQueue
  running : Bool
  deriving DecidableEq

/-- The constructor of `IngestionServer`, over the entries found in `log_dir`. -/
def IngestionServer.create (port queue_size batch_size batch_wait_ms : Int)
    (dir : List DirEntry) : IngestionServer :=
  { port := port
    queue_size := queue_size
    log := ⟨dir, 0⟩
    sink := ⟨false⟩
    batcher := ⟨batch_size, batch_wait_ms, []⟩
    event_queue := LockfreeQueue.create queue_size.toNat
    running := false }

/-- The part of `handlePostEvent` that turns the body into an `Event`, stamped
with the clock reading `now`. -/
def IngestionServer.bodyToEvent (body : Text) (now : Int) : Except Exn Event :=
  match body.parse with
  | .error x => .error x
  | .ok j =>
    match j.valueStr "id" "" with
    | .error x => .error x
    | .ok id =>
      match j.valueStr "type" "" with
      | .error x => .error x
      | .ok ty =>
        match j.valueJson "data" (Json.obj []) with
        | .error x => .error x
        | .ok data => .ok ⟨id, ty, data, now⟩

/-- What `handlePostEvent` hands back: the status code, the response body and
the server afterwards. -/
structure PostResult where
  status_code : Nat
  response : Text
  server : IngestionServer
  deriving DecidableEq

/-- The `IngestionServer::handlePostEvent`. Every `std::exception` thrown in its
`try` block, the `std::bad_alloc` of `push` included, is answered with 400. -/
def IngestionServer.handlePostEvent (srv : IngestionServer) (body : Text) (now : Int)
    (heapOk : Bool) : PostResult :=
  match IngestionServer.bodyToEvent body now with
  | .error _ => ⟨400, Text.json (Json.obj [("error", Json.str "Invalid JSON")]), srv⟩
  | .ok event =>
    match srv.event_queue.push heapOk event with
    | .error _ => ⟨400, Text.json (Json.obj [("error", Json.str "Invalid JSON")]), srv⟩
    | .ok (true, q) =>
      ⟨202, Text.json (Json.obj [("status", Json.str "accepted")]),
        { srv with event_queue := q }⟩
    | .ok (false, q) =>
      -- queue is full: backpressure
      ⟨429, Text.json (Json.obj [("error", Json.str "Queue full, please retry later")]),
        { srv with event_queue := q }⟩

/-- Result of `replayPendingBatches`. -/
structure ReplayResult where
  log : AppendLog
  trace : List IngestOp
  /-- The files whose replay was attempted, in order. -/
  attempted : List String
  deriving DecidableEq

/-- The loop of `replayPendingBatches` over the pending names; `drawBelowRate f`
is the outcome of the random draw in the `sendBatch` call made for file `f`. -/
def IngestionServer.replayLoop (sink : SinkAPI) (drawBelowRate : String → Bool) :
    List String → AppendLog → ReplayResult
  | [], log => ⟨log, [], []⟩
  | filename :: rest, log =>
    match log.readBatch filename with
    | .error _ =>
      let r := IngestionServer.replayLoop sink drawBelowRate rest log
      ⟨r.log, IngestOp.readFailed filename :: r.trace, filename :: r.attempted⟩
    | .ok events =>
      let success := sink.sendBatch (drawBelowRate filename) events
      if success then
        match log.deleteBatch filename with
        | .ok log2 =>
          let r := IngestionServer.replayLoop sink drawBelowRate rest log2
          ⟨r.log, IngestOp.send events true :: IngestOp.delete filename :: r.trace,
            filename :: r.attempted⟩
        | .error _ =>
          -- caught with the exceptions of the read: the file stays
          let r := IngestionServer.replayLoop sink drawBelowRate rest log
          ⟨r.log, IngestOp.send events true :: IngestOp.deleteFailed filename :: r.trace,
            filename :: r.attempted⟩
      else
        let r := IngestionServer.replayLoop sink drawBelowRate rest log
        ⟨r.log, IngestOp.send events false :: r.trace, filename :: r.attempted⟩

/-- The `IngestionServer::replayPendingBatches`. -/
def IngestionServer.replayPendingBatches (srv : IngestionServer)
    (drawBelowRate : String → Bool) : ReplayResult :=
  IngestionServer.replayLoop srv.sink drawBelowRate srv.log.getPendingBatches srv.log


/-- Member `key` of `src` read as an `int`: `none` when `src` has no such member,
otherwise the result of the conversion. -/
def Json.intField (src : Json) (key : String) : Option (Except Exn Int) :=
  if src.contains key then some (src.getKey key).toInt else none

/-- Member `key` of `src` read as a string: `none` when `src` has no such member,
otherwise the result of the conversion. -/
def Json.strField (src : Json) (key : String) : Option (Except Exn String) :=
  if src.contains key then some (src.getKey key).toStr else none

/-- Environment in which the index operations of one `processEvent` succeed: no
fault on the GET, on the first PUT and on the DELETE. -/
def IndexOpsSucceed (o : Oracle) : Prop :=
  o.get = Fault.none ∧ o.put 0 = Fault.none ∧ o.delete = Fault.none

instance (o : Oracle) : Decidable (IndexOpsSucceed o) := by
  unfold IndexOpsSucceed; infer_instance

/-- Document that a fault-free GET hands to `shouldProcess` for a stored value:
the envelope of the stored document, the empty object when there is none. -/
def fetched (stored : Option Json) (index id : String) : Json :=
  match stored with
  | some src => esEnvelope index id src
  | none => Json.obj []

/-- Whether the operation is a cache operation. -/
def Op.isCache : Op → Bool
  | .redisSet _ _ _ => true
  | .redisDel _ _ => true
  | _ => false

/-- The cache operations of a trace, in order. -/
def cacheOps (tr : List Op) : List Op := tr.filter Op.isCache

/-- Whether the operation is an index mutation that succeeded. -/
def Op.isIndexSuccess : Op → Bool
  | .esPut _ _ _ ok => ok
  | .esDelete _ _ ok => ok
  | _ => false

/-- Whether the trace holds an index mutation that succeeded. -/
def indexSucceeded (tr : List Op) : Bool := tr.any Op.isIndexSuccess

/-- Whether replay delivers the file: its lines read as events and the sink
accepts them. -/
def DirEntry.replayed (sink : SinkAPI) (drawBelowRate : String → Bool) (d : DirEntry) : Bool :=
  match readLines d.lines with
  | .ok events => sink.sendBatch (drawBelowRate d.name) events
  | .error _ => false

/-- Whether replay of the file named `f` in `log` ends with its deletion. -/
def AppendLog.replayDeletes (log : AppendLog) (sink : SinkAPI) (draw : String → Bool)
    (f : String) : Bool :=
  match log.readBatch f with
  | .ok events => sink.sendBatch (draw f) events
  | .error _ => false

/-- The operations of a replay of the files `names` in which every file is read
as it stands in `log`: the read that throws; or the sink call with the events
read, followed by the deletion of the file when the sink accepted them. -/
def AppendLog.replayOps (log : AppendLog) (sink : SinkAPI) (draw : String → Bool) :
    List String → List IngestOp
  | [] => []
  | f :: rest =>
    (match log.readBatch f with
     | .error _ => [IngestOp.readFailed f]
     | .ok events =>
       if sink.sendBatch (draw f) events then
         [IngestOp.send events true, IngestOp.delete f]
       else [IngestOp.send events false]) ++ log.replayOps sink draw rest

/-- The name is that of an entry which `deleteBatch` can remove as a file: it is
not a name that a path resolves to a directory, and the entry of that name
is a regular file. -/
def AppendLog.holdsFile (log : AppendLog) (f : String) : Prop :=
  f ≠ "" ∧ f ≠ "." ∧ f ≠ ".." ∧
    ∃ d, log.dir.find? (fun x => x.name = f) = some d ∧ d.is_regular_file = true

/-- Number denoted by decimal digits given least significant first. -/
def digitsValue : List Char → Nat
  | [] => 0
  | c :: cs => (c.toNat - 48) + 10 * digitsValue cs

/-- Every file of the log directory was written by this `AppendLog` instance: its
name was made from a counter value already used. -/
def AppendLog.Owned (log : AppendLog) : Prop :=
  ∀ d ∈ log.dir, ∃ stamp c, c < log.batch_counter ∧ d.name = AppendLog.fileName stamp c

/-- The file that `writeBatch` makes for a batch. -/
def batchFile (filename : String) (events : List Event) : DirEntry :=
  ⟨filename, true, events.map (fun e => e.toJson.dump)⟩

/-! ### The pipeline as a transition system -/

/-- Where a `flushBatch` under way stands: not running; batch taken from
`current_batch_` into `batch_to_send`; file written; sink has accepted the
batch and the file is not yet deleted. -/
inductive FlushPhase where
  | idle
  | taken (batch_to_send : List Event)
  | written (batch_to_send : List Event) (filename : String)
  | delivered (batch_to_send : List Event) (filename : String)
  deriving DecidableEq

/-- The ingestion pipeline between any two of its actions, with its history: the
server (accept queue, Batcher, log directory), the local variable `event` of
`consumerLoop` between `pop` and `addEvent`, the `flushBatch` under way, the
batches the sink has acknowledged and the events that were answered 202. -/
structure Pipeline where
  server : IngestionServer
  popped : Option Event
  flush : FlushPhase
  acked : List (List Event)
  accepted : List Event
  deriving DecidableEq

/-- A request handled by `handlePostEvent`. -/
def Pipeline.post (p : Pipeline) (body : Text) (now : Int) (heapOk : Bool) : Pipeline :=
  let r := p.server.handlePostEvent body now heapOk
  { p with
    server := r.server
    accepted :=
      match IngestionServer.bodyToEvent body now with
      | .ok event => if r.status_code = 202 then p.accepted ++ [event] else p.accepted
      | .error _ => p.accepted }

/-- The `event_queue_->pop(event)` of `consumerLoop` (and of the drain loop of
`stop`): the event popped is held in the local variable. -/
def Pipeline.pop (p : Pipeline) : Pipeline :=
  match p.popped with
  | some _ => p
  | none =>
    match p.server.event_queue.pop with
    | (some event, q) => { p with server := { p.server with event_queue := q }, popped := some event }
    | (none, q) => { p with server := { p.server with event_queue := q } }

/-- The `batcher_->addEvent(*event)` that follows a successful `pop`. -/
def Pipeline.add (p : Pipeline) : Pipeline :=
  match p.popped with
  | none => p
  | some event =>
    { p with server := { p.server with batcher := (p.server.batcher.addEvent event).1 },
             popped := none }

/-- The first part of `flushBatch`: a batch that is not empty is moved from
`current_batch_` to `batch_to_send`. -/
def Pipeline.take (p : Pipeline) : Pipeline :=
  match p.flush with
  | .idle =>
    if p.server.batcher.current_batch.isEmpty then p
    else
      { p with
        server := { p.server with batcher := { p.server.batcher with current_batch := [] } }
        flush := FlushPhase.taken p.server.batcher.current_batch }
  | _ => p

/-- Step 1 of `flushBatch`, `writeBatch`, when it returns a file name. -/
def Pipeline.write (p : Pipeline) (stamp : String) (openOk : Bool) : Pipeline :=
  match p.flush with
  | .taken batch_to_send =>
    match p.server.log.writeBatch stamp openOk batch_to_send with
    | (.ok filename, log1) =>
      { p with server := { p.server with log := log1 }
               flush := FlushPhase.written batch_to_send filename }
    | (.error _, _) => p
  | _ => p

/-- Step 2 of `flushBatch`, `sendBatch`: after a failure `flushBatch` ends. -/
def Pipeline.send (p : Pipeline) (drawBelowRate : Bool) : Pipeline :=
  match p.flush with
  | .written batch_to_send filename =>
    if p.server.sink.sendBatch drawBelowRate batch_to_send then
      { p with flush := FlushPhase.delivered batch_to_send filename
               acked := p.acked ++ [batch_to_send] }
    else { p with flush := FlushPhase.idle }
  | _ => p

/-- Step 3 of `flushBatch`, `deleteBatch` after a success, when it returns. -/
def Pipeline.delete (p : Pipeline) : Pipeline :=
  match p.flush with
  | .delivered _ filename =>
    match p.server.log.deleteBatch filename with
    | .ok log2 => { p with server := { p.server with log := log2 }, flush := FlushPhase.idle }
    | .error _ => p
  | _ => p

/-- Actions of the pipeline: a request; the two halves of an iteration of
`consumerLoop`; the four parts of a `flushBatch`, one `flushBatch` being
under way at a time. A log write that throws is not a step. The steps do not
tell which thread makes them: every interleaving of the threads is a
sequence of steps. -/
inductive Pipeline.Step : Pipeline → Pipeline → Prop where
  | post (p : Pipeline) (body : Text) (now : Int) (heapOk : Bool) :
      Pipeline.Step p (p.post body now heapOk)
  | pop (p : Pipeline) : Pipeline.Step p p.pop
  | add (p : Pipeline) : Pipeline.Step p p.add
  | take (p : Pipeline) : Pipeline.Step p p.take
  | write (p : Pipeline) (stamp : String) (openOk : Bool)
      (hwrite : ∀ batch_to_send, p.flush = FlushPhase.taken batch_to_send →
        ∃ filename, (p.server.log.writeBatch stamp openOk batch_to_send).1 = .ok filename) :
      Pipeline.Step p (p.write stamp openOk)
  | send (p : Pipeline) (drawBelowRate : Bool) : Pipeline.Step p (p.send drawBelowRate)
  | delete (p : Pipeline) : Pipeline.Step p p.delete

/-- States reached from `init` by actions of the pipeline. -/
inductive Pipeline.Reachable (init : Pipeline) : Pipeline → Prop where
  | start : Pipeline.Reachable init init
  | step {p q : Pipeline} : Pipeline.Reachable init p → Pipeline.Step p q →
      Pipeline.Reachable init q

/-- The pipeline of a server that has just been constructed. -/
def Pipeline.fresh (port queue_size batch_size batch_wait_ms : Int) (dir : List DirEntry) :
    Pipeline :=
  ⟨IngestionServer.create port queue_size batch_size batch_wait_ms dir, none,
    FlushPhase.idle, [], []⟩

/-- The event is in the batch that a `flushBatch` under way holds in
`batch_to_send` and has not yet written. -/
def Pipeline.inFlight (p : Pipeline) (event : Event) : Prop :=
  match p.flush with
  | .taken batch_to_send => event ∈ batch_to_send
  | _ => False

/-- The event is in a batch file on disk: a line of a regular file of the log
directory is the text written for it. -/
def Pipeline.onDisk (p : Pipeline) (event : Event) : Prop :=
  ∃ d ∈ p.server.log.dir, d.is_regular_file = true ∧ event.toJson.dump ∈ d.lines

/-- The event is in a batch that the sink has acknowledged. -/
def Pipeline.isAcked (p : Pipeline) (event : Event) : Prop :=
  ∃ batch ∈ p.acked, event ∈ batch

instance (p : Pipeline) (event : Event) : Decidable (p.inFlight event) := by
  unfold Pipeline.inFlight; cases p.flush <;> infer_instance

instance (p : Pipeline) (event : Event) : Decidable (p.onDisk event) := by
  unfold Pipeline.onDisk; infer_instance

instance (p : Pipeline) (event : Event) : Decidable (p.isAcked event) := by
  unfold Pipeline.isAcked; infer_instance

/-- The counter values whose files are those of flushes that have ended: all
values used so far, but for the file of the `flushBatch` under way. -/
def Pipeline.settled (p : Pipeline) : Nat :=
  match p.flush with
  | .written _ _ => p.server.log.batch_counter - 1
  | .delivered _ _ => p.server.log.batch_counter - 1
  | _ => p.server.log.batch_counter

/-- The batch that the `flushBatch` under way holds. -/
def Pipeline.held (p : Pipeline) : List Event :=
  match p.flush with
  | .idle => []
  | .taken b => b
  | .written b _ => b
  | .delivered b _ => b

/-- Where an accepted event may be: in the accept queue, in the hands of
`consumerLoop`, in the in-memory batch, in the batch held by the `flushBatch`
under way, in a file written by a flush of this run that has ended, or in an
acknowledged batch. -/
def Pipeline.Located (p : Pipeline) (event : Event) : Prop :=
  event ∈ p.server.event_queue.items ∨
  p.popped = some event ∨
  event ∈ p.server.batcher.current_batch ∨
  event ∈ p.held ∨
  (∃ d ∈ p.server.log.dir, d.is_regular_file = true ∧ (∃ stamp c, c < p.settled ∧
      d.name = AppendLog.fileName stamp c) ∧ event.toJson.dump ∈ d.lines) ∨
  p.isAcked event

/-- What the `flushBatch` under way has done: once the file is written, it is in
the directory under the name made from the last counter value and holds the
batch; once the sink has accepted the batch, the batch is acknowledged. -/
def Pipeline.FlushOk (p : Pipeline) : Prop :=
  match p.flush with
  | .idle => True
  | .taken _ => True
  | .written b f =>
    0 < p.server.log.batch_counter ∧
    (∃ stamp, f = AppendLog.fileName stamp (p.server.log.batch_counter - 1)) ∧
    batchFile f b ∈ p.server.log.dir
  | .delivered b f =>
    0 < p.server.log.batch_counter ∧
    (∃ stamp, f = AppendLog.fileName stamp (p.server.log.batch_counter - 1)) ∧
    batchFile f b ∈ p.server.log.dir ∧ b ∈ p.acked

/-- The invariant of the pipeline: every accepted event is located, and the
`flushBatch` under way has done what its phase says. -/
def Pipeline.Inv (p : Pipeline) : Prop :=
  (∀ event ∈ p.accepted, p.Located event) ∧ p.FlushOk

/-! ### Characters of wire text -/

/-- The characters `dump()` prints for an integer. -/
def renderInt (n : Int) : List Char :=
  if n < 0 then '-' :: (decimal n.natAbs).data else (decimal n.natAbs).data

/-- Escape of one character inside a JSON string, as `dump()` prints it: the
quote and the backslash get a backslash, control characters their short or
`\u00xx` form, every other character is copied. -/
def escapeChar (c : Char) : List Char :=
  if c = Char.ofNat 34 then [Char.ofNat 92, Char.ofNat 34]
  else if c = Char.ofNat 92 then [Char.ofNat 92, Char.ofNat 92]
  else if c = Char.ofNat 8 then [Char.ofNat 92, 'b']
  else if c = Char.ofNat 9 then [Char.ofNat 92, 't']
  else if c = Char.ofNat 10 then [Char.ofNat 92, 'n']
  else if c = Char.ofNat 12 then [Char.ofNat 92, 'f']
  else if c = Char.ofNat 13 then [Char.ofNat 92, 'r']
  else if c.toNat < 32 then
    [Char.ofNat 92, 'u', '0', '0', Nat.digitChar (c.toNat / 16), Nat.digitChar (c.toNat % 16)]
  else [c]

/-- A JSON string literal: the escaped characters between quotes. -/
def quoteString (s : String) : List Char :=
  Char.ofNat 34 :: (s.data.flatMap escapeChar ++ [Char.ofNat 34])

mutual
/-- The characters of the compact serialisation of a JSON value. -/
def Json.render : Json → List Char
  | .str s => quoteString s
  | .num n => renderInt n
  | .bool b => (if b then "true" else "false").data
  | .null => "null".data
  | .arr xs => Char.ofNat 91 :: (Json.renderList xs ++ [Char.ofNat 93])
  | .obj kvs => Char.ofNat 123 :: (Json.renderMembers kvs ++ [Char.ofNat 125])
/-- The elements of an array, separated by commas. -/
def Json.renderList : List Json → List Char
  | [] => []
  | x :: xs => Json.render x ++ (if xs.isEmpty then [] else ',' :: Json.renderList xs)
/-- The members of an object, separated by commas. -/
def Json.renderMembers : List (String × Json) → List Char
  | [] => []
  | (k, x) :: rest =>
    quoteString k ++ ':' :: Json.render x ++
      (if rest.isEmpty then [] else ',' :: Json.renderMembers rest)
end

/-- The characters of a text; a JSON text is taken in its compact layout, the
members of an object in the order of the member list. -/
def Text.chars : Text → String
  | .json j => String.mk j.render
  | .raw s => s

/-! ### `ProductEventConsumer::run` -/

/-- Whether `s` starts with the characters `p`. -/
def startsWith : List Char → List Char → Bool
  | _, [] => true
  | [], _ :: _ => false
  | c :: s, d :: p => c == d && startsWith s p

/-- The `e.what()` of an exception; the messages of the JSON library are cut
after their identifying head. -/
def Exn.what : Exn → String
  | .type_error id => "[json.exception.type_error." ++ decimal id ++ "]"
  | .parse_error => "[json.exception.parse_error.101]"
  | .runtime_error what => what
  | .bad_alloc => "std::bad_alloc"

/-- The statement `std::string x = j[key]` on a non-const `j`. -/
def Json.readStr (j : Json) (key : String) : Except Exn String :=
  match j.index key with
  | .error x => .error x
  | .ok v => v.toStr

/-- The statement `int x = j[key]` on a non-const `j`. -/
def Json.readInt (j : Json) (key : String) : Except Exn Int :=
  match j.index key with
  | .error x => .error x
  | .ok v => v.toInt

/-- The `ProductEventConsumer::parseEvent`: the fields are read in the order
`product_id`, `event_id`, `event_type`, `version`, `updated_at`, `data`. -/
def ProductEventConsumer.parseEvent (json_str : Text) : Except Exn ProductEvent :=
  match json_str.parse with
  | .error x => .error x
  | .ok j =>
    match j.readStr "product_id" with
    | .error x => .error x
    | .ok product_id =>
      match j.readStr "event_id" with
      | .error x => .error x
      | .ok event_id =>
        match j.readStr "event_type" with
        | .error x => .error x
        | .ok event_type =>
          match j.readInt "version" with
          | .error x => .error x
          | .ok version =>
            match j.readStr "updated_at" with
            | .error x => .error x
            | .ok updated_at =>
              match j.index "data" with
              | .error x => .error x
              | .ok data => .ok ⟨product_id, event_id, event_type, version, updated_at, data⟩

/-- The `msg->err()` of a polled message. -/
inductive KafkaErr where
  | no_error
  | timed_out
  | other (errstr : String)
  deriving DecidableEq

/-- A message handed out by `consumer_->consume`. `utf8` tells, for a payload
that is not JSON, whether its bytes and the parser's message about them are
valid UTF-8; JSON text always is. -/
structure KafkaMessage where
  err : KafkaErr
  payload : Text
  utf8 : Bool
  offset : Nat
  deriving DecidableEq

/-- Whether `dump()` can serialise a DLQ message built for this record: it throws
`type_error` 316 on a string that is not valid UTF-8. -/
def KafkaMessage.serialisable (msg : KafkaMessage) : Bool :=
  match msg.payload with
  | .json _ => true
  | .raw _ => msg.utf8

/-- Operations of the consumer loop: those of `processEvent` on the stores, the
production of a message to the DLQ topic (with the outcome of `produce`) and
the commit of a record's offset. -/
inductive ConsumerOp where
  | store (op : Op)
  | dlq (message : Json) (ok : Bool)
  | commit (offset : Nat)
  deriving DecidableEq

/-- The JSON object that `sendToDLQ` builds. -/
def ProductEventConsumer.dlqMessage (event_data : Text) (error_reason : String) (now : Int) :
    Json :=
  Json.obj [("error_reason", Json.str error_reason),
            ("original_event", Json.str event_data.chars),
            ("timestamp", Json.num now)]

/-- The `ProductEventConsumer::sendToDLQ`. `serialisable` tells whether the
strings of the message are valid UTF-8 (otherwise `dump()` throws), `now` is
`std::time(nullptr)` and `produceOk` the outcome of `produce`, which is only
logged. -/
def ProductEventConsumer.sendToDLQ (event_data : Text) (serialisable : Bool)
    (error_reason : String) (now : Int) (produceOk : Bool) : Except Exn (List ConsumerOp) :=
  let dlq_message := ProductEventConsumer.dlqMessage event_data error_reason now
  if serialisable then .ok [ConsumerOp.dlq dlq_message produceOk]
  else .error (.type_error 316)

/-- What the environment decides during the handling of one message. -/
structure PollEnv where
  oracle : Oracle
  now : Int
  produceOk : Bool

/-- Result of handling messages: the stores, the operations issued and the
exception that left `run`, if any. -/
structure RunResult where
  world : World
  ops : List ConsumerOp
  thrown : Option Exn

/-- The `catch` block of the loop of `run`: the record goes to the DLQ with the
reason `Parse error: ...` and its offset is committed; an exception thrown
in this block leaves `run`. -/
def ProductEventConsumer.catchBlock (msg : KafkaMessage) (env : PollEnv) (w : World)
    (before : List ConsumerOp) (e : Exn) : RunResult :=
  match ProductEventConsumer.sendToDLQ msg.payload msg.serialisable
      ("Parse error: " ++ e.what) env.now env.produceOk with
  | .error x => ⟨w, before, some x⟩
  | .ok sent => ⟨w, before ++ sent ++ [ConsumerOp.commit msg.offset], none⟩

/-- The body of the loop of `ProductEventConsumer::run` for one polled message. -/
def ProductEventConsumer.handleMessage (msg : KafkaMessage) (env : PollEnv) (w : World) :
    RunResult :=
  match msg.err with
  | .no_error =>
    match ProductEventConsumer.parseEvent msg.payload with
    | .error e => ProductEventConsumer.catchBlock msg env w [] e
    | .ok event =>
      let r := ProductEventConsumer.processEvent event w env.oracle
      let stored := r.trace.map ConsumerOp.store
      if r.success then
        -- commit the offset only after successful processing
        ⟨r.world, stored ++ [ConsumerOp.commit msg.offset], none⟩
      else
        -- send to the DLQ, then commit to avoid reprocessing
        match ProductEventConsumer.sendToDLQ msg.payload msg.serialisable
            "Processing failed after retries" env.now env.produceOk with
        | .error e => ProductEventConsumer.catchBlock msg env r.world stored e
        | .ok sent => ⟨r.world, stored ++ sent ++ [ConsumerOp.commit msg.offset], none⟩
  | .timed_out => ⟨w, [], none⟩
  | .other _ => ⟨w, [], none⟩

/-- The loop of `ProductEventConsumer::run` over the messages polled while
`running_` holds; an exception that leaves the body ends the loop. -/
def ProductEventConsumer.run : List (KafkaMessage × PollEnv) → World → RunResult
  | [], w => ⟨w, [], none⟩
  | (msg, env) :: rest, w =>
    let r := ProductEventConsumer.handleMessage msg env w
    match r.thrown with
    | some x => ⟨r.world, r.ops, some x⟩
    | none =>
      let r2 := ProductEventConsumer.run rest r.world
      ⟨r2.world, r.ops ++ r2.ops, r2.thrown⟩

/-- Whether the operation is issued on the index or the cache. -/
def ConsumerOp.isStore : ConsumerOp → Bool
  | .store _ => true
  | _ => false

/-- Whether the operation is a DLQ publication. -/
def ConsumerOp.isDlq : ConsumerOp → Bool
  | .dlq _ _ => true
  | _ => false

/-- Whether the operation is a commit. -/
def ConsumerOp.isCommit : ConsumerOp → Bool
  | .commit _ => true
  | _ => false

/-- Environment in which every store operation of one `processEvent` succeeds. -/
def Oracle.AllSucceed (o : Oracle) : Prop :=
  IndexOpsSucceed o ∧ o.redisSet = true ∧ o.redisDel = true

instance (o : Oracle) : Decidable o.AllSucceed := by
  unfold Oracle.AllSucceed; infer_instance

/-- Values representable in an `int64_t`. -/
def inInt64 (n : Int) : Prop := -9223372036854775808 ≤ n ∧ n ≤ 9223372036854775807

instance (n : Int) : Decidable (inInt64 n) := by
  unfold inInt64; infer_instance

/-! ### Runs of `writeBatch` and retries -/

/-- A run of `writeBatch` calls on one `AppendLog`, each given with the clock
reading, whether the file can be opened, and the events: what each call
returned, in order, and the `AppendLog` afterwards. -/
def AppendLog.writeBatches :
    List (String × Bool × List Event) → AppendLog → List (Except Exn String) × AppendLog
  | [], log => ([], log)
  | (stamp, openOk, events) :: rest, log =>
    let r := log.writeBatch stamp openOk events
    let rs := AppendLog.writeBatches rest r.2
    (r.1 :: rs.1, rs.2)

/-- Whether `performRequest` returns normally for a PUT made under the fault: a
transfer that fails and a status of 400 or more make it throw. -/
def Fault.putSucceeds : Fault → Bool
  | .none => true
  | .garbled => true
  | .transport => false
  | .http5xx _ => false

/-- Whether the operation is a PUT on the index. -/
def Op.isPut : Op → Bool
  | .esPut _ _ _ _ => true
  | _ => false

/-! ### `batch_mutex_` -/

/-- Operations of one thread on `batch_mutex_`. -/
inductive LockOp where
  | lock
  | unlock
  deriving DecidableEq

/-- Effect of an operation on whether the thread owns the mutex. `none`: the
thread locks a `std::mutex` that it already owns, which is undefined
behaviour (in practice the thread blocks forever). -/
def LockOp.apply (held : Bool) : LockOp → Option Bool
  | .lock => if held then none else some true
  | .unlock => some false

/-- The operations of a thread run in order from the ownership `held`. -/
def runLocks : List LockOp → Bool → Option Bool
  | [], held => some held
  | op :: rest, held =>
    match op.apply held with
    | none => none
    | some h => runLocks rest h

/-- The operations of `Batcher::flushBatch` on `batch_mutex_`: none when the
batch is empty (it returns at once), otherwise those of the `lock_guard`
under which the batch is taken. -/
def Batcher.flushBatchLocks (b : Batcher) : List LockOp :=
  if b.current_batch.isEmpty then [] else [LockOp.lock, LockOp.unlock]

/-- The operations of one iteration of `Batcher::workerLoop` on `batch_mutex_`;
`b` is the Batcher when `wait_for` comes back, `waited` tells whether
`wait_for` blocked (it then released the mutex and took it again). The
`unique_lock` made at the top of the iteration is released at its end. -/
def Batcher.workerLoopLocks (b : Batcher) (waited : Bool) : List LockOp :=
  [LockOp.lock] ++ (if waited then [LockOp.unlock, LockOp.lock] else []) ++
    (if !b.current_batch.isEmpty then b.flushBatchLocks else []) ++ [LockOp.unlock]

/-- The operations of `Batcher::stop` on `batch_mutex_`, made by the caller. -/
def Batcher.stopLocks (b : Batcher) : List LockOp :=
  if !b.current_batch.isEmpty then b.flushBatchLocks else []

/-! ### The lifecycle of the Batcher and of the server -/

/-- The `Batcher::stop`, from the point where the worker thread has been
joined: the remaining events are flushed. -/
def Batcher.stop (b : Batcher) (log : AppendLog) (sink : SinkAPI) (stamp : String)
    (openOk : Bool) (drawBelowRate : Bool) : FlushResult :=
  if !b.current_batch.isEmpty then b.flushBatch log sink stamp openOk drawBelowRate
  else ⟨b, log, [], none, none⟩

/-- What happens to a started Batcher: an `addEvent`, or an iteration of
`workerLoop` (`waited`: its `wait_for` blocked; then the clock reading and the
outcomes the environment chooses for a flush). -/
inductive BatcherStep where
  | add (event : Event)
  | worker (waited : Bool) (stamp : String) (openOk : Bool) (drawBelowRate : Bool)
  deriving DecidableEq

/-- A started Batcher with its log and sink, the operations made so far, the
exception that ended the run, if any, and whether the worker thread is
blocked on `batch_mutex_` while owning it. -/
structure BatcherRun where
  batcher : Batcher
  log : AppendLog
  sink : SinkAPI
  trace : List IngestOp
  thrown : Option Exn
  blocked : Bool
  deriving DecidableEq

/-- One step of a started Batcher. An iteration of `workerLoop` whose operations
on `batch_mutex_` lock the mutex it owns does not go on: the worker is
blocked, with the mutex. An `addEvent` made then waits for the mutex and
adds nothing. -/
def BatcherRun.step (r : BatcherRun) : BatcherStep → BatcherRun
  | .add event =>
    if r.blocked then r else { r with batcher := (r.batcher.addEvent event).1 }
  | .worker waited stamp openOk drawBelowRate =>
    if r.blocked then r
    else
      match runLocks (r.batcher.workerLoopLocks waited) false with
      | none => { r with blocked := true }
      | some _ =>
        if !r.batcher.current_batch.isEmpty then
          let f := r.batcher.flushBatch r.log r.sink stamp openOk drawBelowRate
          ⟨f.batcher, f.log, r.sink, r.trace ++ f.trace, f.thrown, false⟩
        else r

/-- The steps of a started Batcher, in order; an exception ends the run. -/
def BatcherRun.steps : List BatcherStep → BatcherRun → BatcherRun
  | [], r => r
  | s :: rest, r =>
    match r.thrown with
    | some _ => r
    | none => BatcherRun.steps rest (r.step s)

/-- The `Batcher::stop` at the end of a run: `none` when it does not return,
the `join` waiting for a worker that is blocked. -/
def BatcherRun.stop (r : BatcherRun) (stamp : String) (openOk : Bool)
    (drawBelowRate : Bool) : Option BatcherRun :=
  if r.blocked then none
  else
    let f := r.batcher.stop r.log r.sink stamp openOk drawBelowRate
    some ⟨f.batcher, f.log, r.sink, r.trace ++ f.trace, f.thrown, false⟩

/-- What `IngestionServer::stop` leaves behind. -/
structure StopResult where
  server : IngestionServer
  trace : List IngestOp
  thrown : Option Exn
  deriving DecidableEq

/-- The loop of `IngestionServer::stop` that drains the queue: every event popped
is handed to `Batcher::addEvent`; `fuel` bounds the number of iterations. -/
def IngestionServer.drainQueue : Nat → IngestionServer → IngestionServer
  | 0, srv => srv
  | fuel + 1, srv =>
    match srv.event_queue.pop with
    | (some event, q) =>
      IngestionServer.drainQueue fuel
        { srv with event_queue := q, batcher := (srv.batcher.addEvent event).1 }
    | (none, q) => { srv with event_queue := q }

/-- The `IngestionServer::stop`, from the point where the consumer thread has
been joined: `batcher_->stop()` first, then the queue is drained. -/
def IngestionServer.stop (srv : IngestionServer) (stamp : String) (openOk : Bool)
    (drawBelowRate : Bool) : StopResult :=
  let f := srv.batcher.stop srv.log srv.sink stamp openOk drawBelowRate
  let srv1 : IngestionServer := { srv with running := false, batcher := f.batcher, log := f.log }
  match f.thrown with
  | some x => ⟨srv1, f.trace, some x⟩
  | none =>
    ⟨IngestionServer.drainQueue (srv1.event_queue.items.length + 1) srv1, f.trace, none⟩

/-! ## Concrete inputs -/

/-- An environment without faults. -/
def Sample.calm : Oracle := ⟨Fault.none, fun _ => Fault.none, Fault.none, true, true⟩

/-- Stores holding nothing. -/
def Sample.blank : World := ⟨fun _ _ => none, fun _ => none⟩

/-- An event for product `P1` with the given type, version and timestamp. -/
def Sample.event (event_type : String) (version : Int) (updated_at : String) : ProductEvent :=
  ⟨"P1", "evt-" ++ event_type, event_type, version, updated_at,
    Json.obj [("title", Json.str "Lamp")]⟩

/-- Stores in which product `P1` is indexed at the given version and cached. -/
def Sample.stocked (version : Int) : World :=
  ⟨fun i k =>
      if i = "products" ∧ k = "P1" then
        some (Json.obj [("title", Json.str "Desk"), ("version", Json.num version),
                        ("updated_at", Json.str "2025-12-01T00:00:00Z"),
                        ("product_id", Json.str "P1")])
      else none,
   fun k => if k = "product:P1" then some (Json.obj [("title", Json.str "Desk")]).dump else none⟩

/-- A request body with the given id. -/
def Sample.body (id : String) : Text :=
  Text.json (Json.obj [("id", Json.str id), ("type", Json.str "click"), ("data", Json.obj [])])

/-- An ingestion event with the given id and timestamp. -/
def Sample.click (id : String) (timestamp : Int) : Event :=
  ⟨id, "click", Json.obj [], timestamp⟩

/-- A log directory holding three batches of two events each, left by a run
whose sink failed. -/
def Sample.pendingDir : List DirEntry :=
  [batchFile "batch_20251211_120002_2.jsonl" [Sample.click "e" 5, Sample.click "f" 6],
   batchFile "batch_20251211_120000_0.jsonl" [Sample.click "a" 1, Sample.click "b" 2],
   batchFile "batch_20251211_120001_1.jsonl" [Sample.click "c" 3, Sample.click "d" 4]]

/-- A record with the given payload text, valid UTF-8, at offset 7. -/
def Sample.record (payload : Text) : KafkaMessage := ⟨KafkaErr.no_error, payload, true, 7⟩

/-- An environment without faults, at clock reading 1765411200. -/
def Sample.quiet : PollEnv := ⟨Sample.calm, 1765411200, true⟩

/-- The wire form of an event. -/
def Sample.wire (e : ProductEvent) : Text :=
  Text.json (Json.obj [("product_id", Json.str e.product_id), ("event_id", Json.str e.event_id),
    ("event_type", Json.str e.event_type), ("version", Json.num e.version),
    ("updated_at", Json.str e.updated_at), ("data", e.data)])

/-- A record whose payload is the single byte `0xFF`: neither JSON nor UTF-8. -/
def Sample.poison : KafkaMessage :=
  ⟨KafkaErr.no_error, Text.raw (String.mk [Char.ofNat 255]), false, 7⟩

/-- The wire form of an event that lacks the member `data`. -/
def Sample.wireNoData : Text :=
  Text.json (Json.obj [("product_id", Json.str "P1"), ("event_id", Json.str "evt-create"),
    ("event_type", Json.str "create"), ("version", Json.num 1),
    ("updated_at", Json.str "2025-12-02T00:00:00Z")])

/-- An environment in which every PUT fails in transport. -/
def Sample.putsFail : Oracle := ⟨Fault.none, fun _ => Fault.transport, Fault.none, true, true⟩

/-- Eleven batches written at clock reading `20251211_120000`. -/
def Sample.elevenWrites : List (String × Bool × List Event) :=
  (List.range 11).map (fun k => ("20251211_120000", true, [Sample.click "a" k]))

/-- A Batcher with batch size 100 that holds the given events. -/
def Sample.batcher (events : List Event) : Batcher := ⟨100, 1000, events⟩

/-- The five events that the test `BatcherFlushOnSize` adds. -/
def Sample.fiveEvents : List Event :=
  (List.range 5).map (fun i =>
    ⟨"evt-" ++ decimal i, "test", Json.obj [("value", Json.num i)], 1234567890 + i⟩)

/-- The Batcher of the test `BatcherFlushOnSize`, just started, over an empty
directory and a sink that cannot fail. -/
def Sample.startedBatcher : BatcherRun :=
  ⟨⟨5, 10000, []⟩, ⟨[], 0⟩, ⟨false⟩, [], none, false⟩

/-- The run of the test `BatcherFlushOnSize` up to its `stop`: the five `addEvent`
calls, then the iteration of `workerLoop` that the fifth of them wakes. -/
def Sample.flushOnSize : BatcherRun :=
  BatcherRun.steps
    (Sample.fiveEvents.map BatcherStep.add ++
      [BatcherStep.worker true "20251211_120000" true false])
    Sample.startedBatcher

/-- A directory holding one batch file whose line has no `data` member. -/
def Sample.noDataDir : List DirEntry :=
  [⟨"batch_20251211_120000_0.jsonl", true,
    [Text.json (Json.obj [("id", Json.str "a"), ("timestamp", Json.num 1),
      ("type", Json.str "click")])]⟩]

/-- A directory holding a batch file that does not read as events. -/
def Sample.corruptDir : List DirEntry :=
  [⟨"batch_20251210_090000_0.jsonl", true, [Text.raw "corrupt"]⟩]

/-- A server that has been running, with the given events in its accept queue. -/
def Sample.server (queued : List Event) : IngestionServer :=
  { IngestionServer.create 8081 10 100 1000 [] with
    event_queue := ⟨queued, 10 - queued.length, false⟩, running := true }

/-! ## Theorems: indexing consumer -/

open ProductEventConsumer


theorem Json.lookup_insert_self (kvs : List (String × Json)) (k : String) (v : Json) :
    Json.lookup (Json.insert kvs k v) k = some v := by
  induction kvs with
  | nil => simp [Json.insert, Json.lookup]
  | cons p rest ih =>
    obtain ⟨k0, x⟩ := p
    by_cases h : k0 = k
    · simp [Json.insert, Json.lookup, h]
    · simp [Json.insert, Json.lookup, h, ih]

theorem Json.lookup_insert_other (kvs : List (String × Json)) (k k2 : String) (v : Json)
    (hne : k ≠ k2) : Json.lookup (Json.insert kvs k v) k2 = Json.lookup kvs k2 := by
  induction kvs with
  | nil => simp [Json.insert, Json.lookup, hne]
  | cons p rest ih =>
    obtain ⟨k0, x⟩ := p
    by_cases h : k0 = k
    · subst h
      simp [Json.insert, Json.lookup, hne]
    · by_cases h2 : k0 = k2
      · subst h2
        simp [Json.insert, Json.lookup, h]
      · simp [Json.insert, Json.lookup, h, h2, ih]

theorem wrapInt32_of_inInt32 {n : Int} (h : inInt32 n) : wrapInt32 n = n := by
  unfold inInt32 at h
  unfold wrapInt32
  omega

/-- Effect of `setKey` on member lookup. -/
theorem Json.setKey_getKey? {j j2 : Json} {k : String} {v : Json} (h : j.setKey k v = .ok j2)
    (k2 : String) :
    j2.getKey? k2 = if k = k2 then some v else j.getKey? k2 := by
  cases j <;> simp [Json.setKey] at h
  · subst h
    by_cases hk : k = k2 <;> simp [Json.getKey?, Json.lookup, hk]
  · subst h
    by_cases hk : k = k2
    · subst hk; simp [Json.getKey?, Json.lookup_insert_self]
    · simp [Json.getKey?, Json.lookup_insert_other _ _ _ _ hk, hk]

theorem mkDocument_ok_of_data {e : ProductEvent}
    (h : e.data = Json.null ∨ ∃ kvs, e.data = Json.obj kvs) :
    ∃ doc, mkDocument e = .ok doc := by
  rcases h with h | ⟨kvs, h⟩ <;> simp [mkDocument, h, Json.setKey]

theorem mkDocument_fields {e : ProductEvent} {doc : Json} (h : mkDocument e = .ok doc) :
    doc.getKey? "version" = some (Json.num e.version) ∧
    doc.getKey? "updated_at" = some (Json.str e.updated_at) := by
  unfold mkDocument at h
  split at h
  · cases h
  · rename_i d1 h1
    split at h
    · cases h
    · rename_i d2 h2
      have a := Json.setKey_getKey? h
      have b := Json.setKey_getKey? h2
      have c := Json.setKey_getKey? h1
      constructor
      · rw [a, b, c]; simp
      · rw [a, b]; simp

theorem getDocument_noFault (d : Docs) (index id : String) :
    ElasticsearchWriter.getDocument d Fault.none index id = fetched (d index id) index id := by
  unfold ElasticsearchWriter.getDocument fetched serve esGet
  cases h : d index id <;>
    simp [ElasticsearchWriter.performRequest, Json.dump, Text.parse]

theorem getDocument_fault (d : Docs) (f : Fault) (index id : String) (hf : f ≠ Fault.none) :
    ElasticsearchWriter.getDocument d f index id = Json.obj [] := by
  unfold ElasticsearchWriter.getDocument serve esGet
  cases f with
  | none => exact absurd rfl hf
  | transport => simp [ElasticsearchWriter.performRequest]
  | http5xx n =>
    have : 500 + n % 100 ≥ 400 := by omega
    simp [ElasticsearchWriter.performRequest, this]
  | garbled =>
    cases h : d index id <;>
      simp [ElasticsearchWriter.performRequest, Json.dump, Text.parse]

/-- What a PUT of `document` can do to the documents: nothing or store it. -/
theorem servePut_docs (f : Fault) (d : Docs) (index id : String) (document : Json) :
    (serve f d (esPut d index id document.dump)).1 = d ∨
    (serve f d (esPut d index id document.dump)).1 = d.put index id document := by
  cases f <;> simp [serve, esPut, Json.dump, Text.parse]

theorem upsertLoop_docs (faults : Nat → Fault) (index id : String) (document : Json)
    (max_retries : Int) (fuel : Nat) :
    ∀ (attempt : Nat) (d : Docs) (tr : List Op),
      (ElasticsearchWriter.upsertLoop faults index id document max_retries fuel attempt d tr).2.1
          = d ∨
      (ElasticsearchWriter.upsertLoop faults index id document max_retries fuel attempt d tr).2.1
          = d.put index id document := by
  induction fuel with
  | zero => intro attempt d tr; simp [ElasticsearchWriter.upsertLoop]
  | succ fuel ih =>
    intro attempt d tr
    unfold ElasticsearchWriter.upsertLoop
    by_cases hlt : (attempt : Int) < max_retries
    · simp only [hlt, if_true]
      have hs := servePut_docs (faults attempt) d index id document
      split
      · exact hs
      · split
        · exact hs
        · rcases ih (attempt + 1) (serve (faults attempt) d (esPut d index id document.dump)).1
            (tr ++ [Op.esPut index id document false, Op.sleep (100 * 2 ^ (attempt + 1 - 1))])
            with h | h
          · rcases hs with hs | hs
            · left; rw [h, hs]
            · right; rw [h, hs]
          · rcases hs with hs | hs
            · right; rw [h, hs]
            · right; rw [h, hs]; funext i k; simp [Docs.put]; 
              intro h1 h2; simp [h1, h2]
    · simp [hlt]

theorem upsertDocument_docs (d : Docs) (faults : Nat → Fault) (index id : String)
    (document : Json) (max_retries : Int) :
    (ElasticsearchWriter.upsertDocument d faults index id document max_retries).2.1 = d ∨
    (ElasticsearchWriter.upsertDocument d faults index id document max_retries).2.1
      = d.put index id document :=
  upsertLoop_docs faults index id document max_retries _ 0 d []

theorem performRequest_put_ok (d : Docs) (index id : String) (document : Json) :
    ElasticsearchWriter.performRequest (esPut d index id document.dump).2 =
      .ok (Json.obj [("_index", Json.str index), ("_id", Json.str id)]).dump := by
  cases h : (d index id).isSome <;>
    simp [esPut, Json.dump, Text.parse, ElasticsearchWriter.performRequest, h]

theorem upsertDocument_first_ok (d : Docs) (faults : Nat → Fault) (index id : String)
    (document : Json) (h : faults 0 = Fault.none) :
    ElasticsearchWriter.upsertDocument d faults index id document 3 =
      (true, d.put index id document, [Op.esPut index id document true]) := by
  have h3 : (3 : Int).toNat = 2 + 1 := rfl
  unfold ElasticsearchWriter.upsertDocument
  rw [h3, ElasticsearchWriter.upsertLoop]
  simp only [h, serve, performRequest_put_ok]
  simp [esPut, Json.dump, Text.parse]

theorem deleteDocument_docs (d : Docs) (f : Fault) (index id : String) :
    (ElasticsearchWriter.deleteDocument d f index id).2.1 = d ∨
    (ElasticsearchWriter.deleteDocument d f index id).2.1 = d.erase index id := by
  unfold ElasticsearchWriter.deleteDocument
  have hs : (serve f d (esDelete d index id)).1 = d ∨
      (serve f d (esDelete d index id)).1 = d.erase index id := by
    cases f <;> cases h : d index id <;> simp [serve, esDelete, h]
  simp only []
  cases ElasticsearchWriter.performRequest (serve f d (esDelete d index id)).2 <;> exact hs


theorem shouldProcess_empty (e : ProductEvent) : shouldProcess e (Json.obj []) = .ok true := by
  simp [shouldProcess, Json.empty]

/-- The decision on a fetched envelope only reads its `_source`. -/
theorem shouldProcess_envelope (e : ProductEvent) (index id : String) (src : Json) :
    shouldProcess e (esEnvelope index id src) = shouldProcess e (Json.obj [("_source", src)]) := by
  simp [shouldProcess, esEnvelope, Json.empty, Json.contains, Json.lookup, Json.getKey,
    Json.getKey?]

/-- Decision against a document written by `processEvent` for the event `e0`. -/
theorem shouldProcess_written (e e0 : ProductEvent) (doc : Json) (h : mkDocument e0 = .ok doc)
    (hr : inInt32 e0.version) :
    shouldProcess e (Json.obj [("_source", doc)]) =
      .ok (!(decide (e.version ≤ e0.version) || strLe e.updated_at e0.updated_at)) := by
  obtain ⟨hv, ht⟩ := mkDocument_fields h
  have hcv : doc.contains "version" = true := by
    cases doc <;> simp_all [Json.contains, Json.getKey?]
  have hct : doc.contains "updated_at" = true := by
    cases doc <;> simp_all [Json.contains, Json.getKey?]
  have hgv : doc.getKey "version" = Json.num e0.version := by simp [Json.getKey, hv]
  have hgt : doc.getKey "updated_at" = Json.str e0.updated_at := by simp [Json.getKey, ht]
  have hsrc : (Json.obj [("_source", doc)]).getKey "_source" = doc := by
    simp [Json.getKey, Json.getKey?, Json.lookup]
  simp only [shouldProcess, hsrc, hcv, hct, hgv, hgt, Json.toInt, Json.toStr,
    wrapInt32_of_inInt32 hr]
  simp [Json.empty, Json.contains, Json.lookup]
  by_cases hle : e.version ≤ e0.version <;> simp [hle]
  cases strLe e.updated_at e0.updated_at <;> simp

theorem processEvent_not_applied (e : ProductEvent) (w : World) (o : Oracle)
    (h : shouldProcess e (ElasticsearchWriter.getDocument w.docs o.get "products" e.product_id)
      ≠ .ok true) :
    (processEvent e w o).world = w := by
  unfold processEvent
  simp only []
  split
  · rfl
  · rfl
  · rename_i heq; exact absurd heq h

/-- The documents after one `processEvent`: unchanged, or the event's document
removed, or the event's document stored. -/
theorem processEvent_docs (e : ProductEvent) (w : World) (o : Oracle) :
    (processEvent e w o).world.docs = w.docs ∨
    (processEvent e w o).world.docs = w.docs.erase "products" e.product_id ∨
    ∃ doc, mkDocument e = .ok doc ∧
      (processEvent e w o).world.docs = w.docs.put "products" e.product_id doc := by
  unfold processEvent
  simp only []
  split
  · left; rfl
  · left; rfl
  · by_cases hdel : e.event_type = "delete"
    · simp only [hdel, if_true]
      rcases deleteDocument_docs w.docs o.delete "products" e.product_id with h | h
      · left
        split <;> simp [h]
      · right; left
        split <;> simp [h]
    · simp only [hdel, if_false]
      cases hm : mkDocument e with
      | error x => left; rfl
      | ok doc =>
        simp only []
        rcases upsertDocument_docs w.docs o.put "products" e.product_id doc 3 with h | h
        · left
          split <;> [simp [h]; (split <;> simp [h])]
        · right; right
          refine ⟨doc, rfl, ?_⟩
          split <;> [simp [h]; (split <;> simp [h])]

theorem processEvent_applied (e : ProductEvent) (w : World) (o : Oracle) (doc : Json)
    (h : shouldProcess e (ElasticsearchWriter.getDocument w.docs o.get "products" e.product_id)
      = .ok true)
    (hty : e.event_type ≠ "delete") (hdoc : mkDocument e = .ok doc)
    (hput : o.put 0 = Fault.none) :
    (processEvent e w o).world.docs = w.docs.put "products" e.product_id doc := by
  unfold processEvent
  simp only [h, hty, if_false, hdoc, upsertDocument_first_ok _ _ _ _ _ hput]
  simp
  split <;> simp

/-- Strict order is transitive: `b < a` and `a < c` give `b < c`. -/
theorem lexLe_false_trans : ∀ (a b c : List Char),
    lexLe a b = false → lexLe c a = false → lexLe c b = false
  | [], b, c, h1, _ => by simp [lexLe] at h1
  | x :: as, [], c, _, h2 => by
    cases c with
    | nil => simp [lexLe] at h2
    | cons z cs => simp [lexLe]
  | x :: as, y :: bs, [], _, h2 => by simp [lexLe] at h2
  | x :: as, y :: bs, z :: cs, h1, h2 => by
    simp only [lexLe] at h1 h2 ⊢
    by_cases hxy : x.toNat < y.toNat
    · simp [hxy] at h1
    · by_cases hyx : y.toNat < x.toNat
      · by_cases hzx : z.toNat < x.toNat
        · simp [hzx] at h2
        · have h3 : ¬ z.toNat < y.toNat := by omega
          have h4 : y.toNat < z.toNat := by omega
          simp [h3, h4]
      · simp only [hxy, hyx, if_false] at h1
        by_cases hzx : z.toNat < x.toNat
        · simp [hzx] at h2
        · by_cases hxz : x.toNat < z.toNat
          · have h3 : ¬ z.toNat < y.toNat := by omega
            have h4 : y.toNat < z.toNat := by omega
            simp [h3, h4]
          · simp only [hzx, hxz, if_false] at h2
            have h3 : ¬ z.toNat < y.toNat := by omega
            have h4 : ¬ y.toNat < z.toNat := by omega
            simp only [h3, h4, if_false]
            exact lexLe_false_trans as bs cs h1 h2

theorem strLe_false_trans {a b c : String}
    (h1 : strLe a b = false) (h2 : strLe c a = false) : strLe c b = false :=
  lexLe_false_trans a.data b.data c.data h1 h2

/-- An event that is newer than an applied event, by version and by timestamp,
is applied on the same document. -/
theorem shouldProcess_mono (e emax : ProductEvent) (d : Json)
    (hv : e.version < emax.version) (ht : strLe emax.updated_at e.updated_at = false)
    (h : shouldProcess e d = .ok true) : shouldProcess emax d = .ok true := by
  unfold shouldProcess at h ⊢
  by_cases h0 : (d.empty || !d.contains "_source") = true
  · simp [h0]
  · simp only [h0] at h ⊢
    generalize d.getKey "_source" = src at h ⊢
    generalize (src.getKey "version").toInt = rv at h ⊢
    generalize (src.getKey "updated_at").toStr = rt at h ⊢
    by_cases hcv : src.contains "version" = true <;>
      by_cases hct : src.contains "updated_at" = true <;>
      simp only [hcv, hct] at h ⊢ <;>
      rcases rv with x | v <;>
      rcases rt with y | t <;>
      simp at h ⊢ <;>
      (try by_cases hle : e.version ≤ v <;> simp [hle] at h) <;>
      (try (have hle2 : ¬ emax.version ≤ v := by omega)) <;>
      (try simp [hle2]) <;>
      (try (by_cases hlt : strLe e.updated_at t = true <;> simp [hlt] at h)) <;>
      (try (have hf : strLe e.updated_at t = false := by simpa using hlt
            have := strLe_false_trans hf ht
            simp [this]))

theorem Docs.put_put (d : Docs) (index id : String) (a b : Json) :
    (d.put index id a).put index id b = d.put index id b := by
  funext i k; simp only [Docs.put]; split <;> rfl

theorem Docs.put_erase (d : Docs) (index id : String) (b : Json) :
    (d.erase index id).put index id b = d.put index id b := by
  funext i k; simp only [Docs.put, Docs.erase]; split <;> rfl

theorem Docs.put_self (d : Docs) (index id : String) (a : Json) :
    d.put index id a index id = some a := by
  simp [Docs.put]

theorem Docs.erase_self (d : Docs) (index id : String) :
    d.erase index id index id = none := by
  simp [Docs.erase]

/-- Once the newest document is stored, later deliveries of events that are not
newer are all skipped. -/
theorem processAll_persist (emax : ProductEvent) (docmax : Json)
    (hdoc : mkDocument emax = .ok docmax) (hint : inInt32 emax.version) :
    ∀ (l : List (ProductEvent × Oracle)) (w : World),
      (∀ p ∈ l, p.1.product_id = emax.product_id ∧ p.2.get = Fault.none ∧
        p.1.version ≤ emax.version) →
      w.docs "products" emax.product_id = some docmax →
      processAll l w = w := by
  intro l
  induction l with
  | nil => intro w _ _; rfl
  | cons p rest ih =>
    intro w hall hst
    obtain ⟨hpid, hget, hle⟩ := hall p (List.mem_cons_self _ _)
    have hskip : (processEvent p.1 w p.2).world = w := by
      apply processEvent_not_applied
      rw [hget, getDocument_noFault, hpid, hst]
      simp only [fetched]
      rw [shouldProcess_envelope, shouldProcess_written _ _ _ hdoc hint]
      simp [hle]
    obtain ⟨e, o⟩ := p
    simp only [processAll]
    rw [hskip]
    exact ih w (fun q hq => hall q (List.mem_cons_of_mem _ hq)) hst

/-- When the newest event is not applied on the stored document, none of the
deliveries is. -/
theorem processAll_none_applied (emax : ProductEvent) :
    ∀ (l : List (ProductEvent × Oracle)) (w : World),
      (∀ p ∈ l, p.1.product_id = emax.product_id ∧ p.2.get = Fault.none ∧
        (p.1 = emax ∨
          (p.1.version < emax.version ∧ strLe emax.updated_at p.1.updated_at = false))) →
      shouldProcess emax (fetched (w.docs "products" emax.product_id) "products"
        emax.product_id) ≠ .ok true →
      processAll l w = w := by
  intro l
  induction l with
  | nil => intro w _ _; rfl
  | cons p rest ih =>
    intro w hall hno
    obtain ⟨hpid, hget, htop⟩ := hall p (List.mem_cons_self _ _)
    have hskip : (processEvent p.1 w p.2).world = w := by
      apply processEvent_not_applied
      rw [hget, getDocument_noFault, hpid]
      rcases htop with heq | ⟨hv, ht⟩
      · rw [heq]; exact hno
      · intro happ
        exact hno (shouldProcess_mono _ _ _ hv ht happ)
    obtain ⟨e, o⟩ := p
    simp only [processAll]
    rw [hskip]
    exact ih w (fun q hq => hall q (List.mem_cons_of_mem _ hq)) hno

/-- When the newest event is applied on the stored document, the run ends with
its document stored. -/
theorem processAll_newest_applied (emax : ProductEvent) (docmax : Json)
    (hdoc : mkDocument emax = .ok docmax) (hty : emax.event_type ≠ "delete") :
    ∀ (l : List (ProductEvent × Oracle)) (w : World),
      (∀ p ∈ l, p.1.product_id = emax.product_id ∧ inInt32 p.1.version ∧
        IndexOpsSucceed p.2 ∧
        (p.1 = emax ∨
          (p.1.version < emax.version ∧ strLe emax.updated_at p.1.updated_at = false))) →
      emax ∈ l.map Prod.fst →
      shouldProcess emax (fetched (w.docs "products" emax.product_id) "products"
        emax.product_id) = .ok true →
      (processAll l w).docs = w.docs.put "products" emax.product_id docmax := by
  intro l
  induction l with
  | nil => intro w _ hmem _; simp at hmem
  | cons p rest ih =>
    intro w hall hmem happ
    obtain ⟨hpid, hint, hops, htop⟩ := hall p (List.mem_cons_self _ _)
    obtain ⟨hget, hput, -⟩ := hops
    obtain ⟨e, o⟩ := p
    simp only at hpid hint hget hput htop
    simp only [processAll]
    have hrest : ∀ q ∈ rest, q.1.product_id = emax.product_id ∧ inInt32 q.1.version ∧
        IndexOpsSucceed q.2 ∧ (q.1 = emax ∨
          (q.1.version < emax.version ∧ strLe emax.updated_at q.1.updated_at = false)) :=
      fun q hq => hall q (List.mem_cons_of_mem _ hq)
    by_cases heq : e = emax
    · subst heq
      have h1 : (processEvent e w o).world.docs = w.docs.put "products" e.product_id docmax := by
        apply processEvent_applied _ _ _ _ _ hty hdoc hput
        rw [hget, getDocument_noFault]; exact happ
      have h2 := processAll_persist e docmax hdoc hint rest (processEvent e w o).world
        (fun q hq => by
          obtain ⟨a, -, c, d⟩ := hrest q hq
          refine ⟨a, c.1, ?_⟩
          rcases d with d | d
          · rw [d]
          · exact le_of_lt d.1)
        (by rw [h1]; exact Docs.put_self _ _ _ _)
      rw [h2, h1]
    · rcases htop with htop | ⟨hv, ht⟩
      · exact absurd htop heq
      · have hmem2 : emax ∈ rest.map Prod.fst := by
          simp only [List.map_cons, List.mem_cons] at hmem
          rcases hmem with hmem | hmem
          · exact absurd hmem.symm heq
          · exact hmem
        rcases processEvent_docs e w o with h | h | ⟨doc, hd, h⟩
        · have := ih (processEvent e w o).world hrest hmem2 (by rw [h]; exact happ)
          rw [this, h]
        · have := ih (processEvent e w o).world hrest hmem2
            (by rw [h, hpid, Docs.erase_self]; exact shouldProcess_empty _)
          rw [this, h, hpid, Docs.put_erase]
        · have := ih (processEvent e w o).world hrest hmem2
            (by
              rw [h, hpid, Docs.put_self]
              simp only [fetched]
              rw [shouldProcess_envelope, shouldProcess_written _ _ _ hd hint]
              have : ¬ emax.version ≤ e.version := by omega
              simp [this, ht])
          rw [this, h, hpid, Docs.put_put]

/-- C1 (amended): for every sequence of deliveries for one product in which the
highest-version event is a create or update whose body is a JSON object (or
null) and every other delivery is either that same event again or an event
that is older both by version and by `updated_at`, delivered in any order
with all index operations succeeding, the index after the whole sequence
equals the index after handling only the highest-version event. -/
theorem ProductEventConsumer.processAll_highest_version
    (l : List (ProductEvent × Oracle)) (emax : ProductEvent) (omax : Oracle) (w : World)
    (hmem : emax ∈ l.map Prod.fst)
    (hpid : ∀ p ∈ l, p.1.product_id = emax.product_id)
    (hint : ∀ p ∈ l, inInt32 p.1.version)
    (hops : ∀ p ∈ l, IndexOpsSucceed p.2) (homax : IndexOpsSucceed omax)
    (htop : ∀ p ∈ l, p.1 = emax ∨
      (p.1.version < emax.version ∧ strLe emax.updated_at p.1.updated_at = false))
    (hty : emax.event_type ≠ "delete")
    (hdata : emax.data = Json.null ∨ ∃ kvs, emax.data = Json.obj kvs) :
    (processAll l w).docs = (processAll [(emax, omax)] w).docs := by
  obtain ⟨docmax, hdoc⟩ := mkDocument_ok_of_data hdata
  simp only [processAll]
  by_cases happ : shouldProcess emax (fetched (w.docs "products" emax.product_id) "products"
      emax.product_id) = .ok true
  · rw [processAll_newest_applied emax docmax hdoc hty l w
      (fun p hp => ⟨hpid p hp, hint p hp, hops p hp, htop p hp⟩) hmem happ]
    rw [processEvent_applied emax w omax docmax
      (by rw [homax.1, getDocument_noFault]; exact happ) hty hdoc homax.2.1]
  · rw [processAll_none_applied emax l w
      (fun p hp => ⟨hpid p hp, (hops p hp).1, htop p hp⟩) happ]
    rw [processEvent_not_applied emax w omax
      (by rw [homax.1, getDocument_noFault]; exact happ)]

/-- C2 (amended): `shouldProcess` returns true when the document is empty or has
no `_source`. Otherwise `_source.version` is converted to `int` and
`_source.updated_at` to a string, as far as they are read: when both are absent
or convert, it returns false exactly when the version exists and
`e.version <=` it or `updated_at` exists and `e.updated_at <=` it in
lexicographic order, and true otherwise; a version that does not convert makes
it throw, a version at or above the event's makes it return false whatever
`updated_at` holds, and an `updated_at` that is not a string makes it throw
when the version does not already decide the skip. -/
theorem ProductEventConsumer.shouldProcess_decision (e : ProductEvent) (d : Json) :
    ((d.empty = true ∨ d.contains "_source" = false) →
      ProductEventConsumer.shouldProcess e d = .ok true) ∧
    (d.empty = false → d.contains "_source" = true →
      ((∀ x, (d.getKey "_source").intField "version" ≠ some (.error x)) →
       (∀ x, (d.getKey "_source").strField "updated_at" ≠ some (.error x)) →
        ∃ b, ProductEventConsumer.shouldProcess e d = .ok b ∧
          (b = false ↔
            (∃ v, (d.getKey "_source").intField "version" = some (.ok v) ∧ e.version ≤ v) ∨
            (∃ t, (d.getKey "_source").strField "updated_at" = some (.ok t) ∧
              strLe e.updated_at t = true))) ∧
      (∀ x, (d.getKey "_source").intField "version" = some (.error x) →
        ProductEventConsumer.shouldProcess e d = .error x) ∧
      (∀ v, (d.getKey "_source").intField "version" = some (.ok v) → e.version ≤ v →
        ProductEventConsumer.shouldProcess e d = .ok false) ∧
      (∀ x, (d.getKey "_source").strField "updated_at" = some (.error x) →
        ((d.getKey "_source").intField "version" = none ∨
          ∃ v, (d.getKey "_source").intField "version" = some (.ok v) ∧ v < e.version) →
        ProductEventConsumer.shouldProcess e d = .error x)) := by
  refine ⟨?_, ?_⟩
  · rintro (h | h) <;> simp [ProductEventConsumer.shouldProcess, h]
  · intro h1 h2
    generalize hs : d.getKey "_source" = src
    simp only [ProductEventConsumer.shouldProcess, h1, h2, hs, Json.intField, Json.strField]
    by_cases hv : src.contains "version" = true <;>
      by_cases ht : src.contains "updated_at" = true <;>
      simp only [hv, ht] <;>
      rcases (src.getKey "version").toInt with x | v <;>
      rcases (src.getKey "updated_at").toStr with y | t <;>
      simp <;>
      (try by_cases hle : e.version ≤ v <;> simp [hle]) <;>
      (try by_cases hlt : strLe e.updated_at t = true <;> simp [hlt]) <;>
      (try omega)

/-- C1, counterexample: product `P1` is indexed at version 0; a delete of version
2 is delivered before a create of version 1. Both deliveries pass the check and
every index operation succeeds; the run ends with the version 1 document
stored, while handling only the delete (the highest version) leaves no
document. -/
theorem ProductEventConsumer.processAll_highest_version_counterexample :
    IndexOpsSucceed Sample.calm ∧
    (processEvent (Sample.event "delete" 2 "2025-12-03T00:00:00Z") (Sample.stocked 0)
      Sample.calm).success = true ∧
    (processAll [(Sample.event "delete" 2 "2025-12-03T00:00:00Z", Sample.calm),
                 (Sample.event "create" 1 "2025-12-02T00:00:00Z", Sample.calm)]
      (Sample.stocked 0)).docs "products" "P1"
      = (mkDocument (Sample.event "create" 1 "2025-12-02T00:00:00Z")).toOption ∧
    (processAll [(Sample.event "delete" 2 "2025-12-03T00:00:00Z", Sample.calm)]
      (Sample.stocked 0)).docs "products" "P1" = none := by
  decide

/-- C1, witness: an update of version 2, then the create of version 1, then the
update again, on empty stores. -/
theorem ProductEventConsumer.processAll_highest_version_witness :
    (processAll [(Sample.event "update" 2 "2025-12-03T00:00:00Z", Sample.calm),
                 (Sample.event "create" 1 "2025-12-02T00:00:00Z", Sample.calm),
                 (Sample.event "update" 2 "2025-12-03T00:00:00Z", Sample.calm)]
      Sample.blank).docs
      = (processAll [(Sample.event "update" 2 "2025-12-03T00:00:00Z", Sample.calm)]
          Sample.blank).docs :=
  ProductEventConsumer.processAll_highest_version _ _ _ _
    (by decide) (by decide) (by decide) (by decide) (by decide) (by decide) (by decide)
    (Or.inr ⟨_, rfl⟩)

/-- C2, counterexample: the stored `_source.version` is the string `"4"`; the
conversion to `int` throws, so `shouldProcess` returns neither true nor false. -/
theorem ProductEventConsumer.shouldProcess_decision_counterexample :
    shouldProcess (Sample.event "update" 5 "2025-12-03T00:00:00Z")
      (Json.obj [("_source", Json.obj [("version", Json.str "4")])])
      = .error (Exn.type_error 302) := by
  decide

/-- C2, witness: the event of version 5 against the stored version 10 of the test
`IdempotencyCheckOlderVersion` is skipped. -/
theorem ProductEventConsumer.shouldProcess_decision_witness :
    shouldProcess (Sample.event "update" 5 "2025-12-12T00:00:00Z")
      (Json.obj [("_source", Json.obj [("version", Json.num 10),
        ("updated_at", Json.str "2025-12-11T00:00:00Z")])]) = .ok false :=
  ((ProductEventConsumer.shouldProcess_decision _ _).2 (by decide) (by decide)).2.2.1 10
    (by decide) (by decide)

theorem upsertLoop_trace (faults : Nat → Fault) (index id : String) (document : Json)
    (max_retries : Int) (fuel : Nat) :
    ∀ (attempt : Nat) (d : Docs) (tr : List Op),
      ∃ suf,
        (ElasticsearchWriter.upsertLoop faults index id document max_retries fuel attempt d
          tr).2.2 = tr ++ suf ∧
        cacheOps suf = [] ∧
        indexSucceeded suf =
          (ElasticsearchWriter.upsertLoop faults index id document max_retries fuel attempt d
            tr).1 := by
  induction fuel with
  | zero =>
    intro attempt d tr
    exact ⟨[], by simp [ElasticsearchWriter.upsertLoop], rfl, rfl⟩
  | succ fuel ih =>
    intro attempt d tr
    unfold ElasticsearchWriter.upsertLoop
    by_cases hlt : (attempt : Int) < max_retries
    · simp only [hlt, if_true]
      split
      · exact ⟨[Op.esPut index id document true], rfl, rfl, rfl⟩
      · split
        · exact ⟨[Op.esPut index id document false], rfl, rfl, rfl⟩
        · obtain ⟨suf, h1, h2, h3⟩ :=
            ih (attempt + 1) (serve (faults attempt) d (esPut d index id document.dump)).1
              (tr ++ [Op.esPut index id document false,
                Op.sleep (100 * 2 ^ (attempt + 1 - 1))])
          refine ⟨[Op.esPut index id document false,
            Op.sleep (100 * 2 ^ (attempt + 1 - 1))] ++ suf, ?_, ?_, ?_⟩
          · rw [h1]; simp
          · simpa [cacheOps, Op.isCache] using h2
          · rw [← h3]; simp [indexSucceeded, Op.isIndexSuccess]
    · simp only [hlt, if_false]
      exact ⟨[], by simp, rfl, rfl⟩

theorem upsertDocument_trace (d : Docs) (faults : Nat → Fault) (index id : String)
    (document : Json) (max_retries : Int) :
    cacheOps (ElasticsearchWriter.upsertDocument d faults index id document max_retries).2.2
      = [] ∧
    indexSucceeded (ElasticsearchWriter.upsertDocument d faults index id document
      max_retries).2.2
      = (ElasticsearchWriter.upsertDocument d faults index id document max_retries).1 := by
  obtain ⟨suf, h1, h2, h3⟩ := upsertLoop_trace faults index id document max_retries
    max_retries.toNat 0 d []
  unfold ElasticsearchWriter.upsertDocument
  rw [← h3, h1]
  simp [h2]

theorem deleteDocument_trace (d : Docs) (f : Fault) (index id : String) :
    (ElasticsearchWriter.deleteDocument d f index id).2.2 =
      [Op.esDelete index id (ElasticsearchWriter.deleteDocument d f index id).1] := by
  unfold ElasticsearchWriter.deleteDocument
  simp only []
  cases ElasticsearchWriter.performRequest (serve f d (esDelete d index id)).2 <;> rfl

theorem cacheOps_append (a b : List Op) : cacheOps (a ++ b) = cacheOps a ++ cacheOps b := by
  simp [cacheOps]

theorem indexSucceeded_append (a b : List Op) :
    indexSucceeded (a ++ b) = (indexSucceeded a || indexSucceeded b) := by
  simp [indexSucceeded]

theorem cacheOps_nil : cacheOps [] = [] := rfl

theorem cacheOps_cons (op : Op) (tr : List Op) :
    cacheOps (op :: tr) = if op.isCache = true then op :: cacheOps tr else cacheOps tr := by
  simp only [cacheOps, List.filter_cons]

theorem indexSucceeded_nil : indexSucceeded [] = false := rfl

theorem indexSucceeded_cons (op : Op) (tr : List Op) :
    indexSucceeded (op :: tr) = (op.isIndexSuccess || indexSucceeded tr) := by
  simp only [indexSucceeded, List.any_cons]

/-- C9: in the trace of `processEvent` every cache operation comes after every
other operation; there is none unless an index mutation succeeded; after a
successful index mutation they are, on the key `product:<product_id>`, one
`del` for a delete event and otherwise one `set` of the serialised
`event.data`, followed by one `del` exactly when that `set` failed. For an
event that passes the idempotency check the value returned is the outcome of
the index mutation. -/
theorem ProductEventConsumer.processEvent_cache_after_index (e : ProductEvent) (w : World)
    (o : Oracle) :
    (∃ pre, (processEvent e w o).trace = pre ++ cacheOps (processEvent e w o).trace ∧
      cacheOps pre = []) ∧
    (indexSucceeded (processEvent e w o).trace = false →
      cacheOps (processEvent e w o).trace = []) ∧
    (indexSucceeded (processEvent e w o).trace = true →
      cacheOps (processEvent e w o).trace =
        if e.event_type = "delete" then [Op.redisDel ("product:" ++ e.product_id) o.redisDel]
        else if o.redisSet = true then
          [Op.redisSet ("product:" ++ e.product_id) e.data.dump true]
        else
          [Op.redisSet ("product:" ++ e.product_id) e.data.dump false,
           Op.redisDel ("product:" ++ e.product_id) o.redisDel]) ∧
    (shouldProcess e (ElasticsearchWriter.getDocument w.docs o.get "products" e.product_id)
        = .ok true →
      (processEvent e w o).success = indexSucceeded (processEvent e w o).trace) := by
  unfold processEvent
  simp only []
  split
  · rename_i heq
    refine ⟨⟨[Op.esGet "products" e.product_id], by simp [cacheOps, Op.isCache], rfl⟩,
      by simp [cacheOps, Op.isCache], by simp [indexSucceeded, Op.isIndexSuccess], ?_⟩
    intro h; rw [h] at heq; cases heq
  · rename_i heq
    refine ⟨⟨[Op.esGet "products" e.product_id], by simp [cacheOps, Op.isCache], rfl⟩,
      by simp [cacheOps, Op.isCache], by simp [indexSucceeded, Op.isIndexSuccess], ?_⟩
    intro h; rw [h] at heq; cases heq
  · by_cases hdel : e.event_type = "delete"
    · simp only [hdel, if_true]
      have ht := deleteDocument_trace w.docs o.delete "products" e.product_id
      generalize ElasticsearchWriter.deleteDocument w.docs o.delete "products" e.product_id
        = r at ht
      obtain ⟨ok, docs, t3⟩ := r
      simp only at ht
      subst ht
      cases ok
      · refine ⟨⟨[Op.esGet "products" e.product_id, Op.esDelete "products" e.product_id false],
          by simp [cacheOps, Op.isCache], rfl⟩, by simp [cacheOps, Op.isCache],
          by simp [indexSucceeded, Op.isIndexSuccess],
          by simp [indexSucceeded, Op.isIndexSuccess]⟩
      · refine ⟨⟨[Op.esGet "products" e.product_id, Op.esDelete "products" e.product_id true],
          by simp [cacheOps, Op.isCache], rfl⟩,
          by simp [indexSucceeded, Op.isIndexSuccess],
          by simp [cacheOps, Op.isCache, RedisClient.del]; cases o.redisDel <;> simp,
          by simp [indexSucceeded, Op.isIndexSuccess]⟩
    · simp only [hdel, if_false]
      cases hm : mkDocument e with
      | error x =>
        refine ⟨⟨[Op.esGet "products" e.product_id], by simp [cacheOps, Op.isCache], rfl⟩,
          by simp [cacheOps, Op.isCache], by simp [indexSucceeded, Op.isIndexSuccess],
          by simp [indexSucceeded, Op.isIndexSuccess]⟩
      | ok doc =>
        simp only []
        obtain ⟨hc, hi⟩ := upsertDocument_trace w.docs o.put "products" e.product_id doc 3
        generalize ElasticsearchWriter.upsertDocument w.docs o.put "products" e.product_id doc 3
          = r at hc hi
        obtain ⟨ok, docs, t3⟩ := r
        simp only at hc hi
        cases ok
        · simp only [Bool.not_false, if_true]
          refine ⟨⟨[Op.esGet "products" e.product_id] ++ t3, ?_, ?_⟩, ?_, ?_, ?_⟩
          · simp [cacheOps_append, hc, cacheOps_cons, cacheOps_nil, Op.isCache]
          · simp [cacheOps_append, hc, cacheOps_cons, cacheOps_nil, Op.isCache]
          · intro _; simp [cacheOps_append, hc, cacheOps_cons, cacheOps_nil, Op.isCache]
          · intro h; simp [indexSucceeded_append, hi, indexSucceeded_cons, indexSucceeded_nil,
                Op.isIndexSuccess] at h
          · intro _; simp [indexSucceeded_append, hi, indexSucceeded_cons, indexSucceeded_nil,
                Op.isIndexSuccess]
        · simp only [Bool.not_true]
          cases hs : o.redisSet
          · simp only [RedisClient.set, hs]
            refine ⟨⟨[Op.esGet "products" e.product_id] ++ t3, ?_, ?_⟩, ?_, ?_, ?_⟩
            · simp [cacheOps_append, hc, cacheOps_cons, cacheOps_nil, Op.isCache,
                RedisClient.del]
            · simp [cacheOps_append, hc, cacheOps_cons, cacheOps_nil, Op.isCache]
            · intro h
              simp [indexSucceeded_append, hi, indexSucceeded_cons, indexSucceeded_nil,
                Op.isIndexSuccess] at h
            · intro _
              simp [cacheOps_append, hc, cacheOps_cons, cacheOps_nil, Op.isCache,
                RedisClient.del]
              cases o.redisDel <;> simp
            · intro _; simp [indexSucceeded_append, hi, indexSucceeded_cons, indexSucceeded_nil,
                Op.isIndexSuccess]
          · simp only [RedisClient.set, hs]
            refine ⟨⟨[Op.esGet "products" e.product_id] ++ t3, ?_, ?_⟩, ?_, ?_, ?_⟩
            · simp [cacheOps_append, hc, cacheOps_cons, cacheOps_nil, Op.isCache]
            · simp [cacheOps_append, hc, cacheOps_cons, cacheOps_nil, Op.isCache]
            · intro h
              simp [indexSucceeded_append, hi, indexSucceeded_cons, indexSucceeded_nil,
                Op.isIndexSuccess] at h
            · intro _
              simp [cacheOps_append, hc, cacheOps_cons, cacheOps_nil, Op.isCache]
            · intro _; simp [indexSucceeded_append, hi, indexSucceeded_cons, indexSucceeded_nil,
                Op.isIndexSuccess]

/-- C9, witness: an update whose cache `set` fails is followed by one `del`. -/
theorem ProductEventConsumer.processEvent_cache_after_index_witness :
    cacheOps (processEvent (Sample.event "update" 2 "2025-12-03T00:00:00Z") (Sample.stocked 0)
      { Sample.calm with redisSet := false }).trace =
      [Op.redisSet "product:P1" (Json.obj [("title", Json.str "Lamp")]).dump false,
       Op.redisDel "product:P1" true] :=
  (ProductEventConsumer.processEvent_cache_after_index
    (Sample.event "update" 2 "2025-12-03T00:00:00Z") (Sample.stocked 0)
    { Sample.calm with redisSet := false }).2.2.1 (by decide)

/-- C8 (amended): when `processEvent` returns success for an event that passed the
idempotency check and that is a delete, or a create/update whose cache `set`
failed, and the `del` call succeeded, the cache holds no entry under
`product:<product_id>` afterwards, whatever it held before. -/
theorem ProductEventConsumer.processEvent_cache_absent (e : ProductEvent) (w : World)
    (o : Oracle)
    (hpass : shouldProcess e
      (ElasticsearchWriter.getDocument w.docs o.get "products" e.product_id) = .ok true)
    (hsucc : (processEvent e w o).success = true)
    (hcase : e.event_type = "delete" ∨ o.redisSet = false)
    (hdel : o.redisDel = true) :
    (processEvent e w o).world.cache ("product:" ++ e.product_id) = none := by
  unfold processEvent at hsucc ⊢
  simp only [hpass] at hsucc ⊢
  by_cases hty : e.event_type = "delete"
  · simp only [hty, if_true] at hsucc ⊢
    generalize ElasticsearchWriter.deleteDocument w.docs o.delete "products" e.product_id
      = r at hsucc ⊢
    obtain ⟨ok, docs, t3⟩ := r
    cases ok
    · simp at hsucc
    · simp [RedisClient.del, hdel]
  · have hset : o.redisSet = false := by
      rcases hcase with h | h
      · exact absurd h hty
      · exact h
    simp only [hty, if_false] at hsucc ⊢
    cases hm : mkDocument e with
    | error x => simp [hm] at hsucc
    | ok doc =>
      simp only [hm] at hsucc ⊢
      generalize ElasticsearchWriter.upsertDocument w.docs o.put "products" e.product_id doc 3
        = r at hsucc ⊢
      obtain ⟨ok, docs, t3⟩ := r
      cases ok
      · simp at hsucc
      · simp [RedisClient.set, RedisClient.del, hdel, hset]

/-- C8, counterexample: product `P1` is indexed and cached; a delete event is
applied to the index, the `del` sent to Redis gets no reply; `processEvent`
returns success and the cache still holds the entry. -/
theorem ProductEventConsumer.processEvent_cache_absent_counterexample :
    (processEvent (Sample.event "delete" 2 "2025-12-03T00:00:00Z") (Sample.stocked 0)
      { Sample.calm with redisDel := false }).success = true ∧
    (processEvent (Sample.event "delete" 2 "2025-12-03T00:00:00Z") (Sample.stocked 0)
      { Sample.calm with redisDel := false }).world.cache "product:P1"
      = some (Json.obj [("title", Json.str "Desk")]).dump := by
  decide

/-- C8, witness: an update whose cache `set` fails and whose `del` succeeds. -/
theorem ProductEventConsumer.processEvent_cache_absent_witness :
    (processEvent (Sample.event "update" 2 "2025-12-03T00:00:00Z") (Sample.stocked 0)
      { Sample.calm with redisSet := false }).success = true ∧
    (processEvent (Sample.event "update" 2 "2025-12-03T00:00:00Z") (Sample.stocked 0)
      { Sample.calm with redisSet := false }).world.cache "product:P1" = none :=
  ⟨by decide,
   ProductEventConsumer.processEvent_cache_absent
    (Sample.event "update" 2 "2025-12-03T00:00:00Z") (Sample.stocked 0)
    { Sample.calm with redisSet := false } (by decide) (by decide) (Or.inr rfl) rfl⟩

/-- C10 (amended): when fetching the current document fails for any reason (HTTP
5xx, transport error, unparsable body), `getDocument` returns the empty object,
as for an absent document, and the event passes the idempotency check: a
delete event issues its DELETE and `processEvent` returns its outcome; a
create or update whose document can be built and whose PUT succeeds is stored
whatever version the index held, and `processEvent` returns success. -/
theorem ProductEventConsumer.processEvent_fetch_failure (e : ProductEvent) (w : World)
    (o : Oracle) (hf : o.get ≠ Fault.none) :
    ElasticsearchWriter.getDocument w.docs o.get "products" e.product_id = Json.obj [] ∧
    shouldProcess e (ElasticsearchWriter.getDocument w.docs o.get "products" e.product_id)
      = .ok true ∧
    (e.event_type = "delete" →
      Op.esDelete "products" e.product_id (processEvent e w o).success
        ∈ (processEvent e w o).trace) ∧
    (e.event_type ≠ "delete" → ∀ doc, mkDocument e = .ok doc → o.put 0 = Fault.none →
      (processEvent e w o).success = true ∧
      (processEvent e w o).world.docs "products" e.product_id = some doc) := by
  have hg := getDocument_fault w.docs o.get "products" e.product_id hf
  have hp : shouldProcess e
      (ElasticsearchWriter.getDocument w.docs o.get "products" e.product_id) = .ok true := by
    rw [hg]; exact shouldProcess_empty e
  refine ⟨hg, hp, ?_, ?_⟩
  · intro hty
    unfold processEvent
    simp only [hp, hty, if_true]
    have ht := deleteDocument_trace w.docs o.delete "products" e.product_id
    generalize ElasticsearchWriter.deleteDocument w.docs o.delete "products" e.product_id
      = r at ht
    obtain ⟨ok, docs, t3⟩ := r
    simp only at ht
    subst ht
    cases ok <;> simp
  · intro hty doc hdoc hput
    constructor
    · unfold processEvent
      simp only [hp, hty, if_false, hdoc, upsertDocument_first_ok _ _ _ _ _ hput]
      simp
      split <;> simp
    · rw [processEvent_applied e w o doc hp hty hdoc hput]
      exact Docs.put_self _ _ _ _

/-- C10, counterexample: product `P1` is indexed at version 10 and the GET for an
update of version 5 is answered 503; `processEvent` returns success and the
version 5 document replaces the stored one (without the fault the event is
skipped and the index unchanged). -/
theorem ProductEventConsumer.processEvent_fetch_failure_counterexample :
    (processEvent (Sample.event "update" 5 "2025-12-03T00:00:00Z") (Sample.stocked 10)
      { Sample.calm with get := Fault.http5xx 3 }).success = true ∧
    (processEvent (Sample.event "update" 5 "2025-12-03T00:00:00Z") (Sample.stocked 10)
      { Sample.calm with get := Fault.http5xx 3 }).world.docs "products" "P1"
      = (mkDocument (Sample.event "update" 5 "2025-12-03T00:00:00Z")).toOption ∧
    (processEvent (Sample.event "update" 5 "2025-12-03T00:00:00Z") (Sample.stocked 10)
      Sample.calm).world.docs "products" "P1" = (Sample.stocked 10).docs "products" "P1" := by
  decide

/-- C10, witness: the same update with a transport error on the GET. -/
theorem ProductEventConsumer.processEvent_fetch_failure_witness :
    (processEvent (Sample.event "update" 5 "2025-12-03T00:00:00Z") (Sample.stocked 10)
      { Sample.calm with get := Fault.transport }).success = true :=
  ((ProductEventConsumer.processEvent_fetch_failure
    (Sample.event "update" 5 "2025-12-03T00:00:00Z") (Sample.stocked 10)
    { Sample.calm with get := Fault.transport } (by decide)).2.2.2 (by decide) _ rfl rfl).1

/-! ## Theorems: ingestion pipeline -/

theorem digitChar_toNat (k : Nat) (h : k < 10) : (Nat.digitChar k).toNat - 48 = k := by
  interval_cases k <;> rfl

theorem digitChar_ne_underscore (k : Nat) (h : k < 10) : Nat.digitChar k ≠ '_' := by
  interval_cases k <;> decide

theorem digitsValue_decimalRev : ∀ (fuel n : Nat), n < fuel →
    digitsValue (decimalRev fuel n) = n := by
  intro fuel
  induction fuel with
  | zero => intro n h; omega
  | succ fuel ih =>
    intro n h
    simp only [decimalRev, digitsValue]
    rw [digitChar_toNat _ (Nat.mod_lt _ (by omega))]
    by_cases h0 : n / 10 = 0
    · simp only [h0, if_true, digitsValue]
      omega
    · simp only [h0, if_false]
      rw [ih (n / 10) (by omega)]
      omega

theorem decimalRev_no_underscore : ∀ (fuel n : Nat), '_' ∉ decimalRev fuel n := by
  intro fuel
  induction fuel with
  | zero => intro n; simp [decimalRev]
  | succ fuel ih =>
    intro n
    simp only [decimalRev, List.mem_cons, not_or]
    refine ⟨fun h => digitChar_ne_underscore _ (Nat.mod_lt _ (by omega)) h.symm, ?_⟩
    split
    · simp
    · exact ih _

theorem decimalRev_injective {a b : Nat}
    (h : decimalRev (a + 1) a = decimalRev (b + 1) b) : a = b := by
  have ha := digitsValue_decimalRev (a + 1) a (by omega)
  have hb := digitsValue_decimalRev (b + 1) b (by omega)
  rw [h] at ha
  omega

/-- Two lists that agree after a separator absent from both heads have equal heads. -/
theorem head_eq_of_append_sep {α : Type} (sep : α) :
    ∀ (x₁ x₂ z₁ z₂ : List α), sep ∉ x₁ → sep ∉ x₂ →
      x₁ ++ sep :: z₁ = x₂ ++ sep :: z₂ → x₁ = x₂
  | [], [], _, _, _, _, _ => rfl
  | [], c :: x₂, _, _, _, h2, h => by
    simp only [List.nil_append, List.cons_append, List.cons.injEq] at h
    exact absurd (by rw [h.1]; exact List.mem_cons_self _ _) h2
  | c :: x₁, [], _, _, h1, _, h => by
    simp only [List.nil_append, List.cons_append, List.cons.injEq] at h
    exact absurd (by rw [← h.1]; exact List.mem_cons_self _ _) h1
  | c :: x₁, c2 :: x₂, z₁, z₂, h1, h2, h => by
    simp only [List.cons_append, List.cons.injEq] at h
    rw [h.1, head_eq_of_append_sep sep x₁ x₂ z₁ z₂
      (fun hm => h1 (List.mem_cons_of_mem _ hm)) (fun hm => h2 (List.mem_cons_of_mem _ hm)) h.2]

/-- The counter can be read back from a batch file name. -/
theorem fileName_counter_injective {s₁ s₂ : String} {c₁ c₂ : Nat}
    (h : AppendLog.fileName s₁ c₁ = AppendLog.fileName s₂ c₂) : c₁ = c₂ := by
  unfold AppendLog.fileName decimal at h
  have hd := congrArg String.data h
  simp only [String.data_append] at hd
  have h1 := List.append_cancel_right hd
  rw [List.append_assoc, List.append_assoc, List.append_assoc, List.append_assoc] at h1
  have h2 := List.append_cancel_left h1
  have h3 := congrArg List.reverse h2
  simp only [List.reverse_append, List.reverse_reverse] at h3
  have h4 : decimalRev (c₁ + 1) c₁ ++ '_' :: s₁.data.reverse
      = decimalRev (c₂ + 1) c₂ ++ '_' :: s₂.data.reverse := by
    simpa using h3
  exact decimalRev_injective
    (head_eq_of_append_sep '_' _ _ _ _ (decimalRev_no_underscore _ _)
      (decimalRev_no_underscore _ _) h4)

theorem Owned.fresh {log : AppendLog} (h : log.Owned) (stamp : String) :
    ∀ d ∈ log.dir, d.name ≠ AppendLog.fileName stamp log.batch_counter := by
  intro d hd heq
  obtain ⟨s, c, hc, hn⟩ := h d hd
  rw [hn] at heq
  have := fileName_counter_injective heq
  omega

theorem dirWrite_fresh : ∀ (dir : List DirEntry) (name : String) (lines : List Text),
    (∀ d ∈ dir, d.name ≠ name) → dirWrite dir name lines = dir ++ [⟨name, true, lines⟩] := by
  intro dir
  induction dir with
  | nil => intro name lines _; rfl
  | cons d ds ih =>
    intro name lines h
    simp only [dirWrite, h d (List.mem_cons_self _ _), if_false, List.cons_append]
    rw [ih name lines (fun x hx => h x (List.mem_cons_of_mem _ hx))]

theorem find_dirWrite (f : String) (lines : List Text) :
    ∀ dir : List DirEntry,
      (dirWrite dir f lines).find? (fun d => d.name = f) = some ⟨f, true, lines⟩
  | [] => by simp [dirWrite]
  | d :: rest => by
    by_cases h : d.name = f
    · simp [dirWrite, h]
    · simp [dirWrite, h, find_dirWrite f lines rest]

/-- The `deleteBatch` of a regular file returns, and the entry is gone. -/
theorem deleteBatch_file (log : AppendLog) (f : String) (h : log.holdsFile f) :
    log.deleteBatch f = .ok ⟨dirRemove log.dir f, log.batch_counter⟩ := by
  obtain ⟨h1, h2, h3, d, hd, hreg⟩ := h
  simp [AppendLog.deleteBatch, h1, h2, h3, hd, hreg]

theorem mem_dirWrite_of_ne : ∀ (dir : List DirEntry) (name : String) (lines : List Text)
    (d : DirEntry), d ∈ dir → d.name ≠ name → d ∈ dirWrite dir name lines := by
  intro dir
  induction dir with
  | nil => intro _ _ d h; cases h
  | cons x xs ih =>
    intro name lines d hd hne
    simp only [dirWrite]
    rcases List.mem_cons.mp hd with h | h
    · subst h
      simp [hne]
    · split
      · exact List.mem_cons_of_mem _ h
      · exact List.mem_cons_of_mem _ (ih name lines d h hne)

theorem mem_dirWrite_self : ∀ (dir : List DirEntry) (name : String) (lines : List Text),
    (⟨name, true, lines⟩ : DirEntry) ∈ dirWrite dir name lines := by
  intro dir
  induction dir with
  | nil => intro name lines; simp [dirWrite]
  | cons x xs ih =>
    intro name lines
    simp only [dirWrite]
    split
    · exact List.mem_cons_self _ _
    · exact List.mem_cons_of_mem _ (ih name lines)

/-- What a `deleteBatch` that returns leaves: the counter, and every entry of
another name; it adds nothing. -/
theorem deleteBatch_ok_dir (log log2 : AppendLog) (f : String)
    (h : log.deleteBatch f = .ok log2) :
    log2.batch_counter = log.batch_counter ∧
    (∀ d ∈ log.dir, d.name ≠ f → d ∈ log2.dir) ∧ (∀ d ∈ log2.dir, d ∈ log.dir) := by
  unfold AppendLog.deleteBatch at h
  split at h
  · split at h
    · cases h; exact ⟨rfl, fun d hd _ => hd, fun d hd => hd⟩
    · cases h
  · split at h
    · cases h
    · split at h
      · cases h; exact ⟨rfl, fun d hd _ => hd, fun d hd => hd⟩
      · split at h
        · cases h
          refine ⟨rfl, ?_, ?_⟩
          · intro d hd hne
            simp [dirRemove, hd, hne]
          · intro d hd
            exact (List.mem_filter.mp hd).1
        · cases h

/-- The three outcomes of `push`. -/
theorem push_outcome (q : LockfreeQueue) (heapOk : Bool) (event : Event) :
    q.push heapOk event = .error .bad_alloc ∨ q.push heapOk event = .ok (false, q) ∨
    ∃ q2, q.push heapOk event = .ok (true, q2) ∧ q2.items = q.items ++ [event] := by
  unfold LockfreeQueue.push
  by_cases h1 : q.pool > 0
  · simp only [h1, if_true]
    exact Or.inr (Or.inr ⟨_, rfl, rfl⟩)
  · simp only [h1, if_false]
    cases q.fixed_sized
    · cases heapOk
      · exact Or.inl rfl
      · exact Or.inr (Or.inr ⟨_, rfl, rfl⟩)
    · exact Or.inr (Or.inl rfl)

theorem Inv.post (p : Pipeline) (body : Text) (now : Int) (heapOk : Bool) (h : p.Inv) :
    (p.post body now heapOk).Inv := by
  obtain ⟨hl, hf⟩ := h
  unfold Pipeline.post IngestionServer.handlePostEvent
  cases hb : IngestionServer.bodyToEvent body now with
  | error x => exact ⟨hl, hf⟩
  | ok event =>
    rcases push_outcome p.server.event_queue heapOk event with hp | hp | ⟨q2, hp, hq⟩
    · simp only [hp]
      exact ⟨hl, hf⟩
    · simp only [hp]
      exact ⟨hl, hf⟩
    · simp only [hp]
      refine ⟨?_, hf⟩
      intro e he
      simp only [if_true, List.mem_append, List.mem_singleton] at he
      unfold Pipeline.Located
      rcases he with he | he
      · rcases hl e he with h1 | h1 | h1 | h1 | h1 | h1
        · left; simp [hq, h1]
        · exact Or.inr (Or.inl h1)
        · exact Or.inr (Or.inr (Or.inl h1))
        · exact Or.inr (Or.inr (Or.inr (Or.inl h1)))
        · exact Or.inr (Or.inr (Or.inr (Or.inr (Or.inl h1))))
        · exact Or.inr (Or.inr (Or.inr (Or.inr (Or.inr h1))))
      · left; simp [hq, he]

theorem Inv.pop (p : Pipeline) (h : p.Inv) : p.pop.Inv := by
  obtain ⟨srv, popped, flush, acked, accepted⟩ := p
  obtain ⟨hl, hf⟩ := h
  cases popped with
  | some x => exact ⟨hl, hf⟩
  | none =>
    unfold Pipeline.pop LockfreeQueue.pop
    cases hq : srv.event_queue.items with
    | nil => exact ⟨hl, hf⟩
    | cons x xs =>
      refine ⟨?_, hf⟩
      intro e he
      rcases hl e he with h1 | h1 | h1 | h1 | h1 | h1
      · have h2 : e ∈ x :: xs := by rw [← hq]; exact h1
        rcases List.mem_cons.mp h2 with h3 | h3
        · exact Or.inr (Or.inl (by rw [h3]))
        · exact Or.inl h3
      · cases h1
      · exact Or.inr (Or.inr (Or.inl h1))
      · exact Or.inr (Or.inr (Or.inr (Or.inl h1)))
      · exact Or.inr (Or.inr (Or.inr (Or.inr (Or.inl h1))))
      · exact Or.inr (Or.inr (Or.inr (Or.inr (Or.inr h1))))

theorem Inv.add (p : Pipeline) (h : p.Inv) : p.add.Inv := by
  obtain ⟨srv, popped, flush, acked, accepted⟩ := p
  obtain ⟨hl, hf⟩ := h
  cases popped with
  | none => exact ⟨hl, hf⟩
  | some x =>
    refine ⟨?_, hf⟩
    intro e he
    rcases hl e he with h1 | h1 | h1 | h1 | h1 | h1
    · exact Or.inl h1
    · have h2 : x = e := by simpa using h1
      exact Or.inr (Or.inr (Or.inl (by simp [Pipeline.add, Batcher.addEvent, h2])))
    · exact Or.inr (Or.inr (Or.inl (by simp [Pipeline.add, Batcher.addEvent]; exact Or.inl h1)))
    · exact Or.inr (Or.inr (Or.inr (Or.inl h1)))
    · exact Or.inr (Or.inr (Or.inr (Or.inr (Or.inl h1))))
    · exact Or.inr (Or.inr (Or.inr (Or.inr (Or.inr h1))))

theorem Inv.take (p : Pipeline) (h : p.Inv) : p.take.Inv := by
  obtain ⟨srv, popped, flush, acked, accepted⟩ := p
  obtain ⟨hl, hf⟩ := h
  cases flush with
  | idle =>
    unfold Pipeline.take
    cases hempty : srv.batcher.current_batch.isEmpty
    · simp only [Bool.false_eq_true, if_false]
      refine ⟨?_, trivial⟩
      intro e he
      rcases hl e he with h1 | h1 | h1 | h1 | h1 | h1
      · exact Or.inl h1
      · exact Or.inr (Or.inl h1)
      · exact Or.inr (Or.inr (Or.inr (Or.inl h1)))
      · cases h1
      · exact Or.inr (Or.inr (Or.inr (Or.inr (Or.inl h1))))
      · exact Or.inr (Or.inr (Or.inr (Or.inr (Or.inr h1))))
    · exact ⟨hl, hf⟩
  | taken b => exact ⟨hl, hf⟩
  | written b f => exact ⟨hl, hf⟩
  | delivered b f => exact ⟨hl, hf⟩

theorem Inv.write (p : Pipeline) (stamp : String) (openOk : Bool) (h : p.Inv) :
    (p.write stamp openOk).Inv := by
  obtain ⟨srv, popped, flush, acked, accepted⟩ := p
  obtain ⟨hl, hf⟩ := h
  cases flush with
  | idle => exact ⟨hl, hf⟩
  | written b f => exact ⟨hl, hf⟩
  | delivered b f => exact ⟨hl, hf⟩
  | taken b =>
    unfold Pipeline.write AppendLog.writeBatch
    by_cases hopen : (openOk && !(srv.log.dir.any (fun d =>
        d.name = AppendLog.fileName stamp srv.log.batch_counter && !d.is_regular_file)))
        = true
    · simp only [hopen, if_true]
      refine ⟨?_, Nat.succ_pos _, ⟨stamp, rfl⟩, mem_dirWrite_self _ _ _⟩
      intro e he
      rcases hl e he with h1 | h1 | h1 | h1 | ⟨d, hd, hreg, ⟨s, c, hc, hn⟩, hlines⟩ | h1
      · exact Or.inl h1
      · exact Or.inr (Or.inl h1)
      · exact Or.inr (Or.inr (Or.inl h1))
      · exact Or.inr (Or.inr (Or.inr (Or.inl h1)))
      · refine Or.inr (Or.inr (Or.inr (Or.inr (Or.inl ⟨d, ?_, hreg, ⟨s, c, hc, hn⟩, hlines⟩))))
        apply mem_dirWrite_of_ne _ _ _ d hd
        intro heq
        rw [hn] at heq
        have h2 := fileName_counter_injective heq
        have h3 : c < srv.log.batch_counter := hc
        omega
      · exact Or.inr (Or.inr (Or.inr (Or.inr (Or.inr h1))))
    · simp only [hopen]
      exact ⟨hl, hf⟩

theorem Inv.send (p : Pipeline) (drawBelowRate : Bool) (h : p.Inv) :
    (p.send drawBelowRate).Inv := by
  obtain ⟨srv, popped, flush, acked, accepted⟩ := p
  obtain ⟨hl, hf⟩ := h
  cases flush with
  | idle => exact ⟨hl, hf⟩
  | taken b => exact ⟨hl, hf⟩
  | delivered b f => exact ⟨hl, hf⟩
  | written b f =>
    obtain ⟨hpos, ⟨stamp, hname⟩, hfile⟩ := hf
    cases hs : srv.sink.sendBatch drawBelowRate b
    · simp only [Pipeline.send, hs, Bool.false_eq_true, if_false]
      refine ⟨?_, trivial⟩
      intro e he
      rcases hl e he with h1 | h1 | h1 | h1 | ⟨d, hd, hreg, ⟨s, c, hc, hn⟩, hlines⟩ | h1
      · exact Or.inl h1
      · exact Or.inr (Or.inl h1)
      · exact Or.inr (Or.inr (Or.inl h1))
      · refine Or.inr (Or.inr (Or.inr (Or.inr (Or.inl
          ⟨batchFile f b, hfile, rfl, ⟨stamp, srv.log.batch_counter - 1, ?_, hname⟩, ?_⟩))))
        · have h3 : 0 < srv.log.batch_counter := hpos
          show srv.log.batch_counter - 1 < srv.log.batch_counter
          omega
        · exact List.mem_map_of_mem _ h1
      · refine Or.inr (Or.inr (Or.inr (Or.inr (Or.inl ⟨d, hd, hreg, ⟨s, c, ?_, hn⟩, hlines⟩))))
        have h3 : c < srv.log.batch_counter - 1 := hc
        show c < srv.log.batch_counter
        omega
      · exact Or.inr (Or.inr (Or.inr (Or.inr (Or.inr h1))))
    · simp only [Pipeline.send, hs, if_true]
      refine ⟨?_, hpos, ⟨stamp, hname⟩, hfile, List.mem_append_right _ (List.mem_singleton_self _)⟩
      intro e he
      rcases hl e he with h1 | h1 | h1 | h1 | h1 | ⟨batch, hb, heb⟩
      · exact Or.inl h1
      · exact Or.inr (Or.inl h1)
      · exact Or.inr (Or.inr (Or.inl h1))
      · exact Or.inr (Or.inr (Or.inr (Or.inl h1)))
      · exact Or.inr (Or.inr (Or.inr (Or.inr (Or.inl h1))))
      · exact Or.inr (Or.inr (Or.inr (Or.inr (Or.inr ⟨batch, List.mem_append_left _ hb, heb⟩))))

theorem Inv.delete (p : Pipeline) (h : p.Inv) : p.delete.Inv := by
  obtain ⟨srv, popped, flush, acked, accepted⟩ := p
  obtain ⟨hl, hf⟩ := h
  cases flush with
  | idle => exact ⟨hl, hf⟩
  | taken b => exact ⟨hl, hf⟩
  | written b f => exact ⟨hl, hf⟩
  | delivered b f =>
    obtain ⟨hpos, ⟨stamp, hname⟩, hfile, hacked⟩ := hf
    cases hd : srv.log.deleteBatch f with
    | error x =>
      simp only [Pipeline.delete, hd]
      exact ⟨hl, hpos, ⟨stamp, hname⟩, hfile, hacked⟩
    | ok log2 =>
      obtain ⟨hc2, hkeep, -⟩ := deleteBatch_ok_dir _ _ _ hd
      simp only [Pipeline.delete, hd]
      refine ⟨?_, trivial⟩
      intro e he
      rcases hl e he with h1 | h1 | h1 | h1 | ⟨d, hd, hreg, ⟨s, c, hc, hn⟩, hlines⟩ | h1
      · exact Or.inl h1
      · exact Or.inr (Or.inl h1)
      · exact Or.inr (Or.inr (Or.inl h1))
      · exact Or.inr (Or.inr (Or.inr (Or.inr (Or.inr ⟨b, hacked, h1⟩))))
      · have h3 : c < srv.log.batch_counter - 1 := hc
        refine Or.inr (Or.inr (Or.inr (Or.inr (Or.inl ⟨d, ?_, hreg, ⟨s, c, ?_, hn⟩, hlines⟩))))
        · apply hkeep d hd
          intro heq
          rw [hn, hname] at heq
          have h2 : c = srv.log.batch_counter - 1 := fileName_counter_injective heq
          omega
        · show c < log2.batch_counter
          rw [hc2]
          omega
      · exact Or.inr (Or.inr (Or.inr (Or.inr (Or.inr h1))))

theorem Inv.reachable {init p : Pipeline} (hr : Pipeline.Reachable init p)
    (h : init.Inv) : p.Inv := by
  induction hr with
  | start => exact h
  | step _ hstep ih =>
    cases hstep with
    | post body now heapOk => exact Inv.post _ body now heapOk ih
    | pop => exact Inv.pop _ ih
    | add => exact Inv.add _ ih
    | take => exact Inv.take _ ih
    | write stamp openOk hwrite => exact Inv.write _ stamp openOk ih
    | send draw => exact Inv.send _ draw ih
    | delete => exact Inv.delete _ ih

/-- C3 (amended): in every state that the pipeline of a newly constructed server
reaches by requests, by the pops and the `addEvent` calls of the queue
consumer and by the parts of `flushBatch` (the batch taken, the file written,
the sink called, the file deleted), no log write throwing, every event that
was answered 202 is in the accept queue, in the local variable of the queue
consumer between its `pop` and its `addEvent`, in the Batcher's in-memory
batch, in the batch that a `flushBatch` under way has taken and not yet
written, in a batch file on disk or in a batch the sink has acknowledged. -/
theorem Pipeline.accepted_event_located (port queue_size batch_size batch_wait_ms : Int)
    (dir : List DirEntry) (p : Pipeline)
    (hr : Pipeline.Reachable (Pipeline.fresh port queue_size batch_size batch_wait_ms dir) p)
    (event : Event) (hacc : event ∈ p.accepted) :
    event ∈ p.server.event_queue.items ∨ p.popped = some event ∨
      event ∈ p.server.batcher.current_batch ∨ p.inFlight event ∨
      p.onDisk event ∨ p.isAcked event := by
  have h := Inv.reachable hr ⟨fun e he => absurd he (List.not_mem_nil e), trivial⟩
  obtain ⟨srv, popped, flush, acked, accepted⟩ := p
  obtain ⟨hl, hf⟩ := h
  rcases hl event hacc with h1 | h1 | h1 | h1 | ⟨d, hd, hreg, -, hlines⟩ | h1
  · exact Or.inl h1
  · exact Or.inr (Or.inl h1)
  · exact Or.inr (Or.inr (Or.inl h1))
  · cases flush with
    | idle => cases h1
    | taken b => exact Or.inr (Or.inr (Or.inr (Or.inl h1)))
    | written b f =>
      exact Or.inr (Or.inr (Or.inr (Or.inr (Or.inl
        ⟨batchFile f b, hf.2.2, rfl, List.mem_map_of_mem _ h1⟩))))
    | delivered b f =>
      exact Or.inr (Or.inr (Or.inr (Or.inr (Or.inr ⟨b, hf.2.2.2, h1⟩))))
  · exact Or.inr (Or.inr (Or.inr (Or.inr (Or.inl ⟨d, hd, hreg, hlines⟩))))
  · exact Or.inr (Or.inr (Or.inr (Or.inr (Or.inr h1))))

/-- C3, counterexample: right after the first request was answered 202 the event
is accepted, and it is neither in a batch file on disk nor in an acknowledged
batch (it is in the accept queue). -/
theorem Pipeline.accepted_event_located_counterexample :
    Pipeline.Reachable (Pipeline.fresh 8081 10000 100 1000 [])
      ((Pipeline.fresh 8081 10000 100 1000 []).post (Sample.body "a") 1000 true) ∧
    ((Pipeline.fresh 8081 10000 100 1000 []).server.handlePostEvent (Sample.body "a") 1000
      true).status_code = 202 ∧
    Sample.click "a" 1000 ∈
      ((Pipeline.fresh 8081 10000 100 1000 []).post (Sample.body "a") 1000 true).accepted ∧
    ¬ ((Pipeline.fresh 8081 10000 100 1000 []).post (Sample.body "a") 1000 true).onDisk
      (Sample.click "a" 1000) ∧
    ¬ ((Pipeline.fresh 8081 10000 100 1000 []).post (Sample.body "a") 1000 true).isAcked
      (Sample.click "a" 1000) :=
  ⟨Pipeline.Reachable.step Pipeline.Reachable.start (Pipeline.Step.post _ _ _ _),
    by decide, by decide, by decide, by decide⟩

/-- C3, witness: a request, the pop and the `addEvent` of the queue consumer, and
a `flushBatch` in its four parts. Between the pop and the `addEvent` the event
is in the local variable of the consumer, and once taken by the flush it is
in `batch_to_send`; in the state after the file was written the event is
accepted and located. -/
theorem Pipeline.accepted_event_located_witness :
    (((Pipeline.fresh 8081 10000 100 1000 []).post (Sample.body "a") 1000 true).pop).popped =
      some (Sample.click "a" 1000) ∧
    (((((Pipeline.fresh 8081 10000 100 1000 []).post (Sample.body "a") 1000
      true).pop).add).take).inFlight (Sample.click "a" 1000) ∧
    (Sample.click "a" 1000 ∈ ((((((Pipeline.fresh 8081 10000 100 1000 []).post
        (Sample.body "a") 1000 true).pop).add).take).write "20251211_120000"
        true).server.event_queue.items ∨
      ((((((Pipeline.fresh 8081 10000 100 1000 []).post (Sample.body "a") 1000
        true).pop).add).take).write "20251211_120000" true).popped =
        some (Sample.click "a" 1000) ∨
      Sample.click "a" 1000 ∈ ((((((Pipeline.fresh 8081 10000 100 1000 []).post
        (Sample.body "a") 1000 true).pop).add).take).write "20251211_120000"
        true).server.batcher.current_batch ∨
      ((((((Pipeline.fresh 8081 10000 100 1000 []).post (Sample.body "a") 1000
        true).pop).add).take).write "20251211_120000" true).inFlight (Sample.click "a" 1000) ∨
      ((((((Pipeline.fresh 8081 10000 100 1000 []).post (Sample.body "a") 1000
        true).pop).add).take).write "20251211_120000" true).onDisk (Sample.click "a" 1000) ∨
      ((((((Pipeline.fresh 8081 10000 100 1000 []).post (Sample.body "a") 1000
        true).pop).add).take).write "20251211_120000" true).isAcked (Sample.click "a" 1000)) :=
  ⟨by decide, by decide,
    Pipeline.accepted_event_located 8081 10000 100 1000 [] _
      (Pipeline.Reachable.step (Pipeline.Reachable.step (Pipeline.Reachable.step
        (Pipeline.Reachable.step (Pipeline.Reachable.step
          Pipeline.Reachable.start
          (Pipeline.Step.post _ (Sample.body "a") 1000 true)) (Pipeline.Step.pop _))
          (Pipeline.Step.add _)) (Pipeline.Step.take _))
          (Pipeline.Step.write _ "20251211_120000" true
            (fun _ _ => ⟨AppendLog.fileName "20251211_120000" 0, rfl⟩)))
      (Sample.click "a" 1000) (by decide)⟩

theorem lexLe_total : ∀ (a b : List Char), lexLe a b = false → lexLe b a = true
  | [], _, h => by simp [lexLe] at h
  | _ :: _, [], _ => by simp [lexLe]
  | x :: as, y :: bs, h => by
    simp only [lexLe] at h ⊢
    by_cases hxy : x.toNat < y.toNat
    · simp [hxy] at h
    · by_cases hyx : y.toNat < x.toNat
      · simp [hyx]
      · simp only [hxy, hyx, if_false] at h ⊢
        exact lexLe_total as bs h

theorem lexLe_trans : ∀ (a b c : List Char),
    lexLe a b = true → lexLe b c = true → lexLe a c = true
  | [], _, _, _, _ => by simp [lexLe]
  | _ :: _, [], _, h1, _ => by simp [lexLe] at h1
  | _ :: _, _ :: _, [], _, h2 => by simp [lexLe] at h2
  | x :: as, y :: bs, z :: cs, h1, h2 => by
    simp only [lexLe] at h1 h2 ⊢
    by_cases hxy : x.toNat < y.toNat
    · by_cases hyz : y.toNat < z.toNat
      · have : x.toNat < z.toNat := by omega
        simp [this]
      · by_cases hzy : z.toNat < y.toNat
        · simp [hyz, hzy] at h2
        · have : x.toNat < z.toNat := by omega
          simp [this]
    · by_cases hyx : y.toNat < x.toNat
      · simp [hxy, hyx] at h1
      · simp only [hxy, hyx, if_false] at h1
        by_cases hyz : y.toNat < z.toNat
        · have : x.toNat < z.toNat := by omega
          simp [this]
        · by_cases hzy : z.toNat < y.toNat
          · simp [hyz, hzy] at h2
          · simp only [hyz, hzy, if_false] at h2
            have h3 : ¬ x.toNat < z.toNat := by omega
            have h4 : ¬ z.toNat < x.toNat := by omega
            simp only [h3, h4, if_false]
            exact lexLe_trans as bs cs h1 h2

theorem strLe_total {a b : String} (h : strLe a b = false) : strLe b a = true :=
  lexLe_total a.data b.data h

theorem strLe_trans {a b c : String} (h1 : strLe a b = true) (h2 : strLe b c = true) :
    strLe a c = true :=
  lexLe_trans a.data b.data c.data h1 h2

theorem insertSorted_perm (x : String) (l : List String) :
    List.Perm (insertSorted x l) (x :: l) := by
  induction l with
  | nil => simp [insertSorted]
  | cons y ys ih =>
    simp only [insertSorted]
    split
    · exact List.Perm.refl _
    · exact (List.Perm.cons y ih).trans (List.Perm.swap x y ys)

theorem sortNames_perm (l : List String) : List.Perm (sortNames l) l := by
  induction l with
  | nil => exact List.Perm.refl _
  | cons x xs ih =>
    simp only [sortNames]
    exact (insertSorted_perm x _).trans (List.Perm.cons x ih)

theorem insertSorted_sorted (x : String) (l : List String)
    (h : l.Pairwise (fun a b => strLe a b = true)) :
    (insertSorted x l).Pairwise (fun a b => strLe a b = true) := by
  induction l with
  | nil => simp [insertSorted]
  | cons y ys ih =>
    simp only [insertSorted]
    rw [List.pairwise_cons] at h
    split
    · rename_i hxy
      refine List.Pairwise.cons ?_ (List.Pairwise.cons h.1 h.2)
      intro z hz
      rcases List.mem_cons.mp hz with hz | hz
      · rw [hz]; exact hxy
      · exact strLe_trans hxy (h.1 z hz)
    · rename_i hxy
      have hyx : strLe y x = true := strLe_total (by simpa using hxy)
      refine List.Pairwise.cons ?_ (ih h.2)
      intro z hz
      rcases List.mem_cons.mp ((insertSorted_perm x ys).mem_iff.mp hz) with hz | hz
      · rw [hz]; exact hyx
      · exact h.1 z hz

theorem sortNames_sorted (l : List String) :
    (sortNames l).Pairwise (fun a b => strLe a b = true) := by
  induction l with
  | nil => simp [sortNames]
  | cons x xs ih => exact insertSorted_sorted x _ ih

theorem replayLoop_attempted (sink : SinkAPI) (draw : String → Bool) :
    ∀ (names : List String) (log : AppendLog),
      (IngestionServer.replayLoop sink draw names log).attempted = names := by
  intro names
  induction names with
  | nil => intro log; rfl
  | cons f rest ih =>
    intro log
    unfold IngestionServer.replayLoop
    cases log.readBatch f with
    | error x => simp [ih]
    | ok events =>
      simp only []
      cases sink.sendBatch (draw f) events
      · simp [ih]
      · simp only [if_true]
        cases log.deleteBatch f <;> simp [ih]

theorem find_filter_name (l : List DirEntry) (f g : String) (h : g ≠ f) :
    (l.filter (fun d => d.name ≠ f)).find? (fun d => d.name = g)
      = l.find? (fun d => d.name = g) := by
  induction l with
  | nil => rfl
  | cons d ds ih =>
    by_cases hd : d.name = f
    · have hg : ¬ d.name = g := by rw [hd]; exact fun h2 => h h2.symm
      rw [List.filter_cons_of_neg (by simpa using hd),
        List.find?_cons_of_neg _ (by simpa using hg)]
      exact ih
    · rw [List.filter_cons_of_pos (by simpa using hd)]
      by_cases hg : d.name = g
      · rw [List.find?_cons_of_pos _ (by simpa using hg),
          List.find?_cons_of_pos _ (by simpa using hg)]
      · rw [List.find?_cons_of_neg _ (by simpa using hg),
          List.find?_cons_of_neg _ (by simpa using hg)]
        exact ih

theorem readBatch_dirRemove (log : AppendLog) (c : Nat) (f g : String) (h : g ≠ f) :
    (⟨dirRemove log.dir f, c⟩ : AppendLog).readBatch g = log.readBatch g := by
  unfold AppendLog.readBatch dirRemove
  simp only [find_filter_name log.dir f g h]

theorem holdsFile_dirRemove (log : AppendLog) (c : Nat) (f g : String) (h : g ≠ f)
    (hg : log.holdsFile g) : (⟨dirRemove log.dir f, c⟩ : AppendLog).holdsFile g := by
  obtain ⟨h1, h2, h3, d, hd, hreg⟩ := hg
  refine ⟨h1, h2, h3, d, ?_, hreg⟩
  show (dirRemove log.dir f).find? _ = some d
  unfold dirRemove
  rw [find_filter_name log.dir f g h]
  exact hd

theorem replayOps_congr (log log2 : AppendLog) (sink : SinkAPI) (draw : String → Bool) :
    ∀ names : List String, (∀ g ∈ names, log2.readBatch g = log.readBatch g) →
      log2.replayOps sink draw names = log.replayOps sink draw names
  | [], _ => rfl
  | f :: rest, h => by
    have ih := replayOps_congr log log2 sink draw rest
      (fun g hg => h g (List.mem_cons_of_mem _ hg))
    simp only [AppendLog.replayOps, h f (List.mem_cons_self _ _), ih]

/-- The loop of `replayPendingBatches` over distinct names of regular files:
the directory and the counter it leaves, and the operations it makes. -/
theorem replayLoop_dir (sink : SinkAPI) (draw : String → Bool) :
    ∀ (names : List String) (log : AppendLog), names.Nodup →
      (∀ f ∈ names, log.holdsFile f) →
      (IngestionServer.replayLoop sink draw names log).log.dir =
        log.dir.filter
          (fun d => !(decide (d.name ∈ names) && log.replayDeletes sink draw d.name))
      ∧ (IngestionServer.replayLoop sink draw names log).log.batch_counter
        = log.batch_counter
      ∧ (IngestionServer.replayLoop sink draw names log).trace =
        log.replayOps sink draw names := by
  intro names
  induction names with
  | nil => intro log _ _; simp [IngestionServer.replayLoop, AppendLog.replayOps]
  | cons f rest ih =>
    intro log hnd hfiles
    rw [List.nodup_cons] at hnd
    obtain ⟨hf, hrest⟩ := hnd
    have hfiles1 : ∀ g ∈ rest, log.holdsFile g :=
      fun g hg => hfiles g (List.mem_cons_of_mem _ hg)
    unfold IngestionServer.replayLoop
    cases hr : log.readBatch f with
    | error x =>
      simp only []
      obtain ⟨ih1, ih2, ih3⟩ := ih log hrest hfiles1
      refine ⟨?_, ih2, ?_⟩
      · rw [ih1]
        apply List.filter_congr
        intro d _
        by_cases hd : d.name = f
        · simp [hd, hf, AppendLog.replayDeletes, hr]
        · simp [hd]
      · simp [AppendLog.replayOps, hr, ih3]
    | ok events =>
      simp only []
      cases hs : sink.sendBatch (draw f) events with
      | false =>
        simp only [Bool.false_eq_true, if_false]
        obtain ⟨ih1, ih2, ih3⟩ := ih log hrest hfiles1
        refine ⟨?_, ih2, ?_⟩
        · rw [ih1]
          apply List.filter_congr
          intro d _
          by_cases hd : d.name = f
          · simp [hd, hf, AppendLog.replayDeletes, hr, hs]
          · simp [hd]
        · simp [AppendLog.replayOps, hr, hs, ih3]
      | true =>
        simp only [if_true, deleteBatch_file log f (hfiles f (List.mem_cons_self _ _))]
        have hne : ∀ g ∈ rest, g ≠ f := fun g hg heq => hf (heq ▸ hg)
        obtain ⟨ih1, ih2, ih3⟩ := ih ⟨dirRemove log.dir f, log.batch_counter⟩ hrest
          (fun g hg => holdsFile_dirRemove log _ f g (hne g hg) (hfiles1 g hg))
        refine ⟨?_, ih2, ?_⟩
        · rw [ih1]
          have heq : ∀ g, g ≠ f →
              (⟨dirRemove log.dir f, log.batch_counter⟩ : AppendLog).replayDeletes sink draw g
                = log.replayDeletes sink draw g := by
            intro g hg
            unfold AppendLog.replayDeletes
            rw [readBatch_dirRemove log _ f g hg]
          have hstep : List.filter (fun d => !(decide (d.name ∈ rest) &&
                (⟨dirRemove log.dir f, log.batch_counter⟩ : AppendLog).replayDeletes
                  sink draw d.name)) (dirRemove log.dir f) =
              List.filter (fun d => !(decide (d.name ∈ rest) &&
                log.replayDeletes sink draw d.name)) (dirRemove log.dir f) := by
            apply List.filter_congr
            intro d hd
            have hdn : d.name ≠ f := by simpa using (List.mem_filter.mp hd).2
            rw [heq d.name hdn]
          show List.filter _ (dirRemove log.dir f) = _
          rw [hstep]
          unfold dirRemove
          rw [List.filter_filter]
          apply List.filter_congr
          intro d _
          by_cases hd : d.name = f
          · simp [hd, AppendLog.replayDeletes, hr, hs]
          · simp [hd]
        · rw [ih3, replayOps_congr log _ sink draw rest
            (fun g hg => readBatch_dirRemove log _ f g (hne g hg))]
          simp [AppendLog.replayOps, hr, hs]

theorem find_of_nodup : ∀ (l : List DirEntry) (d : DirEntry),
    (dirNames l).Nodup → d ∈ l → l.find? (fun x => x.name = d.name) = some d := by
  intro l
  induction l with
  | nil => intro d _ h; cases h
  | cons x xs ih =>
    intro d hnd hd
    simp only [dirNames, List.map_cons, List.nodup_cons] at hnd
    rcases List.mem_cons.mp hd with h | h
    · subst h
      exact List.find?_cons_of_pos _ (by simp)
    · have hne : ¬ x.name = d.name := by
        intro heq
        exact hnd.1 (by rw [heq]; exact List.mem_map_of_mem _ h)
      rw [List.find?_cons_of_neg _ (by simpa using hne)]
      exact ih d hnd.2 h

theorem pendingNames_nodup (dir : List DirEntry) (h : (dirNames dir).Nodup) :
    ((dir.filter DirEntry.isPending).map DirEntry.name).Nodup :=
  List.Nodup.sublist (List.Sublist.map _ (List.filter_sublist dir)) h

theorem getPendingBatches_nodup (log : AppendLog) (h : (dirNames log.dir).Nodup) :
    log.getPendingBatches.Nodup :=
  (sortNames_perm _).nodup_iff.mpr (pendingNames_nodup log.dir h)

theorem mem_getPendingBatches (log : AppendLog) (f : String) :
    f ∈ log.getPendingBatches ↔ ∃ d ∈ log.dir, d.isPending = true ∧ d.name = f := by
  unfold AppendLog.getPendingBatches
  rw [(sortNames_perm _).mem_iff]
  simp [List.mem_map, List.mem_filter, and_assoc]

theorem mem_getPendingBatches_of_mem (log : AppendLog) (h : (dirNames log.dir).Nodup)
    (d : DirEntry) (hd : d ∈ log.dir) :
    d.name ∈ log.getPendingBatches ↔ d.isPending = true := by
  rw [mem_getPendingBatches]
  constructor
  · rintro ⟨d2, hd2, hp, hn⟩
    have h1 := find_of_nodup log.dir d2 h hd2
    have h2 := find_of_nodup log.dir d h hd
    rw [hn] at h1
    rw [h1] at h2
    cases h2
    exact hp
  · intro hp
    exact ⟨d, hd, hp, rfl⟩

theorem replayDeletes_of_mem (log : AppendLog) (sink : SinkAPI) (draw : String → Bool)
    (h : (dirNames log.dir).Nodup) (d : DirEntry) (hd : d ∈ log.dir)
    (hp : d.isPending = true) :
    log.replayDeletes sink draw d.name = d.replayed sink draw := by
  unfold AppendLog.replayDeletes AppendLog.readBatch DirEntry.replayed
  rw [find_of_nodup log.dir d h hd]
  have hreg : d.is_regular_file = true := by
    simp only [DirEntry.isPending, Bool.and_eq_true] at hp
    exact hp.1
  simp [hreg]

theorem extension_plain (f : String) (h : extension f = ".jsonl") :
    f ≠ "" ∧ f ≠ "." ∧ f ≠ ".." := by
  refine ⟨?_, ?_, ?_⟩ <;>
  · intro hf
    rw [hf] at h
    exact absurd h (by decide)

/-- A pending batch file is a regular file that `deleteBatch` removes. -/
theorem holdsFile_pending (log : AppendLog) (h : (dirNames log.dir).Nodup) (f : String)
    (hf : f ∈ log.getPendingBatches) : log.holdsFile f := by
  obtain ⟨d, hd, hp, hn⟩ := (mem_getPendingBatches log f).mp hf
  simp only [DirEntry.isPending, Bool.and_eq_true, decide_eq_true_eq] at hp
  subst hn
  obtain ⟨h1, h2, h3⟩ := extension_plain d.name hp.2
  exact ⟨h1, h2, h3, d, find_of_nodup log.dir d h hd, hp.1⟩

/-- C5: over a directory (whose entries have distinct names)
`replayPendingBatches` attempts exactly the pending batch files, each once, in
strictly ascending name order. Its operations are, file after file in that
order: the read that throws and nothing more; or one call of the sink with
the events that the file, as it was before the replay, reads as (for a
pending file, its lines converted by `readLines`), followed by the deletion
of that file exactly when the sink accepted them. Afterwards the directory is
the one before without the pending files that were read successfully and
accepted by the sink, so a file whose read throws or whose send fails stays
and later files are still attempted; the counter is unchanged; when every
pending file reads as events and the sink always accepts, no pending file
remains. -/
theorem IngestionServer.replayPendingBatches_spec (srv : IngestionServer)
    (draw : String → Bool) (hdir : (dirNames srv.log.dir).Nodup) :
    (srv.replayPendingBatches draw).attempted = srv.log.getPendingBatches ∧
    (srv.replayPendingBatches draw).attempted.Pairwise
      (fun a b => strLe a b = true ∧ a ≠ b) ∧
    (∀ f, f ∈ (srv.replayPendingBatches draw).attempted ↔
      ∃ d ∈ srv.log.dir, d.isPending = true ∧ d.name = f) ∧
    (srv.replayPendingBatches draw).trace =
      srv.log.replayOps srv.sink draw srv.log.getPendingBatches ∧
    (∀ d ∈ srv.log.dir, d.isPending = true → srv.log.readBatch d.name = readLines d.lines) ∧
    (srv.replayPendingBatches draw).log.dir =
      srv.log.dir.filter (fun d => !(d.isPending && d.replayed srv.sink draw)) ∧
    (srv.replayPendingBatches draw).log.batch_counter = srv.log.batch_counter ∧
    ((∀ d ∈ srv.log.dir, d.isPending = true → ∃ events, readLines d.lines = .ok events) →
      (∀ f events, srv.sink.sendBatch (draw f) events = true) →
      (srv.replayPendingBatches draw).log.getPendingBatches = []) := by
  have hatt : (srv.replayPendingBatches draw).attempted = srv.log.getPendingBatches :=
    replayLoop_attempted srv.sink draw _ _
  have hnd := getPendingBatches_nodup srv.log hdir
  obtain ⟨hloop1, hloop2, hloop3⟩ := replayLoop_dir srv.sink draw _ srv.log hnd
    (holdsFile_pending srv.log hdir)
  have hd : (srv.replayPendingBatches draw).log.dir =
      srv.log.dir.filter (fun d => !(d.isPending && d.replayed srv.sink draw)) := by
    unfold IngestionServer.replayPendingBatches
    rw [hloop1]
    apply List.filter_congr
    intro d hmem
    by_cases hp : d.isPending = true
    · rw [replayDeletes_of_mem srv.log srv.sink draw hdir d hmem hp]
      simp [hp, (mem_getPendingBatches_of_mem srv.log hdir d hmem).mpr hp]
    · have : ¬ d.name ∈ srv.log.getPendingBatches := fun hc =>
        hp ((mem_getPendingBatches_of_mem srv.log hdir d hmem).mp hc)
      simp [hp, this]
  refine ⟨hatt, ?_, ?_, hloop3, ?_, hd, hloop2, ?_⟩
  · rw [hatt]
    have hs : srv.log.getPendingBatches.Pairwise (fun a b => strLe a b = true) :=
      sortNames_sorted _
    exact List.Pairwise.and hs hnd
  · intro f
    rw [hatt]
    exact mem_getPendingBatches srv.log f
  · intro d hmem hp
    have hreg : d.is_regular_file = true := by
      simp only [DirEntry.isPending, Bool.and_eq_true] at hp
      exact hp.1
    unfold AppendLog.readBatch
    rw [find_of_nodup srv.log.dir d hdir hmem]
    simp [hreg]
  · intro hread hsink
    unfold AppendLog.getPendingBatches
    rw [hd, List.filter_filter]
    have : srv.log.dir.filter
        (fun d => d.isPending && !(d.isPending && d.replayed srv.sink draw)) = [] := by
      rw [List.filter_eq_nil_iff]
      intro d hmem
      by_cases hp : d.isPending = true
      · obtain ⟨events, he⟩ := hread d hmem hp
        simp [hp, DirEntry.replayed, he, hsink]
      · simp [hp]
    rw [this]
    rfl

/-- C5, witness: the three pending batches of the crash-replay scenario, replayed
by a server whose sink succeeds: the files are attempted in name order, each
is sent with its two events and deleted, and none remains. -/
theorem IngestionServer.replayPendingBatches_spec_witness :
    (dirNames (IngestionServer.create 8081 1000 10 1000 Sample.pendingDir).log.dir).Nodup ∧
    ((IngestionServer.create 8081 1000 10 1000 Sample.pendingDir).replayPendingBatches
      (fun _ => false)).attempted =
      ["batch_20251211_120000_0.jsonl", "batch_20251211_120001_1.jsonl",
       "batch_20251211_120002_2.jsonl"] ∧
    ((IngestionServer.create 8081 1000 10 1000 Sample.pendingDir).replayPendingBatches
      (fun _ => false)).trace =
      [IngestOp.send [Sample.click "a" 1, Sample.click "b" 2] true,
       IngestOp.delete "batch_20251211_120000_0.jsonl",
       IngestOp.send [Sample.click "c" 3, Sample.click "d" 4] true,
       IngestOp.delete "batch_20251211_120001_1.jsonl",
       IngestOp.send [Sample.click "e" 5, Sample.click "f" 6] true,
       IngestOp.delete "batch_20251211_120002_2.jsonl"] ∧
    ((IngestionServer.create 8081 1000 10 1000 Sample.pendingDir).replayPendingBatches
      (fun _ => false)).log.getPendingBatches = [] :=
  ⟨by decide, by decide, by decide,
    (IngestionServer.replayPendingBatches_spec
      (IngestionServer.create 8081 1000 10 1000 Sample.pendingDir) (fun _ => false)
      (by decide)).2.2.2.2.2.2.2
      (by
        intro d hd _
        simp only [IngestionServer.create, Sample.pendingDir, List.mem_cons,
          List.mem_singleton, List.not_mem_nil, or_false] at hd
        rcases hd with rfl | rfl | rfl <;> exact ⟨_, rfl⟩)
      (fun _ _ => rfl)⟩

/-- C6, the failing input: a server built with `queue_size` 1 and nothing
draining the queue answers 202 to two valid requests and then holds two
events in its queue. -/
theorem IngestionServer.backpressure_failing_input :
    ((IngestionServer.create 8081 1 100 1000 []).handlePostEvent
      (Sample.body "a") 1000 true).status_code = 202 ∧
    (((IngestionServer.create 8081 1 100 1000 []).handlePostEvent
      (Sample.body "a") 1000 true).server.handlePostEvent
      (Sample.body "b") 1001 true).status_code = 202 ∧
    (((IngestionServer.create 8081 1 100 1000 []).handlePostEvent
      (Sample.body "a") 1000 true).server.handlePostEvent
      (Sample.body "b") 1001 true).server.event_queue.items.length = 2 := by
  decide

/-! ## Theorems: consumer loop -/

theorem sendToDLQ_serialisable (p : Text) (reason : String) (now : Int) (ok : Bool) :
    sendToDLQ p true reason now ok = .ok [ConsumerOp.dlq (dlqMessage p reason now) ok] := by
  simp [sendToDLQ]

theorem handleMessage_parse_error (msg : KafkaMessage) (env : PollEnv) (w : World) (x : Exn)
    (herr : msg.err = KafkaErr.no_error) (hs : msg.serialisable = true)
    (hp : parseEvent msg.payload = .error x) :
    (handleMessage msg env w).world = w ∧
    (handleMessage msg env w).ops =
      [ConsumerOp.dlq (dlqMessage msg.payload ("Parse error: " ++ x.what) env.now) env.produceOk,
       ConsumerOp.commit msg.offset] ∧
    (handleMessage msg env w).thrown = none := by
  simp [handleMessage, herr, hp, catchBlock, hs, sendToDLQ_serialisable]

theorem handleMessage_parsed (msg : KafkaMessage) (env : PollEnv) (w : World) (e : ProductEvent)
    (herr : msg.err = KafkaErr.no_error) (hs : msg.serialisable = true)
    (hp : parseEvent msg.payload = .ok e) :
    (handleMessage msg env w).world = (processEvent e w env.oracle).world ∧
    (handleMessage msg env w).ops =
      (processEvent e w env.oracle).trace.map ConsumerOp.store ++
        (if (processEvent e w env.oracle).success then []
         else [ConsumerOp.dlq (dlqMessage msg.payload "Processing failed after retries" env.now)
                env.produceOk]) ++ [ConsumerOp.commit msg.offset] ∧
    (handleMessage msg env w).thrown = none := by
  simp only [handleMessage, herr, hp, hs, sendToDLQ_serialisable]
  cases (processEvent e w env.oracle).success <;> simp

theorem all_store_not_commit (tr : List Op) :
    (tr.map ConsumerOp.store).all (fun op => !op.isCommit) = true := by
  simp [ConsumerOp.isCommit]

theorem all_store_isStore (tr : List Op) :
    (tr.map ConsumerOp.store).all ConsumerOp.isStore = true := by
  simp [ConsumerOp.isStore]

/-- C11, failing input: the record whose payload is the single byte `0xFF` is
polled without error and does not parse; the DLQ message built for it in the
`catch` block cannot be serialised, `dump()` throws there, and the exception
leaves `run`: nothing is published to the DLQ, no offset is committed, and the
record that follows is not handled. -/
theorem ProductEventConsumer.run_invalid_utf8_failing_input :
    Sample.poison.err = KafkaErr.no_error ∧
    parseEvent Sample.poison.payload = .error Exn.parse_error ∧
    (handleMessage Sample.poison Sample.quiet Sample.blank).ops = [] ∧
    (handleMessage Sample.poison Sample.quiet Sample.blank).thrown = some (Exn.type_error 316) ∧
    (run [(Sample.poison, Sample.quiet),
          (Sample.record (Sample.wire (Sample.event "create" 1 "2025-12-02T00:00:00Z")),
            Sample.quiet)] Sample.blank).ops = [] := by
  decide

/-- C12, amended: for every record polled without error whose DLQ message can be
serialised, the loop body throws nothing and issues exactly one commit, of that
record's offset, as its last operation; what precedes it is either the store
operations of a `processEvent` that returned success, or store operations
followed by the publication of the record to the DLQ, the latter exactly when
parsing threw or `processEvent` returned failure. -/
theorem ProductEventConsumer.handleMessage_commit (msg : KafkaMessage) (env : PollEnv)
    (w : World) (herr : msg.err = KafkaErr.no_error) (hs : msg.serialisable = true) :
    (handleMessage msg env w).thrown = none ∧
    ∃ before, (handleMessage msg env w).ops = before ++ [ConsumerOp.commit msg.offset] ∧
      before.all (fun op => !op.isCommit) = true ∧
      ((∃ event, parseEvent msg.payload = .ok event ∧
          (processEvent event w env.oracle).success = true ∧
          before = (processEvent event w env.oracle).trace.map ConsumerOp.store) ∨
       (∃ stored m, before = stored ++ [ConsumerOp.dlq m env.produceOk] ∧
          stored.all ConsumerOp.isStore = true ∧
          ((∃ x, parseEvent msg.payload = .error x) ∨
           ∃ event, parseEvent msg.payload = .ok event ∧
             (processEvent event w env.oracle).success = false))) := by
  cases hp : parseEvent msg.payload with
  | error x =>
    obtain ⟨_, hops, hth⟩ := handleMessage_parse_error msg env w x herr hs hp
    refine ⟨hth, _, hops, by simp [ConsumerOp.isCommit], Or.inr ⟨[], _, rfl, rfl, Or.inl ⟨x, rfl⟩⟩⟩
  | ok e =>
    obtain ⟨_, hops, hth⟩ := handleMessage_parsed msg env w e herr hs hp
    refine ⟨hth, ?_⟩
    cases hsucc : (processEvent e w env.oracle).success
    · rw [hsucc] at hops
      refine ⟨_, hops, ?_, Or.inr ⟨_, _, rfl, all_store_isStore _, Or.inr ⟨e, rfl, hsucc⟩⟩⟩
      simp [ConsumerOp.isCommit]
    · rw [hsucc] at hops
      refine ⟨_, hops, ?_, Or.inl ⟨e, rfl, hsucc, by simp⟩⟩
      simp [ConsumerOp.isCommit]

/-- C12, counterexample: an update whose three PUTs fail makes `processEvent`
return failure, and the offset of its record is committed all the same. -/
theorem ProductEventConsumer.handleMessage_commit_counterexample :
    parseEvent (Sample.wire (Sample.event "update" 2 "2025-12-02T00:00:00Z")) =
      .ok (Sample.event "update" 2 "2025-12-02T00:00:00Z") ∧
    (processEvent (Sample.event "update" 2 "2025-12-02T00:00:00Z") Sample.blank
      Sample.putsFail).success = false ∧
    ConsumerOp.commit 7 ∈
      (handleMessage (Sample.record (Sample.wire (Sample.event "update" 2 "2025-12-02T00:00:00Z")))
        ⟨Sample.putsFail, 1765411200, true⟩ Sample.blank).ops := by
  decide

/-- C12, witness: a record that is not JSON. -/
theorem ProductEventConsumer.handleMessage_commit_witness :
    (handleMessage (Sample.record (Text.raw "not json")) Sample.quiet Sample.blank).thrown = none ∧
    ∃ before, (handleMessage (Sample.record (Text.raw "not json")) Sample.quiet Sample.blank).ops
        = before ++ [ConsumerOp.commit (Sample.record (Text.raw "not json")).offset] ∧
      before.all (fun op => !op.isCommit) = true ∧
      ((∃ event, parseEvent (Sample.record (Text.raw "not json")).payload = .ok event ∧
          (processEvent event Sample.blank Sample.quiet.oracle).success = true ∧
          before = (processEvent event Sample.blank Sample.quiet.oracle).trace.map
            ConsumerOp.store) ∨
       (∃ stored m, before = stored ++ [ConsumerOp.dlq m Sample.quiet.produceOk] ∧
          stored.all ConsumerOp.isStore = true ∧
          ((∃ x, parseEvent (Sample.record (Text.raw "not json")).payload = .error x) ∨
           ∃ event, parseEvent (Sample.record (Text.raw "not json")).payload = .ok event ∧
             (processEvent event Sample.blank Sample.quiet.oracle).success = false))) :=
  ProductEventConsumer.handleMessage_commit (Sample.record (Text.raw "not json")) Sample.quiet
    Sample.blank (by decide) (by decide)

theorem run_cons_continue (msg : KafkaMessage) (env : PollEnv) (rest : List (KafkaMessage × PollEnv))
    (w : World) (h : (handleMessage msg env w).thrown = none) :
    (run ((msg, env) :: rest) w).world = (run rest (handleMessage msg env w).world).world ∧
    (run ((msg, env) :: rest) w).ops =
      (handleMessage msg env w).ops ++ (run rest (handleMessage msg env w).world).ops ∧
    (run ((msg, env) :: rest) w).thrown = (run rest (handleMessage msg env w).world).thrown := by
  simp [run, h]

/-- C13, amended: for every record polled without error whose body is not valid
JSON and whose DLQ message can be serialised, the message published to the
DLQ is the JSON object with exactly the fields `error_reason`,
`original_event` and `timestamp`, in which `original_event` is the payload
unchanged, `error_reason` starts with `Parse error: ` and `timestamp` is the
clock reading; the stores are not touched, the offset is committed right after
the publication, and the loop goes on with the records that follow. -/
theorem ProductEventConsumer.handleMessage_poison (msg : KafkaMessage) (env : PollEnv)
    (w : World) (rest : List (KafkaMessage × PollEnv)) (s : String)
    (herr : msg.err = KafkaErr.no_error) (hp : msg.payload = Text.raw s)
    (hu : msg.utf8 = true) :
    ∃ reason, startsWith reason.data "Parse error: ".data = true ∧
      (handleMessage msg env w).world = w ∧
      (handleMessage msg env w).ops =
        [ConsumerOp.dlq (Json.obj [("error_reason", Json.str reason),
            ("original_event", Json.str s), ("timestamp", Json.num env.now)]) env.produceOk,
         ConsumerOp.commit msg.offset] ∧
      (handleMessage msg env w).thrown = none ∧
      (run ((msg, env) :: rest) w).world = (run rest w).world ∧
      (run ((msg, env) :: rest) w).ops = (handleMessage msg env w).ops ++ (run rest w).ops ∧
      (run ((msg, env) :: rest) w).thrown = (run rest w).thrown := by
  have hs : msg.serialisable = true := by simp [KafkaMessage.serialisable, hp, hu]
  have hparse : parseEvent msg.payload = .error Exn.parse_error := by
    simp [parseEvent, hp, Text.parse]
  obtain ⟨hw, hops, hth⟩ := handleMessage_parse_error msg env w _ herr hs hparse
  obtain ⟨r1, r2, r3⟩ := run_cons_continue msg env rest w hth
  rw [hw] at r1 r2 r3
  refine ⟨"Parse error: " ++ Exn.parse_error.what, by decide, hw, ?_, hth, r1, r2, r3⟩
  rw [hops]
  simp [dlqMessage, hp, Text.chars]

/-- C13, counterexample: for the record with the body `not json` the
`error_reason` of the DLQ message starts with `Parse error: `, with a capital
letter, and so does not start with `parse`. -/
theorem ProductEventConsumer.handleMessage_poison_counterexample :
    (handleMessage (Sample.record (Text.raw "not json")) Sample.quiet Sample.blank).ops =
      [ConsumerOp.dlq (Json.obj [
          ("error_reason", Json.str ("Parse error: " ++ Exn.parse_error.what)),
          ("original_event", Json.str "not json"),
          ("timestamp", Json.num 1765411200)]) true,
       ConsumerOp.commit 7] ∧
    startsWith ("Parse error: " ++ Exn.parse_error.what).data "parse".data = false := by
  decide

/-- C13, witness: the record with the body `not json`, followed by a valid event. -/
theorem ProductEventConsumer.handleMessage_poison_witness :
    ∃ reason, startsWith reason.data "Parse error: ".data = true ∧
      (handleMessage (Sample.record (Text.raw "not json")) Sample.quiet Sample.blank).world
        = Sample.blank ∧
      (handleMessage (Sample.record (Text.raw "not json")) Sample.quiet Sample.blank).ops =
        [ConsumerOp.dlq (Json.obj [("error_reason", Json.str reason),
            ("original_event", Json.str "not json"),
            ("timestamp", Json.num Sample.quiet.now)]) Sample.quiet.produceOk,
         ConsumerOp.commit (Sample.record (Text.raw "not json")).offset] ∧
      (handleMessage (Sample.record (Text.raw "not json")) Sample.quiet Sample.blank).thrown
        = none ∧
      (run ((Sample.record (Text.raw "not json"), Sample.quiet) ::
          [(Sample.record (Sample.wire (Sample.event "create" 1 "2025-12-02T00:00:00Z")),
            Sample.quiet)]) Sample.blank).world =
        (run [(Sample.record (Sample.wire (Sample.event "create" 1 "2025-12-02T00:00:00Z")),
            Sample.quiet)] Sample.blank).world ∧
      (run ((Sample.record (Text.raw "not json"), Sample.quiet) ::
          [(Sample.record (Sample.wire (Sample.event "create" 1 "2025-12-02T00:00:00Z")),
            Sample.quiet)]) Sample.blank).ops =
        (handleMessage (Sample.record (Text.raw "not json")) Sample.quiet Sample.blank).ops ++
        (run [(Sample.record (Sample.wire (Sample.event "create" 1 "2025-12-02T00:00:00Z")),
            Sample.quiet)] Sample.blank).ops ∧
      (run ((Sample.record (Text.raw "not json"), Sample.quiet) ::
          [(Sample.record (Sample.wire (Sample.event "create" 1 "2025-12-02T00:00:00Z")),
            Sample.quiet)]) Sample.blank).thrown =
        (run [(Sample.record (Sample.wire (Sample.event "create" 1 "2025-12-02T00:00:00Z")),
            Sample.quiet)] Sample.blank).thrown :=
  ProductEventConsumer.handleMessage_poison (Sample.record (Text.raw "not json")) Sample.quiet
    Sample.blank [(Sample.record (Sample.wire (Sample.event "create" 1 "2025-12-02T00:00:00Z")),
      Sample.quiet)] "not json" (by decide) rfl (by decide)

/-- C16: whenever the idempotency check rejects an event, `processEvent` returns
success, the only operation it issued is the GET of the existing document (no
upsert, no delete, no cache set or del), the index and the cache are
unchanged, and the loop body that parsed the event from a record commits the
offset of that record without publishing to the DLQ. -/
theorem ProductEventConsumer.processEvent_skip (e : ProductEvent) (w : World) (o : Oracle)
    (h : shouldProcess e (ElasticsearchWriter.getDocument w.docs o.get "products" e.product_id)
      = .ok false) :
    (processEvent e w o).success = true ∧
    (processEvent e w o).trace = [Op.esGet "products" e.product_id] ∧
    (processEvent e w o).world = w ∧
    ∀ (msg : KafkaMessage) (env : PollEnv), msg.err = KafkaErr.no_error →
      parseEvent msg.payload = .ok e → env.oracle = o →
      (handleMessage msg env w).world = w ∧
      (handleMessage msg env w).ops =
        [ConsumerOp.store (Op.esGet "products" e.product_id), ConsumerOp.commit msg.offset] ∧
      (handleMessage msg env w).thrown = none := by
  have h1 : (processEvent e w o).success = true := by simp [processEvent, h]
  have h2 : (processEvent e w o).trace = [Op.esGet "products" e.product_id] := by
    simp [processEvent, h]
  have h3 : (processEvent e w o).world = w := by simp [processEvent, h]
  refine ⟨h1, h2, h3, ?_⟩
  intro msg env herr hp ho
  subst ho
  simp [handleMessage, herr, hp, h1, h2, h3]

/-- C16, witness: version 5 against the stored version 10. -/
theorem ProductEventConsumer.processEvent_skip_witness :
    (processEvent (Sample.event "update" 5 "2025-12-03T00:00:00Z") (Sample.stocked 10)
      Sample.calm).success = true ∧
    (processEvent (Sample.event "update" 5 "2025-12-03T00:00:00Z") (Sample.stocked 10)
      Sample.calm).trace = [Op.esGet "products" "P1"] ∧
    (processEvent (Sample.event "update" 5 "2025-12-03T00:00:00Z") (Sample.stocked 10)
      Sample.calm).world = Sample.stocked 10 ∧
    ∀ (msg : KafkaMessage) (env : PollEnv), msg.err = KafkaErr.no_error →
      parseEvent msg.payload = .ok (Sample.event "update" 5 "2025-12-03T00:00:00Z") →
      env.oracle = Sample.calm →
      (handleMessage msg env (Sample.stocked 10)).world = Sample.stocked 10 ∧
      (handleMessage msg env (Sample.stocked 10)).ops =
        [ConsumerOp.store (Op.esGet "products" "P1"), ConsumerOp.commit msg.offset] ∧
      (handleMessage msg env (Sample.stocked 10)).thrown = none :=
  ProductEventConsumer.processEvent_skip (Sample.event "update" 5 "2025-12-03T00:00:00Z")
    (Sample.stocked 10) Sample.calm (by decide)

theorem Json.readStr_absent (j : Json) (key : String) (h : j.getKey? key = none) :
    ∃ x, j.readStr key = .error x := by
  cases j <;> simp_all [Json.readStr, Json.index, Json.getKey?, Json.toStr]

theorem Json.readInt_absent (j : Json) (key : String) (h : j.getKey? key = none) :
    ∃ x, j.readInt key = .error x := by
  cases j <;> simp_all [Json.readInt, Json.index, Json.getKey?, Json.toInt]

theorem parseEvent_absent (j : Json) (key : String)
    (hkey : key ∈ ["product_id", "event_id", "event_type", "version", "updated_at"])
    (h : j.getKey? key = none) : ∃ x, parseEvent (Text.json j) = .error x := by
  simp only [parseEvent, Text.parse]
  simp only [List.mem_cons, List.mem_singleton, List.mem_nil_iff, or_false] at hkey
  cases h1 : j.readStr "product_id" with
  | error x => exact ⟨x, rfl⟩
  | ok v1 =>
    cases h2 : j.readStr "event_id" with
    | error x => exact ⟨x, rfl⟩
    | ok v2 =>
      cases h3 : j.readStr "event_type" with
      | error x => exact ⟨x, rfl⟩
      | ok v3 =>
        cases h4 : j.readInt "version" with
        | error x => exact ⟨x, rfl⟩
        | ok v4 =>
          cases h5 : j.readStr "updated_at" with
          | error x => exact ⟨x, rfl⟩
          | ok v5 =>
            exfalso
            rcases hkey with hk | hk | hk | hk | hk <;> subst hk
            · obtain ⟨x, hx⟩ := Json.readStr_absent j _ h; simp [hx] at h1
            · obtain ⟨x, hx⟩ := Json.readStr_absent j _ h; simp [hx] at h2
            · obtain ⟨x, hx⟩ := Json.readStr_absent j _ h; simp [hx] at h3
            · obtain ⟨x, hx⟩ := Json.readInt_absent j _ h; simp [hx] at h4
            · obtain ⟨x, hx⟩ := Json.readStr_absent j _ h; simp [hx] at h5

/-- C18, amended: every record polled without error that is not valid JSON (its
DLQ message being serialisable), or that is JSON without one of the members
`product_id`, `event_id`, `event_type`, `version`, `updated_at`, is rejected
by `parseEvent` and published to the DLQ with the reason `Parse error: ...`,
its offset is committed, and no index or cache operation is issued for it: the
stores are unchanged. A record that lacks only `data` is not rejected:
`parseEvent` returns the event with `data` read as `null`. -/
theorem ProductEventConsumer.handleMessage_malformed (msg : KafkaMessage) (env : PollEnv)
    (w : World) (herr : msg.err = KafkaErr.no_error) (hs : msg.serialisable = true)
    (hbad : (∃ s, msg.payload = Text.raw s) ∨
      ∃ j key, msg.payload = Text.json j ∧
        key ∈ ["product_id", "event_id", "event_type", "version", "updated_at"] ∧
        j.getKey? key = none) :
    (∃ x, parseEvent msg.payload = .error x ∧
      (handleMessage msg env w).ops =
        [ConsumerOp.dlq (dlqMessage msg.payload ("Parse error: " ++ x.what) env.now)
            env.produceOk,
         ConsumerOp.commit msg.offset]) ∧
    (handleMessage msg env w).ops.any ConsumerOp.isStore = false ∧
    (handleMessage msg env w).world = w ∧
    (handleMessage msg env w).thrown = none ∧
    ∀ (kvs : List (String × Json)) (product_id event_id event_type updated_at : String)
      (version : Int),
      Json.lookup kvs "product_id" = some (Json.str product_id) →
      Json.lookup kvs "event_id" = some (Json.str event_id) →
      Json.lookup kvs "event_type" = some (Json.str event_type) →
      Json.lookup kvs "version" = some (Json.num version) →
      Json.lookup kvs "updated_at" = some (Json.str updated_at) →
      Json.lookup kvs "data" = none →
      parseEvent (Text.json (Json.obj kvs)) =
        .ok ⟨product_id, event_id, event_type, wrapInt32 version, updated_at, Json.null⟩ := by
  have hx : ∃ x, parseEvent msg.payload = .error x := by
    rcases hbad with ⟨s, hp⟩ | ⟨j, key, hp, hkey, hnone⟩
    · exact ⟨Exn.parse_error, by simp [parseEvent, hp, Text.parse]⟩
    · rw [hp]; exact parseEvent_absent j key hkey hnone
  obtain ⟨x, hx⟩ := hx
  obtain ⟨hw, hops, hth⟩ := handleMessage_parse_error msg env w x herr hs hx
  refine ⟨⟨x, hx, hops⟩, ?_, hw, hth, ?_⟩
  · rw [hops]; simp [ConsumerOp.isStore]
  · intro kvs product_id event_id event_type updated_at version h1 h2 h3 h4 h5 h6
    simp [parseEvent, Text.parse, Json.readStr, Json.readInt, Json.index, h1, h2, h3, h4, h5, h6,
      Json.toStr, Json.toInt]

/-- C18, counterexample: the record that lacks only the member `data` is
accepted by `parseEvent`; it is not published to the DLQ, and a GET and a PUT
are issued on the index for it, which then holds a document for `P1`. -/
theorem ProductEventConsumer.handleMessage_malformed_counterexample :
    Sample.wireNoData.parse.map (fun j => j.contains "data") = .ok false ∧
    parseEvent Sample.wireNoData =
      .ok ⟨"P1", "evt-create", "create", 1, "2025-12-02T00:00:00Z", Json.null⟩ ∧
    (handleMessage (Sample.record Sample.wireNoData) Sample.quiet Sample.blank).ops.any
      ConsumerOp.isDlq = false ∧
    (handleMessage (Sample.record Sample.wireNoData) Sample.quiet Sample.blank).ops.any
      ConsumerOp.isStore = true ∧
    ((handleMessage (Sample.record Sample.wireNoData) Sample.quiet Sample.blank).world.docs
      "products" "P1").isSome = true := by
  decide

/-- C18, witness: a record without `version`. -/
theorem ProductEventConsumer.handleMessage_malformed_witness :
    (∃ x, parseEvent (Sample.record (Text.json (Json.obj
          [("product_id", Json.str "P1"), ("event_id", Json.str "e1")]))).payload = .error x ∧
      (handleMessage (Sample.record (Text.json (Json.obj
          [("product_id", Json.str "P1"), ("event_id", Json.str "e1")])))
          Sample.quiet Sample.blank).ops =
        [ConsumerOp.dlq (dlqMessage (Sample.record (Text.json (Json.obj
            [("product_id", Json.str "P1"), ("event_id", Json.str "e1")]))).payload
            ("Parse error: " ++ x.what) Sample.quiet.now) Sample.quiet.produceOk,
         ConsumerOp.commit (Sample.record (Text.json (Json.obj
            [("product_id", Json.str "P1"), ("event_id", Json.str "e1")]))).offset]) ∧
    (handleMessage (Sample.record (Text.json (Json.obj
        [("product_id", Json.str "P1"), ("event_id", Json.str "e1")])))
        Sample.quiet Sample.blank).ops.any ConsumerOp.isStore = false ∧
    (handleMessage (Sample.record (Text.json (Json.obj
        [("product_id", Json.str "P1"), ("event_id", Json.str "e1")])))
        Sample.quiet Sample.blank).world = Sample.blank ∧
    (handleMessage (Sample.record (Text.json (Json.obj
        [("product_id", Json.str "P1"), ("event_id", Json.str "e1")])))
        Sample.quiet Sample.blank).thrown = none ∧
    ∀ (kvs : List (String × Json)) (product_id event_id event_type updated_at : String)
      (version : Int),
      Json.lookup kvs "product_id" = some (Json.str product_id) →
      Json.lookup kvs "event_id" = some (Json.str event_id) →
      Json.lookup kvs "event_type" = some (Json.str event_type) →
      Json.lookup kvs "version" = some (Json.num version) →
      Json.lookup kvs "updated_at" = some (Json.str updated_at) →
      Json.lookup kvs "data" = none →
      parseEvent (Text.json (Json.obj kvs)) =
        .ok ⟨product_id, event_id, event_type, wrapInt32 version, updated_at, Json.null⟩ :=
  ProductEventConsumer.handleMessage_malformed (Sample.record (Text.json (Json.obj
      [("product_id", Json.str "P1"), ("event_id", Json.str "e1")]))) Sample.quiet Sample.blank
    (by decide) (by decide)
    (Or.inr ⟨_, "version", rfl, by decide, by decide⟩)

/-! ## Theorems: idempotency and monotonicity -/

theorem deleteDocument_noFault_present (d : Docs) (index id : String) (src : Json)
    (h : d index id = some src) :
    ElasticsearchWriter.deleteDocument d Fault.none index id =
      (true, d.erase index id, [Op.esDelete index id true]) := by
  simp [ElasticsearchWriter.deleteDocument, serve, esDelete, h,
    ElasticsearchWriter.performRequest, Json.dump]

theorem deleteDocument_noFault_absent (d : Docs) (index id : String)
    (h : d index id = none) :
    ElasticsearchWriter.deleteDocument d Fault.none index id =
      (false, d, [Op.esDelete index id false]) := by
  simp [ElasticsearchWriter.deleteDocument, serve, esDelete, h,
    ElasticsearchWriter.performRequest, Json.dump]

/-- The stores after a delete event that passes the check, in a fault-free
environment, when the document is present. -/
theorem processEvent_delete_present (e : ProductEvent) (w : World) (o : Oracle) (src : Json)
    (ho : o.AllSucceed) (hdel : e.event_type = "delete")
    (hsrc : w.docs "products" e.product_id = some src)
    (h : shouldProcess e (fetched (w.docs "products" e.product_id) "products" e.product_id)
      = .ok true) :
    (processEvent e w o).world =
      ⟨w.docs.erase "products" e.product_id,
       fun k => if k = "product:" ++ e.product_id then none else w.cache k⟩ := by
  obtain ⟨⟨hg, _, hd⟩, _, hrd⟩ := ho
  unfold processEvent
  simp only [hg, getDocument_noFault, h, hdel, if_true, hd,
    deleteDocument_noFault_present _ _ _ _ hsrc, RedisClient.del, hrd]
  simp

theorem processEvent_delete_absent (e : ProductEvent) (w : World) (o : Oracle)
    (ho : o.AllSucceed) (hdel : e.event_type = "delete")
    (hsrc : w.docs "products" e.product_id = none) :
    (processEvent e w o).world = w := by
  obtain ⟨⟨hg, _, hd⟩, _, hrd⟩ := ho
  unfold processEvent
  simp only [hg, getDocument_noFault, hsrc, fetched, shouldProcess_empty, hdel, if_true, hd,
    deleteDocument_noFault_absent _ _ _ hsrc]
  simp

theorem processEvent_upsert_ok (e : ProductEvent) (w : World) (o : Oracle) (doc : Json)
    (ho : o.AllSucceed) (hdel : e.event_type ≠ "delete") (hdoc : mkDocument e = .ok doc)
    (h : shouldProcess e (fetched (w.docs "products" e.product_id) "products" e.product_id)
      = .ok true) :
    (processEvent e w o).world =
      ⟨w.docs.put "products" e.product_id doc,
       fun k => if k = "product:" ++ e.product_id then some e.data.dump else w.cache k⟩ := by
  obtain ⟨⟨hg, hp, _⟩, hrs, _⟩ := ho
  unfold processEvent
  simp only [hg, getDocument_noFault, h, hdel, if_false, hdoc,
    upsertDocument_first_ok _ _ _ _ _ hp, RedisClient.set, hrs]
  simp

theorem processEvent_upsert_error (e : ProductEvent) (w : World) (o : Oracle) (x : Exn)
    (hdel : e.event_type ≠ "delete") (hdoc : mkDocument e = .error x) :
    (processEvent e w o).world = w := by
  unfold processEvent
  simp only [hdel, if_false, hdoc]
  split <;> rfl

/-- C14: for every event (its version a C++ `int`) and every state of the index
and the cache, when all store operations succeed, processing the event a second
time right after the first leaves the stores, so in particular the index
document and the cache entry of its product, exactly as the first processing
left them. -/
theorem ProductEventConsumer.processEvent_idempotent (e : ProductEvent) (w : World)
    (o1 o2 : Oracle) (hv : inInt32 e.version) (h1 : o1.AllSucceed) (h2 : o2.AllSucceed) :
    (processEvent e (processEvent e w o1).world o2).world = (processEvent e w o1).world ∧
    (processEvent e (processEvent e w o1).world o2).world.docs "products" e.product_id =
      (processEvent e w o1).world.docs "products" e.product_id ∧
    (processEvent e (processEvent e w o1).world o2).world.cache ("product:" ++ e.product_id) =
      (processEvent e w o1).world.cache ("product:" ++ e.product_id) := by
  have key : (processEvent e (processEvent e w o1).world o2).world
      = (processEvent e w o1).world := by
    have hg1 : o1.get = Fault.none := h1.1.1
    have hg2 : o2.get = Fault.none := h2.1.1
    by_cases hsp : shouldProcess e
        (fetched (w.docs "products" e.product_id) "products" e.product_id) = .ok true
    · by_cases hdel : e.event_type = "delete"
      · cases hsrc : w.docs "products" e.product_id with
        | none =>
          rw [processEvent_delete_absent e w o1 h1 hdel hsrc]
          exact processEvent_delete_absent e w o2 h2 hdel hsrc
        | some src =>
          rw [processEvent_delete_present e w o1 src h1 hdel hsrc hsp]
          apply processEvent_delete_absent _ _ _ h2 hdel
          simp [Docs.erase]
      · cases hdoc : mkDocument e with
        | error x =>
          rw [processEvent_upsert_error e w o1 x hdel hdoc]
          exact processEvent_upsert_error e w o2 x hdel hdoc
        | ok doc =>
          rw [processEvent_upsert_ok e w o1 doc h1 hdel hdoc hsp]
          apply processEvent_not_applied
          simp only [hg2, getDocument_noFault, Docs.put, and_self, if_true, fetched,
            shouldProcess_envelope, shouldProcess_written e e doc hdoc hv]
          simp
    · have hw : (processEvent e w o1).world = w := by
        apply processEvent_not_applied
        rw [hg1, getDocument_noFault]; exact hsp
      rw [hw]
      apply processEvent_not_applied
      rw [hg2, getDocument_noFault]; exact hsp
  exact ⟨key, by rw [key], by rw [key]⟩

/-- C14, witness: an update applied to the stores that hold version 0. -/
theorem ProductEventConsumer.processEvent_idempotent_witness :
    (processEvent (Sample.event "update" 2 "2025-12-03T00:00:00Z")
        (processEvent (Sample.event "update" 2 "2025-12-03T00:00:00Z") (Sample.stocked 0)
          Sample.calm).world Sample.calm).world =
      (processEvent (Sample.event "update" 2 "2025-12-03T00:00:00Z") (Sample.stocked 0)
        Sample.calm).world ∧
    (processEvent (Sample.event "update" 2 "2025-12-03T00:00:00Z")
        (processEvent (Sample.event "update" 2 "2025-12-03T00:00:00Z") (Sample.stocked 0)
          Sample.calm).world Sample.calm).world.docs "products"
        (Sample.event "update" 2 "2025-12-03T00:00:00Z").product_id =
      (processEvent (Sample.event "update" 2 "2025-12-03T00:00:00Z") (Sample.stocked 0)
        Sample.calm).world.docs "products"
        (Sample.event "update" 2 "2025-12-03T00:00:00Z").product_id ∧
    (processEvent (Sample.event "update" 2 "2025-12-03T00:00:00Z")
        (processEvent (Sample.event "update" 2 "2025-12-03T00:00:00Z") (Sample.stocked 0)
          Sample.calm).world Sample.calm).world.cache
        ("product:" ++ (Sample.event "update" 2 "2025-12-03T00:00:00Z").product_id) =
      (processEvent (Sample.event "update" 2 "2025-12-03T00:00:00Z") (Sample.stocked 0)
        Sample.calm).world.cache
        ("product:" ++ (Sample.event "update" 2 "2025-12-03T00:00:00Z").product_id) :=
  ProductEventConsumer.processEvent_idempotent (Sample.event "update" 2 "2025-12-03T00:00:00Z")
    (Sample.stocked 0) Sample.calm Sample.calm (by decide) (by decide) (by decide)

/-- C17: for every event that passes the idempotency check, `processEvent`
returns true exactly when the index mutation succeeded (the delete for a delete
event, otherwise the upsert of the document built from the event), and the
value returned and the documents left in the index are the same whatever the
cache `set` and `del` calls return. -/
theorem ProductEventConsumer.processEvent_success_index (e : ProductEvent) (w : World)
    (o : Oracle)
    (h : shouldProcess e (ElasticsearchWriter.getDocument w.docs o.get "products" e.product_id)
      = .ok true) :
    ((processEvent e w o).success = true ↔
      if e.event_type = "delete" then
        (ElasticsearchWriter.deleteDocument w.docs o.delete "products" e.product_id).1 = true
      else ∃ doc, mkDocument e = .ok doc ∧
        (ElasticsearchWriter.upsertDocument w.docs o.put "products" e.product_id doc 3).1
          = true) ∧
    ∀ redisSet redisDel : Bool,
      (processEvent e w ⟨o.get, o.put, o.delete, redisSet, redisDel⟩).success =
        (processEvent e w o).success ∧
      (processEvent e w ⟨o.get, o.put, o.delete, redisSet, redisDel⟩).world.docs =
        (processEvent e w o).world.docs := by
  unfold processEvent
  simp only [h]
  by_cases hdel : e.event_type = "delete"
  · simp only [hdel, if_true]
    generalize ElasticsearchWriter.deleteDocument w.docs o.delete "products" e.product_id = r
    obtain ⟨ok, docs, t3⟩ := r
    cases ok <;> simp
  · simp only [hdel, if_false]
    cases hm : mkDocument e with
    | error x => simp
    | ok doc =>
      have hex : (∃ d, Except.ok (ε := Exn) doc = Except.ok d ∧
          (ElasticsearchWriter.upsertDocument w.docs o.put "products" e.product_id d 3).1 = true)
          ↔ (ElasticsearchWriter.upsertDocument w.docs o.put "products" e.product_id doc 3).1
            = true := by
        constructor
        · rintro ⟨d, hd, hp⟩; cases hd; exact hp
        · intro hp; exact ⟨doc, rfl, hp⟩
      simp only [hex]
      generalize ElasticsearchWriter.upsertDocument w.docs o.put "products" e.product_id doc 3 = r
      obtain ⟨ok, docs, t3⟩ := r
      cases ok
      · simp
      · simp only [Bool.not_true]
        refine ⟨?_, ?_⟩
        · cases o.redisSet <;> simp [RedisClient.set]
        · intro a b
          cases o.redisSet <;> cases a <;> simp [RedisClient.set]

/-- C17, witness: an update whose cache `set` and `del` both fail returns what it
returns when they succeed, and leaves the same documents. -/
theorem ProductEventConsumer.processEvent_success_index_witness :
    (processEvent (Sample.event "update" 2 "2025-12-03T00:00:00Z") (Sample.stocked 0)
        ⟨Sample.calm.get, Sample.calm.put, Sample.calm.delete, false, false⟩).success =
      (processEvent (Sample.event "update" 2 "2025-12-03T00:00:00Z") (Sample.stocked 0)
        Sample.calm).success ∧
    (processEvent (Sample.event "update" 2 "2025-12-03T00:00:00Z") (Sample.stocked 0)
        ⟨Sample.calm.get, Sample.calm.put, Sample.calm.delete, false, false⟩).world.docs =
      (processEvent (Sample.event "update" 2 "2025-12-03T00:00:00Z") (Sample.stocked 0)
        Sample.calm).world.docs :=
  (ProductEventConsumer.processEvent_success_index
      (Sample.event "update" 2 "2025-12-03T00:00:00Z") (Sample.stocked 0) Sample.calm
      (by decide)).2 false false

theorem strLe_refl (a : String) : strLe a a = true := by
  cases h : strLe a a
  · have := strLe_total h; rw [h] at this; cases this
  · rfl

/-- A create or update event leaves the documents as they are or stores its
own document. -/
theorem processEvent_docs_upsert (e : ProductEvent) (w : World) (o : Oracle)
    (hdel : e.event_type ≠ "delete") :
    (processEvent e w o).world.docs = w.docs ∨
    ∃ doc, mkDocument e = .ok doc ∧
      shouldProcess e (ElasticsearchWriter.getDocument w.docs o.get "products" e.product_id)
        = .ok true ∧
      (processEvent e w o).world.docs = w.docs.put "products" e.product_id doc := by
  unfold processEvent
  simp only []
  split
  · left; rfl
  · left; rfl
  · rename_i hsp
    simp only [hdel, if_false]
    cases hm : mkDocument e with
    | error x => left; rfl
    | ok doc =>
      simp only []
      rcases upsertDocument_docs w.docs o.put "products" e.product_id doc 3 with h | h
      · left
        split <;> [simp [h]; (split <;> simp [h])]
      · right
        refine ⟨doc, rfl, hsp, ?_⟩
        split <;> [simp [h]; (split <;> simp [h])]

theorem shouldProcess_true_version (e : ProductEvent) (d : Json) (v : Int)
    (h : shouldProcess e (Json.obj [("_source", d)]) = .ok true)
    (hv : d.intField "version" = some (.ok v)) : v < e.version := by
  unfold Json.intField at hv
  by_cases hc : d.contains "version" = true
  · simp only [hc, if_true, Option.some.injEq] at hv
    have hsrc : (Json.obj [("_source", d)]).getKey "_source" = d := by
      simp [Json.getKey, Json.getKey?, Json.lookup]
    simp only [shouldProcess, hsrc, hc, hv] at h
    simp [Json.empty, Json.contains, Json.lookup] at h
    by_cases hle : e.version ≤ v
    · simp [hle] at h
    · omega
  · simp [hc] at hv

theorem shouldProcess_true_updated (e : ProductEvent) (d : Json) (u : String)
    (h : shouldProcess e (Json.obj [("_source", d)]) = .ok true)
    (hu : d.strField "updated_at" = some (.ok u)) : strLe e.updated_at u = false := by
  unfold Json.strField at hu
  by_cases hc : d.contains "updated_at" = true
  · simp only [hc, if_true, Option.some.injEq] at hu
    have hsrc : (Json.obj [("_source", d)]).getKey "_source" = d := by
      simp [Json.getKey, Json.getKey?, Json.lookup]
    simp only [shouldProcess, hsrc, hc, hu] at h
    simp [Json.empty, Json.contains, Json.lookup] at h
    cases hs : strLe e.updated_at u
    · rfl
    · exfalso
      simp only [hs, if_true] at h
      split at h <;> simp at h
  · simp [hc] at hu

theorem mkDocument_stamp {e : ProductEvent} {doc : Json} (h : mkDocument e = .ok doc)
    (hr : inInt32 e.version) :
    doc.intField "version" = some (.ok e.version) ∧
    doc.strField "updated_at" = some (.ok e.updated_at) := by
  obtain ⟨hv, ht⟩ := mkDocument_fields h
  have hcv : doc.contains "version" = true := by
    cases doc <;> simp_all [Json.contains, Json.getKey?]
  have hct : doc.contains "updated_at" = true := by
    cases doc <;> simp_all [Json.contains, Json.getKey?]
  simp [Json.intField, Json.strField, hcv, hct, Json.getKey, hv, ht, Json.toInt, Json.toStr,
    wrapInt32_of_inInt32 hr]

/-- Monotonicity over a run that starts at any stores. -/
theorem processAll_monotone (pid : String) :
    ∀ (evs : List (ProductEvent × Oracle)) (w : World) (d1 d2 : Json),
    (∀ p ∈ evs, p.1.product_id = pid →
      p.1.event_type ≠ "delete" ∧ p.2.get = Fault.none ∧ inInt32 p.1.version) →
    w.docs "products" pid = some d1 →
    (processAll evs w).docs "products" pid = some d2 →
    (∀ v1, d1.intField "version" = some (.ok v1) →
      ∃ v2, d2.intField "version" = some (.ok v2) ∧ v1 ≤ v2) ∧
    (∀ u1, d1.strField "updated_at" = some (.ok u1) →
      ∃ u2, d2.strField "updated_at" = some (.ok u2) ∧ strLe u1 u2 = true)
  | [], w, d1, d2, _, h1, h2 => by
    simp only [processAll] at h2
    rw [h1] at h2; cases h2
    exact ⟨fun v1 hv => ⟨v1, hv, le_refl _⟩, fun u1 hu => ⟨u1, hu, strLe_refl _⟩⟩
  | (e, o) :: rest, w, d1, d2, hyp, h1, h2 => by
    simp only [processAll] at h2
    have hrest : ∀ p ∈ rest, p.1.product_id = pid →
        p.1.event_type ≠ "delete" ∧ p.2.get = Fault.none ∧ inInt32 p.1.version :=
      fun p hp => hyp p (List.mem_cons_of_mem _ hp)
    by_cases hpid : e.product_id = pid
    · obtain ⟨hdel, hget, hver⟩ := hyp (e, o) (List.mem_cons_self _ _) hpid
      simp only at hdel hget hver
      rcases processEvent_docs_upsert e w o hdel with hsame | ⟨doc, hdoc, hsp, hput⟩
      · have h1' : (processEvent e w o).world.docs "products" pid = some d1 := by
          rw [hsame]; exact h1
        exact processAll_monotone pid rest _ d1 d2 hrest h1' h2
      · have h1' : (processEvent e w o).world.docs "products" pid = some doc := by
          rw [hput, ← hpid]; simp [Docs.put]
        obtain ⟨ihv, ihu⟩ := processAll_monotone pid rest _ doc d2 hrest h1' h2
        obtain ⟨sv, su⟩ := mkDocument_stamp hdoc hver
        rw [hget, getDocument_noFault, hpid, h1] at hsp
        simp only [fetched] at hsp
        rw [shouldProcess_envelope] at hsp
        constructor
        · intro v1 hv1
          obtain ⟨v2, hv2, hle⟩ := ihv _ sv
          have := shouldProcess_true_version e d1 v1 hsp hv1
          exact ⟨v2, hv2, by omega⟩
        · intro u1 hu1
          obtain ⟨u2, hu2, hle⟩ := ihu _ su
          have := shouldProcess_true_updated e d1 u1 hsp hu1
          exact ⟨u2, hu2, strLe_trans (strLe_total this) hle⟩
    · have h1' : (processEvent e w o).world.docs "products" pid = some d1 := by
        rcases processEvent_docs e w o with h | h | ⟨doc, _, h⟩
        · rw [h]; exact h1
        · rw [h]; simp [Docs.erase, Ne.symm hpid, h1]
        · rw [h]; simp [Docs.put, Ne.symm hpid, h1]
      exact processAll_monotone pid rest _ d1 d2 hrest h1' h2

theorem processAll_append (pre post : List (ProductEvent × Oracle)) (w : World) :
    processAll (pre ++ post) w = processAll post (processAll pre w) := by
  induction pre generalizing w with
  | nil => rfl
  | cons p pre ih =>
    obtain ⟨e, o⟩ := p
    simp only [List.cons_append, processAll]
    exact ih _

/-- C15, amended: take any product and any two points of a run of `processEvent`
over a sequence of events such that every event for the product handled
between the two points is a create or update event with a fault-free GET (and
a version that is a C++ `int`). Whenever a document for the product is stored
at both points, the later document's `version` is greater than or equal to
the earlier one's, when the earlier one's reads as an int, and the later
document's `updated_at` is greater than or equal to the earlier one's in
string order, when the earlier one's reads as a string. -/
theorem ProductEventConsumer.processAll_stamp_monotone (pid : String)
    (pre post : List (ProductEvent × Oracle)) (w : World) (d1 d2 : Json)
    (hpost : ∀ p ∈ post, p.1.product_id = pid →
      p.1.event_type ≠ "delete" ∧ p.2.get = Fault.none ∧ inInt32 p.1.version)
    (h1 : (processAll pre w).docs "products" pid = some d1)
    (h2 : (processAll (pre ++ post) w).docs "products" pid = some d2) :
    (∀ v1, d1.intField "version" = some (.ok v1) →
      ∃ v2, d2.intField "version" = some (.ok v2) ∧ v1 ≤ v2) ∧
    (∀ u1, d1.strField "updated_at" = some (.ok u1) →
      ∃ u2, d2.strField "updated_at" = some (.ok u2) ∧ strLe u1 u2 = true) := by
  rw [processAll_append] at h2
  exact processAll_monotone pid post _ d1 d2 hpost h1 h2

/-- C15, counterexample: the index holds `P1` at version 10; a delete with
version 11 followed by a create with version 1 leaves `P1` stored at version 1
and with an `updated_at` below the one stored at the start. -/
theorem ProductEventConsumer.processAll_stamp_monotone_counterexample :
    ((processAll [] (Sample.stocked 10)).docs "products" "P1").map
        (fun d => (d.intField "version", d.strField "updated_at")) =
      some (some (.ok 10), some (.ok "2025-12-01T00:00:00Z")) ∧
    ((processAll [(Sample.event "delete" 11 "2025-12-05T00:00:00Z", Sample.calm),
                  (Sample.event "create" 1 "2025-11-01T00:00:00Z", Sample.calm)]
        (Sample.stocked 10)).docs "products" "P1").map
        (fun d => (d.intField "version", d.strField "updated_at")) =
      some (some (.ok 1), some (.ok "2025-11-01T00:00:00Z")) ∧
    strLe "2025-12-01T00:00:00Z" "2025-11-01T00:00:00Z" = false := by
  decide

/-- C15, witness: `P1` stored at version 0, then an update with version 3 and an
older one with version 2. -/
theorem ProductEventConsumer.processAll_stamp_monotone_witness :
    (∀ v1, (Json.obj [("title", Json.str "Desk"), ("version", Json.num 0),
          ("updated_at", Json.str "2025-12-01T00:00:00Z"),
          ("product_id", Json.str "P1")]).intField "version" = some (.ok v1) →
      ∃ v2, (Json.obj [("title", Json.str "Lamp"), ("version", Json.num 3),
          ("updated_at", Json.str "2025-12-03T00:00:00Z"),
          ("product_id", Json.str "P1")]).intField "version" = some (.ok v2) ∧ v1 ≤ v2) ∧
    (∀ u1, (Json.obj [("title", Json.str "Desk"), ("version", Json.num 0),
          ("updated_at", Json.str "2025-12-01T00:00:00Z"),
          ("product_id", Json.str "P1")]).strField "updated_at" = some (.ok u1) →
      ∃ u2, (Json.obj [("title", Json.str "Lamp"), ("version", Json.num 3),
          ("updated_at", Json.str "2025-12-03T00:00:00Z"),
          ("product_id", Json.str "P1")]).strField "updated_at" = some (.ok u2) ∧
        strLe u1 u2 = true) :=
  ProductEventConsumer.processAll_stamp_monotone "P1" []
    [(Sample.event "update" 3 "2025-12-03T00:00:00Z", Sample.calm),
     (Sample.event "update" 2 "2025-12-02T00:00:00Z", Sample.calm)]
    (Sample.stocked 0) _ _ (by decide) (by decide) (by decide)

/-! ## Theorems: ingestion requests and batch files -/

theorem Json.valueStr_obj (kvs : List (String × Json)) (key : String)
    (h : ∀ v, Json.lookup kvs key = some v → ∃ s, v = Json.str s) :
    ∃ s, (Json.obj kvs).valueStr key "" = .ok s ∧
      (Json.lookup kvs key = none → s = "") ∧
      (∀ t, Json.lookup kvs key = some (Json.str t) → s = t) := by
  cases hl : Json.lookup kvs key with
  | none =>
    exact ⟨"", by simp [Json.valueStr, hl], fun _ => rfl, fun t ht => by simp at ht⟩
  | some v =>
    obtain ⟨s, rfl⟩ := h v hl
    exact ⟨s, by simp [Json.valueStr, hl, Json.toStr], fun hn => by simp at hn,
      fun t ht => by simp at ht; exact ht⟩

/-- C19, amended: a POST /events body that is a JSON object whose members `id`
and `type`, where present, are strings is not rejected for what it lacks,
whichever of `id`, `type` and `data` that is: the event is built with `""` for
a missing `id` or `type` and the empty object for a missing `data`, and it is
put at the end of the accept queue with status 202 when `push` returns true,
answered 429 when `push` returns false, and answered 400 only when `push`
throws `std::bad_alloc`, which it does not while the heap gives memory. A body
that is valid JSON but not an object is answered with 400 and leaves the
server, and so the queue, unchanged. -/
theorem IngestionServer.handlePostEvent_defaults (srv : IngestionServer)
    (kvs : List (String × Json)) (now : Int) (heapOk : Bool)
    (hid : ∀ v, Json.lookup kvs "id" = some v → ∃ s, v = Json.str s)
    (hty : ∀ v, Json.lookup kvs "type" = some v → ∃ s, v = Json.str s) :
    (∃ event, IngestionServer.bodyToEvent (Text.json (Json.obj kvs)) now = .ok event ∧
      (Json.lookup kvs "id" = none → event.id = "") ∧
      (∀ s, Json.lookup kvs "id" = some (Json.str s) → event.id = s) ∧
      (Json.lookup kvs "type" = none → event.type = "") ∧
      (∀ s, Json.lookup kvs "type" = some (Json.str s) → event.type = s) ∧
      event.data = (Json.lookup kvs "data").getD (Json.obj []) ∧
      event.timestamp = now ∧
      (∀ q, srv.event_queue.push heapOk event = .ok (true, q) →
        (srv.handlePostEvent (Text.json (Json.obj kvs)) now heapOk).status_code = 202 ∧
        (srv.handlePostEvent (Text.json (Json.obj kvs)) now heapOk).server.event_queue.items
          = srv.event_queue.items ++ [event]) ∧
      (∀ q, srv.event_queue.push heapOk event = .ok (false, q) →
        (srv.handlePostEvent (Text.json (Json.obj kvs)) now heapOk).status_code = 429) ∧
      ((srv.handlePostEvent (Text.json (Json.obj kvs)) now heapOk).status_code = 400 ↔
        srv.event_queue.push heapOk event = .error .bad_alloc)) ∧
    (heapOk = true →
      (srv.handlePostEvent (Text.json (Json.obj kvs)) now heapOk).status_code ≠ 400) ∧
    ∀ j : Json, (∀ members, j ≠ Json.obj members) →
      (srv.handlePostEvent (Text.json j) now heapOk).status_code = 400 ∧
      (srv.handlePostEvent (Text.json j) now heapOk).server = srv := by
  obtain ⟨id, hidv, hid0, hid1⟩ := Json.valueStr_obj kvs "id" hid
  obtain ⟨ty, htyv, hty0, hty1⟩ := Json.valueStr_obj kvs "type" hty
  have hb : IngestionServer.bodyToEvent (Text.json (Json.obj kvs)) now =
      .ok ⟨id, ty, (Json.lookup kvs "data").getD (Json.obj []), now⟩ := by
    simp [IngestionServer.bodyToEvent, Text.parse, hidv, htyv, Json.valueJson]
  refine ⟨⟨_, hb, hid0, hid1, hty0, hty1, rfl, rfl, ?_, ?_, ?_⟩, ?_, ?_⟩
  · intro q hp
    rcases push_outcome srv.event_queue heapOk
      ⟨id, ty, (Json.lookup kvs "data").getD (Json.obj []), now⟩ with h | h | ⟨q2, h, hq⟩
    · rw [h] at hp; cases hp
    · rw [h] at hp; cases hp
    · simp [IngestionServer.handlePostEvent, hb, h, hq]
  · intro q hp
    simp [IngestionServer.handlePostEvent, hb, hp]
  · rcases push_outcome srv.event_queue heapOk
      ⟨id, ty, (Json.lookup kvs "data").getD (Json.obj []), now⟩ with h | h | ⟨q2, h, hq⟩ <;>
      simp [IngestionServer.handlePostEvent, hb, h]
  · intro hheap
    subst hheap
    simp only [IngestionServer.handlePostEvent, hb, LockfreeQueue.push]
    by_cases hpool : srv.event_queue.pool > 0
    · simp [hpool]
    · cases hfixed : srv.event_queue.fixed_sized <;> simp [hpool]
  · intro j hj
    have hbad : ∃ x, IngestionServer.bodyToEvent (Text.json j) now = .error x := by
      cases j with
      | obj members => exact absurd rfl (hj members)
      | _ => exact ⟨Exn.type_error 306,
          by simp [IngestionServer.bodyToEvent, Text.parse, Json.valueStr]⟩
    obtain ⟨x, hx⟩ := hbad
    simp [IngestionServer.handlePostEvent, hx]

/-- C19, counterexample: the body that is the empty JSON object, which has none of
`id`, `type` and `data`, is answered with 202 and its event is enqueued. -/
theorem IngestionServer.handlePostEvent_defaults_counterexample :
    ((IngestionServer.create 8081 10 100 1000 []).handlePostEvent
        (Text.json (Json.obj [])) 1765411200000 true).status_code = 202 ∧
    ((IngestionServer.create 8081 10 100 1000 []).handlePostEvent
        (Text.json (Json.obj [])) 1765411200000 true).server.event_queue.items =
      [⟨"", "", Json.obj [], 1765411200000⟩] := by
  decide

/-- C19, witness: a body with an `id` and neither `type` nor `data`. -/
theorem IngestionServer.handlePostEvent_defaults_witness :
    ((IngestionServer.create 8081 10 100 1000 []).handlePostEvent
        (Text.json (Json.obj [("id", Json.str "a")])) 5 true).status_code ≠ 400 :=
  (IngestionServer.handlePostEvent_defaults (IngestionServer.create 8081 10 100 1000 [])
    [("id", Json.str "a")] 5 true
    (fun v hv => ⟨"a", by simp [Json.lookup] at hv; exact hv.symm⟩)
    (fun v hv => by simp [Json.lookup] at hv)).2.1 rfl

theorem wrapInt64_of_inInt64 {n : Int} (h : inInt64 n) : wrapInt64 n = n := by
  unfold inInt64 at h
  unfold wrapInt64
  omega

theorem Event.ofJson_toJson (e : Event) (h : inInt64 e.timestamp) :
    Event.ofJson e.toJson = .ok e := by
  simp [Event.ofJson, Event.toJson, Json.index, Json.lookup, Json.toStr, Json.toInt64,
    wrapInt64_of_inInt64 h]

theorem readLines_dump : ∀ events : List Event, (∀ e ∈ events, inInt64 e.timestamp) →
    readLines (events.map (fun e => e.toJson.dump)) = .ok events
  | [], _ => rfl
  | e :: rest, h => by
    have he := Event.ofJson_toJson e (h e (List.mem_cons_self _ _))
    have hr := readLines_dump rest (fun x hx => h x (List.mem_cons_of_mem _ hx))
    simp only [Json.dump] at hr
    simp [readLines, Json.dump, Text.isEmpty, Text.parse, he, hr]

/-- C20: for every list of events (timestamps being `int64_t` values), every log
directory and every clock reading, whenever `writeBatch` returns a file name,
`readBatch` of that file returns exactly the events written: the same number,
each with the same id, type, data and timestamp, in the same order; and
`writeBatch` does return the file name whenever the file can be opened. -/
theorem AppendLog.readBatch_writeBatch (log : AppendLog) (stamp : String) (openOk : Bool)
    (events : List Event) (hts : ∀ e ∈ events, inInt64 e.timestamp) :
    (∀ filename, (log.writeBatch stamp openOk events).1 = .ok filename →
      (log.writeBatch stamp openOk events).2.readBatch filename = .ok events) ∧
    (openOk = true →
      log.dir.any (fun d => d.name = AppendLog.fileName stamp log.batch_counter &&
        !d.is_regular_file) = false →
      (log.writeBatch stamp openOk events).1 = .ok (AppendLog.fileName stamp log.batch_counter))
    := by
  constructor
  · intro filename hw
    unfold AppendLog.writeBatch at hw ⊢
    simp only [] at hw ⊢
    split at hw
    · rename_i hc
      simp only [hc, if_true] at hw ⊢
      cases hw
      simp only [AppendLog.readBatch, find_dirWrite, if_true]
      exact readLines_dump events hts
    · cases hw
  · intro ho hc
    subst ho
    unfold AppendLog.writeBatch
    simp only [] at hc ⊢
    rw [hc]
    simp

/-- C20, witness: two events written over the directory that holds three
pending batches. -/
theorem AppendLog.readBatch_writeBatch_witness :
    ((⟨Sample.pendingDir, 0⟩ : AppendLog).writeBatch "20251211_120000" true
        [Sample.click "x" 7, Sample.click "y" 8]).1 = .ok "batch_20251211_120000_0.jsonl" ∧
    ((⟨Sample.pendingDir, 0⟩ : AppendLog).writeBatch "20251211_120000" true
        [Sample.click "x" 7, Sample.click "y" 8]).2.readBatch "batch_20251211_120000_0.jsonl" =
      .ok [Sample.click "x" 7, Sample.click "y" 8] :=
  ⟨by decide,
   (AppendLog.readBatch_writeBatch ⟨Sample.pendingDir, 0⟩ "20251211_120000" true
      [Sample.click "x" 7, Sample.click "y" 8] (by decide)).1 _ (by decide)⟩

/-! ## Theorems: batch files of a run -/

/-- C21, failing input: eleven `writeBatch` calls on a new `AppendLog` within one
second of the clock. The tenth call returns the name with counter 9 and the
eleventh the name with counter 10, which is lexicographically smaller, so
`getPendingBatches` lists the eleventh batch third, before eight batches
that were written earlier. -/
theorem AppendLog.writeBatches_order_failing_input :
    (AppendLog.writeBatches Sample.elevenWrites ⟨[], 0⟩).1.get? 9 =
      some (.ok "batch_20251211_120000_9.jsonl") ∧
    (AppendLog.writeBatches Sample.elevenWrites ⟨[], 0⟩).1.get? 10 =
      some (.ok "batch_20251211_120000_10.jsonl") ∧
    strLe "batch_20251211_120000_9.jsonl" "batch_20251211_120000_10.jsonl" = false ∧
    strLe "batch_20251211_120000_10.jsonl" "batch_20251211_120000_9.jsonl" = true ∧
    (AppendLog.writeBatches Sample.elevenWrites ⟨[], 0⟩).2.getPendingBatches =
      ["batch_20251211_120000_0.jsonl", "batch_20251211_120000_1.jsonl",
       "batch_20251211_120000_10.jsonl", "batch_20251211_120000_2.jsonl",
       "batch_20251211_120000_3.jsonl", "batch_20251211_120000_4.jsonl",
       "batch_20251211_120000_5.jsonl", "batch_20251211_120000_6.jsonl",
       "batch_20251211_120000_7.jsonl", "batch_20251211_120000_8.jsonl",
       "batch_20251211_120000_9.jsonl"] := by
  decide

theorem writeBatch_counter (log : AppendLog) (stamp : String) (openOk : Bool)
    (events : List Event) :
    (log.writeBatch stamp openOk events).2.batch_counter = log.batch_counter + 1 := by
  unfold AppendLog.writeBatch
  simp only []
  split <;> rfl

theorem writeBatch_ok_name (log : AppendLog) (stamp : String) (openOk : Bool)
    (events : List Event) (f : String) (h : (log.writeBatch stamp openOk events).1 = .ok f) :
    f = AppendLog.fileName stamp log.batch_counter := by
  unfold AppendLog.writeBatch at h
  simp only [] at h
  split at h
  · cases h; rfl
  · cases h

theorem writeBatches_counter : ∀ (calls : List (String × Bool × List Event)) (log : AppendLog),
    (AppendLog.writeBatches calls log).2.batch_counter = log.batch_counter + calls.length
  | [], log => rfl
  | (stamp, openOk, events) :: rest, log => by
    simp only [AppendLog.writeBatches, List.length_cons]
    rw [writeBatches_counter rest, writeBatch_counter]
    omega

/-- Every name returned by a run of `writeBatch` calls carries a counter value
taken during the run. -/
theorem writeBatches_names : ∀ (calls : List (String × Bool × List Event)) (log : AppendLog)
    (f : String), Except.ok f ∈ (AppendLog.writeBatches calls log).1 →
    ∃ stamp c, log.batch_counter ≤ c ∧ f = AppendLog.fileName stamp c
  | [], log, f, h => by simp [AppendLog.writeBatches] at h
  | (stamp, openOk, events) :: rest, log, f, h => by
    simp only [AppendLog.writeBatches, List.mem_cons] at h
    rcases h with h | h
    · exact ⟨stamp, log.batch_counter, le_refl _, writeBatch_ok_name _ _ _ _ _ h.symm⟩
    · obtain ⟨s, c, hc, hf⟩ := writeBatches_names rest _ f h
      rw [writeBatch_counter] at hc
      exact ⟨s, c, by omega, hf⟩

theorem writeBatches_pairwise : ∀ (calls : List (String × Bool × List Event)) (log : AppendLog),
    (AppendLog.writeBatches calls log).1.Pairwise
      (fun a b => ∀ f g, a = Except.ok f → b = Except.ok g → f ≠ g)
  | [], log => by simp [AppendLog.writeBatches]
  | (stamp, openOk, events) :: rest, log => by
    simp only [AppendLog.writeBatches, List.pairwise_cons]
    refine ⟨?_, writeBatches_pairwise rest _⟩
    intro b hb f g hf hg heq
    subst hg
    obtain ⟨s, c, hc, hgn⟩ := writeBatches_names rest _ g hb
    rw [writeBatch_counter] at hc
    have hfn := writeBatch_ok_name _ _ _ _ _ hf
    rw [heq, hgn] at hfn
    have := fileName_counter_injective hfn
    omega

theorem find_dirWrite_ne (f g : String) (lines : List Text) (h : g ≠ f) :
    ∀ dir : List DirEntry,
      (dirWrite dir f lines).find? (fun d => d.name = g) = dir.find? (fun d => d.name = g)
  | [] => by simp [dirWrite, List.find?, Ne.symm h]
  | d :: rest => by
    by_cases hd : d.name = f
    · have hg : ¬ d.name = g := by rw [hd]; exact Ne.symm h
      simp [dirWrite, hd, List.find?, Ne.symm h, hg]
    · simp only [dirWrite, hd, if_false, List.find?]
      rw [find_dirWrite_ne f g lines h rest]

theorem readBatch_other_write (log : AppendLog) (stamp : String) (openOk : Bool)
    (events : List Event) (g : String) (h : g ≠ AppendLog.fileName stamp log.batch_counter) :
    (log.writeBatch stamp openOk events).2.readBatch g = log.readBatch g := by
  unfold AppendLog.writeBatch
  simp only []
  split
  · simp only [AppendLog.readBatch, find_dirWrite_ne _ g _ h]
  · rfl

theorem readBatch_after_write (log : AppendLog) (stamp : String) (openOk : Bool)
    (events : List Event) (f : String) (hts : ∀ e ∈ events, inInt64 e.timestamp)
    (hw : (log.writeBatch stamp openOk events).1 = .ok f) :
    (log.writeBatch stamp openOk events).2.readBatch f = .ok events := by
  unfold AppendLog.writeBatch at hw ⊢
  simp only [] at hw ⊢
  split at hw
  · rename_i hc
    simp only [hc, if_true] at hw ⊢
    cases hw
    simp only [AppendLog.readBatch, find_dirWrite, if_true]
    exact readLines_dump events hts
  · cases hw

/-- A file written under a counter value already used is not touched by the
calls that follow. -/
theorem readBatch_later_writes : ∀ (calls : List (String × Bool × List Event))
    (log : AppendLog) (stamp : String) (c : Nat), c < log.batch_counter →
    (AppendLog.writeBatches calls log).2.readBatch (AppendLog.fileName stamp c) =
      log.readBatch (AppendLog.fileName stamp c)
  | [], log, stamp, c, _ => rfl
  | (s, openOk, events) :: rest, log, stamp, c, hc => by
    simp only [AppendLog.writeBatches]
    rw [readBatch_later_writes rest _ stamp c (by rw [writeBatch_counter]; omega)]
    apply readBatch_other_write
    intro heq
    have := fileName_counter_injective heq
    omega

theorem writeBatches_kept : ∀ (calls : List (String × Bool × List Event)) (log : AppendLog)
    (i : Nat) (stamp : String) (openOk : Bool) (events : List Event) (f : String),
    calls.get? i = some (stamp, openOk, events) →
    (AppendLog.writeBatches calls log).1.get? i = some (.ok f) →
    (∀ e ∈ events, inInt64 e.timestamp) →
    (AppendLog.writeBatches calls log).2.readBatch f = .ok events
  | [], log, i, stamp, openOk, events, f, h, _, _ => by simp at h
  | (s, o, evs) :: rest, log, 0, stamp, openOk, events, f, h, hr, hts => by
    simp only [List.get?_cons_zero, Option.some.injEq, Prod.mk.injEq] at h
    obtain ⟨rfl, rfl, rfl⟩ := h
    simp only [AppendLog.writeBatches, List.get?_cons_zero, Option.some.injEq] at hr ⊢
    have hn := writeBatch_ok_name _ _ _ _ _ hr
    rw [hn, readBatch_later_writes rest _ s log.batch_counter
      (by rw [writeBatch_counter]; omega), ← hn]
    exact readBatch_after_write log s o evs f hts hr
  | (s, o, evs) :: rest, log, i + 1, stamp, openOk, events, f, h, hr, hts => by
    simp only [List.get?_cons_succ] at h
    simp only [AppendLog.writeBatches, List.get?_cons_succ] at hr ⊢
    exact writeBatches_kept rest _ i stamp openOk events f h hr hts

/-- C29: in every run of `writeBatch` calls on one `AppendLog` (the `int` counter
not overflowing), whatever the clock readings and whether or not the files
can be opened, the counter goes up by one with every call, no two calls
return the same file name, and the file of every batch written is, after all
the later calls of the run, still the one that reads as that batch: no later
call has written over it. -/
theorem AppendLog.writeBatches_distinct (log : AppendLog)
    (calls : List (String × Bool × List Event))
    (_hcounter : log.batch_counter + calls.length ≤ 2147483647) :
    (AppendLog.writeBatches calls log).2.batch_counter = log.batch_counter + calls.length ∧
    (AppendLog.writeBatches calls log).1.Pairwise
      (fun a b => ∀ f g, a = Except.ok f → b = Except.ok g → f ≠ g) ∧
    ∀ (i : Nat) (stamp : String) (openOk : Bool) (events : List Event) (f : String),
      calls.get? i = some (stamp, openOk, events) →
      (AppendLog.writeBatches calls log).1.get? i = some (.ok f) →
      (∀ e ∈ events, inInt64 e.timestamp) →
      (AppendLog.writeBatches calls log).2.readBatch f = .ok events :=
  ⟨writeBatches_counter calls log, writeBatches_pairwise calls log,
    writeBatches_kept calls log⟩

/-- C29, witness: eleven calls within one second return eleven names, and the
first batch is still on disk after the ten calls that follow it. -/
theorem AppendLog.writeBatches_distinct_witness :
    (AppendLog.writeBatches Sample.elevenWrites ⟨[], 0⟩).1.Pairwise
      (fun a b => ∀ f g, a = Except.ok f → b = Except.ok g → f ≠ g) ∧
    (AppendLog.writeBatches Sample.elevenWrites ⟨[], 0⟩).2.readBatch
      "batch_20251211_120000_0.jsonl" = .ok [Sample.click "a" 0] :=
  ⟨(AppendLog.writeBatches_distinct ⟨[], 0⟩ Sample.elevenWrites (by decide)).2.1,
   (AppendLog.writeBatches_distinct ⟨[], 0⟩ Sample.elevenWrites (by decide)).2.2 0
     "20251211_120000" true [Sample.click "a" 0] "batch_20251211_120000_0.jsonl"
     (by decide) (by decide) (by decide)⟩

theorem lastDotSuffix_append (t : List Char) (ht : lastDotSuffix t = some t) :
    ∀ xs : List Char, lastDotSuffix (xs ++ t) = some t
  | [] => ht
  | c :: xs => by
    show lastDotSuffix (c :: (xs ++ t)) = some t
    rw [lastDotSuffix, lastDotSuffix_append t ht xs]

theorem extension_fileName (stamp : String) (c : Nat) :
    extension (AppendLog.fileName stamp c) = ".jsonl" := by
  have hdata : (AppendLog.fileName stamp c).data =
      'b' :: (("atch_".data ++ stamp.data ++ "_".data ++ (decimal c).data) ++ ".jsonl".data) := by
    simp only [AppendLog.fileName, String.data_append]
    rfl
  have h1 : AppendLog.fileName stamp c ≠ "." := by
    intro h
    have := congrArg String.data h
    rw [hdata] at this
    have h3 := congrArg List.length this
    simp at h3
  have h2 : AppendLog.fileName stamp c ≠ ".." := by
    intro h
    have := congrArg String.data h
    rw [hdata] at this
    have h3 := congrArg List.head? this
    simp at h3
  unfold extension
  rw [if_neg (by simp [h1, h2]), hdata]
  show (match lastDotSuffix (("atch_".data ++ stamp.data ++ "_".data ++ (decimal c).data)
      ++ ".jsonl".data) with
    | some s => String.mk s
    | none => "") = ".jsonl"
  rw [lastDotSuffix_append ".jsonl".data (by decide)]

/-- On a log whose files were all written by this instance, a `writeBatch` whose
file can be opened adds one file to the directory. -/
theorem writeBatch_owned (log : AppendLog) (h : log.Owned) (stamp : String)
    (events : List Event) :
    (log.writeBatch stamp true events).2 =
      ⟨log.dir ++ [batchFile (AppendLog.fileName stamp log.batch_counter) events],
        log.batch_counter + 1⟩ ∧
    (log.writeBatch stamp true events).2.Owned := by
  have hfresh := Owned.fresh h stamp
  have hany : log.dir.any (fun d => d.name = AppendLog.fileName stamp log.batch_counter &&
      !d.is_regular_file) = false := by
    rw [List.any_eq_false]
    intro d hd
    simp [hfresh d hd]
  have heq : (log.writeBatch stamp true events).2 =
      ⟨log.dir ++ [batchFile (AppendLog.fileName stamp log.batch_counter) events],
        log.batch_counter + 1⟩ := by
    unfold AppendLog.writeBatch
    simp only [hany, Bool.true_and, Bool.not_false, if_true]
    rw [dirWrite_fresh _ _ _ hfresh]
    rfl
  refine ⟨heq, ?_⟩
  rw [heq]
  intro d hd
  simp only [List.mem_append, List.mem_singleton] at hd
  rcases hd with hd | hd
  · obtain ⟨s, c, hc, hn⟩ := h d hd
    exact ⟨s, c, Nat.lt_succ_of_lt hc, hn⟩
  · exact ⟨stamp, log.batch_counter, Nat.lt_succ_self _, by rw [hd]; rfl⟩

theorem getPendingBatches_length (log : AppendLog) :
    log.getPendingBatches.length = (log.dir.filter DirEntry.isPending).length := by
  unfold AppendLog.getPendingBatches
  rw [(sortNames_perm _).length_eq, List.length_map]

theorem writeBatches_pending : ∀ (calls : List (String × Bool × List Event)) (log : AppendLog),
    log.Owned → (∀ c ∈ calls, c.2.1 = true) →
    (AppendLog.writeBatches calls log).2.getPendingBatches.length =
      log.getPendingBatches.length + calls.length
  | [], log, _, _ => rfl
  | (stamp, openOk, events) :: rest, log, ho, hall => by
    have hopen : openOk = true := hall (stamp, openOk, events) (List.mem_cons_self _ _)
    subst hopen
    obtain ⟨heq, hown⟩ := writeBatch_owned log ho stamp events
    simp only [AppendLog.writeBatches, List.length_cons]
    rw [writeBatches_pending rest _ hown (fun c hc => hall c (List.mem_cons_of_mem _ hc)),
      getPendingBatches_length, getPendingBatches_length, heq]
    have hp : (batchFile (AppendLog.fileName stamp log.batch_counter) events).isPending
        = true := by
      simp [DirEntry.isPending, batchFile, extension_fileName]
    simp [List.filter_append, hp]
    omega

/-- C22: over a directory whose entries have distinct names, `getPendingBatches`
returns exactly the names of the entries that are regular files with the
extension `.jsonl`, each once, in ascending `std::string` order; and after `n`
`writeBatch` calls whose files could be opened, made by a new `AppendLog` on
an empty directory, it returns `n` names. -/
theorem AppendLog.getPendingBatches_spec (log : AppendLog)
    (hnd : (dirNames log.dir).Nodup) :
    (∀ f, f ∈ log.getPendingBatches ↔
      ∃ d ∈ log.dir, d.name = f ∧ d.is_regular_file = true ∧ extension d.name = ".jsonl") ∧
    log.getPendingBatches.Nodup ∧
    log.getPendingBatches.Pairwise (fun a b => strLe a b = true) ∧
    ∀ calls : List (String × Bool × List Event), (∀ c ∈ calls, c.2.1 = true) →
      calls.length ≤ 2147483647 →
      (AppendLog.writeBatches calls ⟨[], 0⟩).2.getPendingBatches.length = calls.length := by
  refine ⟨?_, getPendingBatches_nodup log hnd, sortNames_sorted _, ?_⟩
  · intro f
    rw [mem_getPendingBatches]
    constructor
    · rintro ⟨d, hd, hp, hn⟩
      simp only [DirEntry.isPending, Bool.and_eq_true, decide_eq_true_eq] at hp
      exact ⟨d, hd, hn, hp.1, hp.2⟩
    · rintro ⟨d, hd, hn, hr, he⟩
      exact ⟨d, hd, by simp [DirEntry.isPending, hr, he], hn⟩
  · intro calls hall _
    have := writeBatches_pending calls ⟨[], 0⟩ (by intro d hd; cases hd) hall
    simpa [AppendLog.getPendingBatches, sortNames] using this

/-- C22, witness: the directory with three pending batches, listed in ascending
order. -/
theorem AppendLog.getPendingBatches_spec_witness :
    (⟨Sample.pendingDir, 0⟩ : AppendLog).getPendingBatches.Nodup ∧
    (⟨Sample.pendingDir, 0⟩ : AppendLog).getPendingBatches.Pairwise
      (fun a b => strLe a b = true) ∧
    (AppendLog.writeBatches Sample.elevenWrites ⟨[], 0⟩).2.getPendingBatches.length =
      Sample.elevenWrites.length :=
  ⟨(AppendLog.getPendingBatches_spec ⟨Sample.pendingDir, 0⟩ (by decide)).2.1,
   (AppendLog.getPendingBatches_spec ⟨Sample.pendingDir, 0⟩ (by decide)).2.2.1,
   (AppendLog.getPendingBatches_spec ⟨Sample.pendingDir, 0⟩ (by decide)).2.2.2
     Sample.elevenWrites (by decide) (by decide)⟩

theorem Event.ofJson_absent (j : Json) (key : String)
    (hkey : key ∈ ["id", "type", "timestamp"]) (h : j.getKey? key = none) :
    ∃ x, Event.ofJson j = .error x := by
  simp only [List.mem_cons, List.mem_singleton, List.mem_nil_iff, or_false] at hkey
  cases j with
  | obj kvs =>
    simp only [Json.getKey?] at h
    rcases hkey with hk | hk | hk <;> subst hk
    · simp [Event.ofJson, Json.index, h, Json.toStr]
    · simp only [Event.ofJson, Json.index, h, Option.getD_none, Json.toStr]
      cases (Json.lookup kvs "id").getD Json.null <;> simp
    · simp only [Event.ofJson, Json.index, h, Option.getD_none, Json.toInt64, Json.toStr]
      cases (Json.lookup kvs "id").getD Json.null <;>
        cases (Json.lookup kvs "type").getD Json.null <;> simp
  | null => simp [Event.ofJson, Json.index, Json.toStr]
  | bool b => simp [Event.ofJson, Json.index]
  | num n => simp [Event.ofJson, Json.index]
  | str s => simp [Event.ofJson, Json.index]
  | arr xs => simp [Event.ofJson, Json.index]

/-- A line that `readBatch` does not skip and cannot turn into an event. -/
theorem readLines_error : ∀ (lines : List Text) (line : Text), line ∈ lines →
    line.isEmpty = false →
    (∀ j, line = Text.json j → ∃ x, Event.ofJson j = .error x) →
    ∃ x, readLines lines = .error x
  | [], line, h, _, _ => by cases h
  | l :: rest, line, h, hne, hbad => by
    unfold readLines
    by_cases hl : l.isEmpty = true
    · simp only [hl, if_true]
      rcases List.mem_cons.mp h with heq | hin
      · rw [heq, hl] at hne; cases hne
      · exact readLines_error rest line hin hne hbad
    · simp only [hl, if_false]
      cases hp : l.parse with
      | error x => exact ⟨x, rfl⟩
      | ok j =>
        simp only []
        cases ho : Event.ofJson j with
        | error x => exact ⟨x, rfl⟩
        | ok e =>
          simp only []
          rcases List.mem_cons.mp h with heq | hin
          · exfalso
            have hj : l = Text.json j := by
              cases l with
              | json j2 => simp [Text.parse] at hp; rw [hp]
              | raw s => simp [Text.parse] at hp
            obtain ⟨x, hx⟩ := hbad j (heq ▸ hj)
            rw [hx] at ho; cases ho
          · obtain ⟨x, hx⟩ := readLines_error rest line hin hne hbad
            exact ⟨x, by simp [hx]⟩

/-- When the lines read as events, every line that is not empty is JSON text
that converts to the event at its place. -/
theorem readLines_ok : ∀ (lines : List Text) (events : List Event),
    readLines lines = .ok events →
    List.Forall₂ (fun line e => ∃ j, line = Text.json j ∧ Event.ofJson j = .ok e)
      (lines.filter (fun l => !l.isEmpty)) events
  | [], events, h => by
    simp only [readLines, Except.ok.injEq] at h
    subst h
    exact List.Forall₂.nil
  | l :: rest, events, h => by
    unfold readLines at h
    by_cases hl : l.isEmpty = true
    · simp only [hl, if_true] at h
      simp only [List.filter, hl, Bool.not_true]
      exact readLines_ok rest events h
    · simp only [hl, if_false] at h
      have hl2 : l.isEmpty = false := by simpa using hl
      simp only [List.filter, hl2, Bool.not_false]
      cases hp : l.parse with
      | error x => rw [hp] at h; cases h
      | ok j =>
        rw [hp] at h
        simp only [] at h
        cases ho : Event.ofJson j with
        | error x => rw [ho] at h; cases h
        | ok e =>
          rw [ho] at h
          simp only [] at h
          cases hr : readLines rest with
          | error x => rw [hr] at h; cases h
          | ok es =>
            rw [hr] at h
            simp at h
            subst h
            have hj : l = Text.json j := by
              cases l with
              | json j2 => simp [Text.parse] at hp; rw [hp]
              | raw s => simp [Text.parse] at hp
            exact List.Forall₂.cons ⟨j, hj, ho⟩ (readLines_ok rest es hr)

/-- C24, amended: `readBatch` of a regular file skips the empty lines and fails
whenever a non-empty line is not valid JSON, or is JSON without a member
`id`, `type` or `timestamp`; when it returns a list of events, every
non-empty line of the file is JSON text and the list holds, in order, the
events these lines convert to. The member `data` is not required: a line
that lacks only `data` converts to an event whose `data` is `null`. -/
theorem AppendLog.readBatch_lines (log : AppendLog) (f : String) (d : DirEntry)
    (hfind : log.dir.find? (fun x => x.name = f) = some d)
    (hreg : d.is_regular_file = true) :
    ((∃ line ∈ d.lines, line.isEmpty = false ∧
        ((∃ s, line = Text.raw s) ∨
         ∃ j key, line = Text.json j ∧ key ∈ ["id", "type", "timestamp"] ∧
           j.getKey? key = none)) →
      ∃ x, log.readBatch f = .error x) ∧
    (∀ events, log.readBatch f = .ok events →
      List.Forall₂ (fun line e => ∃ j, line = Text.json j ∧ Event.ofJson j = .ok e)
        (d.lines.filter (fun l => !l.isEmpty)) events) ∧
    ∀ (kvs : List (String × Json)) (id type : String) (timestamp : Int),
      Json.lookup kvs "id" = some (Json.str id) →
      Json.lookup kvs "type" = some (Json.str type) →
      Json.lookup kvs "timestamp" = some (Json.num timestamp) →
      Json.lookup kvs "data" = none →
      Event.ofJson (Json.obj kvs) = .ok ⟨id, type, Json.null, wrapInt64 timestamp⟩ := by
  have hrb : log.readBatch f = readLines d.lines := by
    simp [AppendLog.readBatch, hfind, hreg]
  refine ⟨?_, ?_, ?_⟩
  · rintro ⟨line, hin, hne, hbad⟩
    rw [hrb]
    apply readLines_error d.lines line hin hne
    intro j hj
    rcases hbad with ⟨s, hs⟩ | ⟨j2, key, hj2, hkey, hnone⟩
    · rw [hs] at hj; cases hj
    · rw [hj2] at hj
      cases hj
      exact Event.ofJson_absent j key hkey hnone
  · intro events hok
    rw [hrb] at hok
    exact readLines_ok d.lines events hok
  · intro kvs id type timestamp h1 h2 h3 h4
    simp [Event.ofJson, Json.index, h1, h2, h3, h4, Json.toStr, Json.toInt64]

/-- C24, counterexample: the only line of the file is a JSON object with `id`,
`type` and `timestamp` and without `data`; `readBatch` does not fail and
returns one event, whose `data` is `null`. -/
theorem AppendLog.readBatch_lines_counterexample :
    Sample.noDataDir.map (fun d => d.lines.map (fun l => l.parse.map
      (fun j => j.contains "data"))) = [[.ok false]] ∧
    (⟨Sample.noDataDir, 0⟩ : AppendLog).readBatch "batch_20251211_120000_0.jsonl" =
      .ok [⟨"a", "click", Json.null, 1⟩] := by
  decide

/-- C24, witness: a file whose second line is not JSON. -/
theorem AppendLog.readBatch_lines_witness :
    ∃ x, (⟨[⟨"b.jsonl", true, [(Sample.click "a" 1).toJson.dump, Text.raw "oops"]⟩], 0⟩ :
      AppendLog).readBatch "b.jsonl" = .error x :=
  (AppendLog.readBatch_lines
    ⟨[⟨"b.jsonl", true, [(Sample.click "a" 1).toJson.dump, Text.raw "oops"]⟩], 0⟩ "b.jsonl"
    ⟨"b.jsonl", true, [(Sample.click "a" 1).toJson.dump, Text.raw "oops"]⟩
    (by decide) rfl).1
    ⟨Text.raw "oops", by decide, by decide, Or.inl ⟨"oops", rfl⟩⟩

/-! ## Theorems: retries of the index writer -/

theorem performRequest_put (f : Fault) (d : Docs) (index id : String) (document : Json) :
    (∃ body, ElasticsearchWriter.performRequest
        (serve f d (esPut d index id document.dump)).2 = .ok body ∧ f.putSucceeds = true) ∨
    (∃ x, ElasticsearchWriter.performRequest
        (serve f d (esPut d index id document.dump)).2 = .error x ∧ f.putSucceeds = false) := by
  cases f with
  | none =>
    left
    cases h : (d index id).isSome <;>
      simp [serve, esPut, Json.dump, Text.parse, ElasticsearchWriter.performRequest, h,
        Fault.putSucceeds]
  | garbled =>
    left
    cases h : (d index id).isSome <;>
      simp [serve, esPut, Json.dump, Text.parse, ElasticsearchWriter.performRequest, h,
        Fault.putSucceeds]
  | transport =>
    right
    simp [serve, ElasticsearchWriter.performRequest, Fault.putSucceeds]
  | http5xx n =>
    right
    have : 500 + n % 100 ≥ 400 := by omega
    simp [serve, ElasticsearchWriter.performRequest, Fault.putSucceeds, this]

/-- The loop of `upsertDocument` entered with `attempt` failures behind it: it
ends after attempt number `n`, every attempt before the last has failed and
has been followed by its backoff. -/
theorem upsertLoop_shape (faults : Nat → Fault) (index id : String) (document : Json)
    (max_retries : Int) :
    ∀ (fuel attempt : Nat) (d : Docs) (tr : List Op),
      (attempt : Int) < max_retries → max_retries.toNat ≤ attempt + fuel →
      ∃ n, attempt < n ∧ n ≤ max_retries.toNat ∧
        (∀ k, attempt ≤ k → k + 1 < n → (faults k).putSucceeds = false) ∧
        (ElasticsearchWriter.upsertLoop faults index id document max_retries fuel attempt d
          tr).2.2 =
          tr ++ (List.range' attempt (n - 1 - attempt)).flatMap
              (fun k => [Op.esPut index id document false, Op.sleep (100 * 2 ^ k)]) ++
            [Op.esPut index id document
              (ElasticsearchWriter.upsertLoop faults index id document max_retries fuel
                attempt d tr).1] ∧
        (ElasticsearchWriter.upsertLoop faults index id document max_retries fuel attempt d
          tr).1 = (faults (n - 1)).putSucceeds ∧
        ((ElasticsearchWriter.upsertLoop faults index id document max_retries fuel attempt d
          tr).1 = false → n = max_retries.toNat) := by
  intro fuel
  induction fuel with
  | zero =>
    intro attempt d tr hlt hfuel
    omega
  | succ fuel ih =>
    intro attempt d tr hlt hfuel
    unfold ElasticsearchWriter.upsertLoop
    simp only [hlt, if_true]
    rcases performRequest_put (faults attempt) d index id document with
      ⟨body, hok, hs⟩ | ⟨x, herr, hs⟩
    · rw [hok]
      refine ⟨attempt + 1, by omega, by omega, fun k h1 h2 => by omega, ?_, ?_, ?_⟩
      · simp
      · simpa using hs.symm
      · intro h; cases h
    · rw [herr]
      simp only []
      by_cases hge : ((attempt + 1 : Nat) : Int) ≥ max_retries
      · simp only [hge, if_true]
        refine ⟨attempt + 1, by omega, by omega, fun k h1 h2 => by omega, ?_, ?_, ?_⟩
        · simp
        · simpa using hs.symm
        · intro _; omega
      · simp only [hge, if_false]
        obtain ⟨n, h1, h2, h3, h4, h5, h6⟩ :=
          ih (attempt + 1) (serve (faults attempt) d (esPut d index id document.dump)).1
            (tr ++ [Op.esPut index id document false, Op.sleep (100 * 2 ^ (attempt + 1 - 1))])
            (by omega) (by omega)
        refine ⟨n, by omega, h2, ?_, ?_, h5, h6⟩
        · intro k hk1 hk2
          by_cases hk : k = attempt
          · rw [hk]; exact hs
          · exact h3 k (by omega) hk2
        · rw [h4]
          have hlen : n - 1 - attempt = (n - 1 - (attempt + 1)) + 1 := by omega
          rw [hlen, List.range'_succ]
          simp

/-- The operations of `upsertDocument`: `n` attempts, of which all but the last
failed and were followed by a backoff. -/
theorem upsertDocument_shape (d : Docs) (faults : Nat → Fault) (index id : String)
    (document : Json) (max_retries : Int) :
    ∃ n, n ≤ max_retries.toNat ∧
      (∀ k, k + 1 < n → (faults k).putSucceeds = false) ∧
      (ElasticsearchWriter.upsertDocument d faults index id document max_retries).2.2 =
        (List.range (n - 1)).flatMap
            (fun k => [Op.esPut index id document false, Op.sleep (100 * 2 ^ k)]) ++
          (if n = 0 then [] else [Op.esPut index id document
            (ElasticsearchWriter.upsertDocument d faults index id document max_retries).1]) ∧
      (0 < n → (ElasticsearchWriter.upsertDocument d faults index id document max_retries).1
        = (faults (n - 1)).putSucceeds) ∧
      ((ElasticsearchWriter.upsertDocument d faults index id document max_retries).1 = false →
        n = max_retries.toNat) ∧
      (n = 0 → (ElasticsearchWriter.upsertDocument d faults index id document max_retries).1
        = false) := by
  unfold ElasticsearchWriter.upsertDocument
  by_cases hpos : (0 : Int) < max_retries
  · obtain ⟨n, h1, h2, h3, h4, h5, h6⟩ :=
      upsertLoop_shape faults index id document max_retries max_retries.toNat 0 d []
        (by exact_mod_cast hpos) (by omega)
    refine ⟨n, h2, fun k hk => h3 k (Nat.zero_le _) hk, ?_, fun _ => h5, h6,
      fun h0 => by omega⟩
    rw [h4]
    have hn : n ≠ 0 := by omega
    simp [hn, List.range_eq_range']
  · have h0 : max_retries.toNat = 0 := by omega
    refine ⟨0, by omega, fun k hk => by omega, ?_, fun h => by omega, fun _ => h0.symm,
      fun _ => ?_⟩
    · rw [h0]; simp [ElasticsearchWriter.upsertLoop]
    · rw [h0]; simp [ElasticsearchWriter.upsertLoop]

theorem filter_put_failed (index id : String) (document : Json) : ∀ m : Nat,
    ((List.range m).flatMap
      (fun k => [Op.esPut index id document false, Op.sleep (100 * 2 ^ k)])).filter Op.isPut
      = (List.range m).map (fun _ => Op.esPut index id document false)
  | 0 => rfl
  | m + 1 => by
    rw [List.range_succ, List.flatMap_append, List.filter_append, filter_put_failed index id
      document m, List.map_append]
    simp [Op.isPut]

/-- C27: for every `max_retries` and every pattern of PUT outcomes (`faults k`
rules the PUT made after `k` failures), `upsertDocument` makes `n` PUT
attempts in a row, attempt after attempt in that order, with `n` at most
`max_retries` (none when `max_retries` is not positive; the callers pass 3);
every attempt but the last has failed, so nothing is attempted after a
success; it returns true exactly when the last attempt succeeded, and false
exactly when `max_retries` attempts were made and all of them failed. -/
theorem ElasticsearchWriter.upsertDocument_attempts (d : Docs) (faults : Nat → Fault)
    (index id : String) (document : Json) (max_retries : Int) :
    ∃ n, n ≤ max_retries.toNat ∧
      (ElasticsearchWriter.upsertDocument d faults index id document max_retries).2.2.filter
          Op.isPut =
        (List.range n).map (fun k => Op.esPut index id document (faults k).putSucceeds) ∧
      (∀ k, k + 1 < n → (faults k).putSucceeds = false) ∧
      ((ElasticsearchWriter.upsertDocument d faults index id document max_retries).1 = true ↔
        0 < n ∧ (faults (n - 1)).putSucceeds = true) ∧
      ((ElasticsearchWriter.upsertDocument d faults index id document max_retries).1 = false ↔
        n = max_retries.toNat ∧ ∀ k, k < n → (faults k).putSucceeds = false) := by
  obtain ⟨n, h1, h2, h3, h4, h5, h6⟩ :=
    upsertDocument_shape d faults index id document max_retries
  refine ⟨n, h1, ?_, h2, ?_, ?_⟩
  · rw [h3, List.filter_append, filter_put_failed]
    by_cases hn : n = 0
    · subst hn; simp
    · have hsucc : n = (n - 1) + 1 := by omega
      simp only [hn, if_false]
      conv_rhs => rw [hsucc, List.range_succ, List.map_append]
      rw [h4 (by omega)]
      congr 1
      · apply List.map_congr_left
        intro k hk
        rw [List.mem_range] at hk
        rw [h2 k (by omega)]
  · constructor
    · intro ht
      have hn : 0 < n := by
        by_contra hc
        have := h6 (by omega)
        rw [this] at ht; cases ht
      exact ⟨hn, by rw [← h4 hn]; exact ht⟩
    · rintro ⟨hn, hs⟩
      rw [h4 hn]; exact hs
  · constructor
    · intro hf
      refine ⟨h5 hf, fun k hk => ?_⟩
      by_cases hlast : k + 1 < n
      · exact h2 k hlast
      · have hk1 : k = n - 1 := by omega
        rw [hk1, ← h4 (by omega)]; exact hf
    · rintro ⟨hn, hall⟩
      by_cases h0 : n = 0
      · exact h6 h0
      · rw [h4 (by omega)]; exact hall (n - 1) (by omega)

/-- C28, amended: with the attempts numbered from 1 and `max_retries` at most 26
(so that every delay is an `int`), the operations of `upsertDocument` are its
failed attempts, the `n`-th of them followed by a wait of exactly
`100 * 2^(n-1)` milliseconds, and then the last attempt. The wait before the
second attempt is thus 100 ms and the wait before attempt `n` is
`100 * 2^(n-2)` ms; nothing is waited before the first attempt nor after the
last. -/
theorem ElasticsearchWriter.upsertDocument_backoff (d : Docs) (faults : Nat → Fault)
    (index id : String) (document : Json) (max_retries : Int) (hmax : max_retries ≤ 26) :
    ∃ n, n ≤ max_retries.toNat ∧
      (ElasticsearchWriter.upsertDocument d faults index id document max_retries).2.2 =
        (List.range (n - 1)).flatMap
            (fun k => [Op.esPut index id document false, Op.sleep (100 * 2 ^ k)]) ++
          (if n = 0 then [] else [Op.esPut index id document
            (ElasticsearchWriter.upsertDocument d faults index id document max_retries).1]) ∧
      ∀ k, k + 1 < n → inInt32 (100 * 2 ^ k) := by
  obtain ⟨n, h1, _, h3, _, _, _⟩ := upsertDocument_shape d faults index id document max_retries
  refine ⟨n, h1, h3, ?_⟩
  intro k hk
  have hk24 : k ≤ 24 := by omega
  have hpow : (2 : Int) ^ k ≤ 2 ^ 24 := by
    exact_mod_cast Nat.pow_le_pow_right (by norm_num : 0 < 2) hk24
  have hpos : (0 : Int) ≤ 2 ^ k := by positivity
  unfold inInt32
  constructor
  · omega
  · have : (2 : Int) ^ 24 = 16777216 := by norm_num
    omega

/-- C28, counterexample: three PUTs that fail in transport. The wait before the
second attempt is 100 ms, where `100 * 2^(n-1)` gives 200 for `n = 2`. -/
theorem ElasticsearchWriter.upsertDocument_backoff_counterexample :
    (ElasticsearchWriter.upsertDocument Sample.blank.docs Sample.putsFail.put "products" "P1"
      (Json.obj []) 3).2.2 =
      [Op.esPut "products" "P1" (Json.obj []) false, Op.sleep 100,
       Op.esPut "products" "P1" (Json.obj []) false, Op.sleep 200,
       Op.esPut "products" "P1" (Json.obj []) false] ∧
    (100 : Int) ≠ 100 * 2 ^ (2 - 1) := by
  decide

/-- C28, witness: three PUTs that fail in transport. -/
theorem ElasticsearchWriter.upsertDocument_backoff_witness :
    ∃ n, n ≤ (3 : Int).toNat ∧
      (ElasticsearchWriter.upsertDocument Sample.blank.docs Sample.putsFail.put "products" "P1"
        (Json.obj []) 3).2.2 =
        (List.range (n - 1)).flatMap
            (fun k => [Op.esPut "products" "P1" (Json.obj []) false,
              Op.sleep (100 * 2 ^ k)]) ++
          (if n = 0 then [] else [Op.esPut "products" "P1" (Json.obj [])
            (ElasticsearchWriter.upsertDocument Sample.blank.docs Sample.putsFail.put
              "products" "P1" (Json.obj []) 3).1]) ∧
      ∀ k, k + 1 < n → inInt32 (100 * 2 ^ k) :=
  ElasticsearchWriter.upsertDocument_backoff Sample.blank.docs Sample.putsFail.put "products"
    "P1" (Json.obj []) 3 (by decide)

/-! ## Theorems: lifecycle of the Batcher and the server -/

/-- C25, failing input: the test `BatcherFlushOnSize`. A Batcher with batch size 5
is started over an empty directory and a sink that cannot fail, and five
events are added. The iteration of `workerLoop` that the fifth `addEvent`
wakes finds the batch not empty and enters `flushBatch` owning
`batch_mutex_`: the worker is blocked, the five events are still in the
in-memory batch, nothing has been written or sent, and `stop`, which joins
the worker, does not return. Had the worker made no iteration, `stop` would
have flushed the five events itself and returned. -/
theorem BatcherRun.stop_blocked_failing_input :
    Sample.flushOnSize.blocked = true ∧
    Sample.flushOnSize.batcher.current_batch = Sample.fiveEvents ∧
    Sample.flushOnSize.trace = [] ∧
    Sample.flushOnSize.log.dir = [] ∧
    Sample.flushOnSize.stop "20251211_120001" true false = none ∧
    (BatcherRun.steps (Sample.fiveEvents.map BatcherStep.add) Sample.startedBatcher).stop
      "20251211_120001" true false =
      some ⟨⟨5, 10000, []⟩, ⟨[], 1⟩, ⟨false⟩,
        [IngestOp.write "batch_20251211_120001_0.jsonl" Sample.fiveEvents,
         IngestOp.send Sample.fiveEvents true,
         IngestOp.delete "batch_20251211_120001_0.jsonl"], none, false⟩ := by
  decide

/-- C26, failing input: a running server with an empty in-memory batch and two
events in its accept queue is stopped. `stop` returns with the queue empty
and the two events in the Batcher's in-memory batch: the Batcher was stopped
before the queue was drained, so nothing has been written to the log nor
offered to the sink. A second `stop` (the destructor makes one) is what
flushes them. -/
theorem IngestionServer.stop_failing_input :
    ((Sample.server [Sample.click "a" 1, Sample.click "b" 2]).stop "20251211_120000" true
      false).thrown = none ∧
    ((Sample.server [Sample.click "a" 1, Sample.click "b" 2]).stop "20251211_120000" true
      false).server.event_queue.items = [] ∧
    ((Sample.server [Sample.click "a" 1, Sample.click "b" 2]).stop "20251211_120000" true
      false).server.batcher.current_batch = [Sample.click "a" 1, Sample.click "b" 2] ∧
    ((Sample.server [Sample.click "a" 1, Sample.click "b" 2]).stop "20251211_120000" true
      false).trace = [] ∧
    ((Sample.server [Sample.click "a" 1, Sample.click "b" 2]).stop "20251211_120000" true
      false).server.log.dir = [] ∧
    (((Sample.server [Sample.click "a" 1, Sample.click "b" 2]).stop "20251211_120000" true
      false).server.stop "20251211_120001" true false).trace =
      [IngestOp.write "batch_20251211_120001_0.jsonl"
          [Sample.click "a" 1, Sample.click "b" 2],
       IngestOp.send [Sample.click "a" 1, Sample.click "b" 2] true,
       IngestOp.delete "batch_20251211_120001_0.jsonl"] := by
  decide

/-- C30, failing input: an iteration of `workerLoop` that finds one event in the
batch. The thread holds `batch_mutex_` through its `unique_lock` when it
enters `flushBatch`, whose `lock_guard` locks the same mutex again, whether
or not `wait_for` has blocked. With an empty batch `flushBatch` is not
entered, and in `stop` it is entered with the mutex released. -/
theorem Batcher.workerLoop_relock_failing_input :
    runLocks ((Sample.batcher [Sample.click "a" 1]).workerLoopLocks true) false = none ∧
    runLocks ((Sample.batcher [Sample.click "a" 1]).workerLoopLocks false) false = none ∧
    runLocks ((Sample.batcher []).workerLoopLocks true) false = some false ∧
    runLocks ((Sample.batcher [Sample.click "a" 1]).stopLocks) false = some false := by
  decide

end Atlas
